import Mathlib

/-!
Verification of the coup repository: a shallow embedding of the game FSM
(`src/fsm.rs`), the blocker-stack game facade (`src/game.rs`) and the belief
tracker data (`src/bots.rs`), together with theorems settling the claims about
them.

Modeling conventions, used consistently below:
* Rust `usize` is `Nat`; a `usize` subtraction that would underflow and a
  `Vec` index that would be out of range are Rust panics, modeled by a
  distinguished `crash` result (as is an `unwrap` of `None` and a loop that
  would diverge).
* A Rust `Vec` used as a stack (the deck, the blocker stack) is a `List`
  whose HEAD is the `Vec`'s END: `push` is `cons` and `pop` takes the head.
* The RNG is externalized: `play_action` takes the function
  `shuffle : deck -> deck` that `deck.shuffle(rng)` denotes for the ambient
  RNG, so two RNGs are two `shuffle` arguments.
-/

namespace fsm

/-- Card enumeration from fsm.rs (declaration order gives the derive(Ord) order). -/
inductive Card where
  | Unknown
  | Assassin
  | Ambassador
  | Captain
  | Contessa
  | Duke
deriving DecidableEq, Repr, BEq

/-- Numeric rank of a card realizing the derived Ord of fsm.rs. -/
def cardIdx : Card → Nat
  | .Unknown => 0
  | .Assassin => 1
  | .Ambassador => 2
  | .Captain => 3
  | .Contessa => 4
  | .Duke => 5

/-- Ordered insertion, used to realize the `sort` in `Vec::add_card`. -/
def insertCard (c : Card) : List Card → List Card
  | [] => [c]
  | d :: rest => if cardIdx c ≤ cardIdx d then c :: d :: rest else d :: insertCard c rest

/-- Sorting a hand by the card order (cards of equal value are identical, so
any correct sort agrees with the Rust `sort`). -/
def sortCards (l : List Card) : List Card := l.foldr insertCard []

/-- ActionType from fsm.rs. -/
inductive ActionType where
  | Income
  | ForeignAid
  | Coup (target : Nat)
  | Tax
  | Assassinate (target : Nat)
  | Exchange
  | Steal (target : Nat)
  | BlockForeignAid
  | BlockAssassination
  | BlockSteal (card : Card)
  | PassChallenge
  | PassBlock
  | Challenge
  | ShowCard (card : Card)
  | RevealCard (card : Card)
  | TakeCard
  | ShuffleDeck
  | DropCard (card : Card)
deriving DecidableEq, Repr

/-- Action from fsm.rs. -/
structure Action where
  player : Nat
  action_type : ActionType
deriving DecidableEq, Repr

/-- Error from fsm.rs. -/
inductive Error where
  | InvalidPlayer
  | InvalidTarget
  | InvalidAction
  | InvalidCard
  | InvalidSource
  | NotEnoughCoins
  | TooManyCoins
  | InactivePlayer
deriving DecidableEq, Repr

/-- ChallengeState from fsm.rs. -/
inductive ChallengeState where
  | Initial (initiator target : Nat) (card : Card)
  | ShownCard (initiator target : Nat)
  | InitiatorRevealedCard (target : Nat)
  | DeckShuffled (target : Nat)
  | TookCard
  | TargetRevealedCard
deriving DecidableEq, Repr

/-- StateType from fsm.rs; the `Rc<StateType>` source of a nested challenge is
plain recursion here. -/
inductive StateType where
  | Turn (player : Nat)
  | ForeignAid (player : Nat)
  | Tax (player : Nat)
  | Exchange (player : Nat)
  | Assassination (player target : Nat) (can_challenge : Bool)
  | Steal (player target : Nat) (can_challenge : Bool)
  | Challenge (current_player : Nat) (source : StateType) (state : ChallengeState)
  | BlockForeignAid (player target : Nat)
  | NeedCards (player count : Nat)
  | TookCards (player count : Nat)
  | DroppedCard (player left : Nat)
  | BlockAssassination (player target : Nat)
  | BlockSteal (player target : Nat) (card : Card)
  | LostInfluence (player current_player : Nat)
deriving DecidableEq, Repr

def CARDS_PER_PLAYER : Nat := 2
def MAX_CARDS_TO_EXCHANGE : Nat := 2
def ASSASSINATION_COST : Nat := 3
def INCOME : Nat := 1
def FOREIGN_AID : Nat := 2
def TAX : Nat := 3
def MAX_STEAL : Nat := 2
def COUP_COST : Nat := 7
def MAX_COINS : Nat := 10

/-- The PlayerCards capability trait of fsm.rs; `drop_card` returns `none` on
the Rust panic (unwrap of a missing card, or an unknown-count underflow). -/
structure PlayerCardsOps (π : Type) where
  has_card : π → Card → Bool
  count : π → Nat
  add_card : π → Card → π
  drop_card : π → Card → Option π

/-- The Deck capability trait of fsm.rs; `pop_card` returns `none` on the Rust
panic (pop of an empty deck). Shuffling is the externally supplied function. -/
structure DeckOps (δ : Type) where
  count : δ → Nat
  pop_card : δ → Option (Card × δ)
  push_card : δ → Card → δ

/-- The full mutable state threaded through `play_action` (struct State of fsm.rs). -/
structure GState (π δ : Type) where
  state_type : StateType
  player_coins : List Nat
  player_hands : List Nat
  player_cards_counter : List Nat
  player_cards : List π
  deck : δ
  revealed_cards : List Card
deriving Repr, DecidableEq

/-- Result of one inner transition function: new state and successor
state-type, an error leaving the given state visible, or a Rust panic. -/
inductive StepRes (π δ : Type) where
  | ok (s : GState π δ) (t : StateType)
  | err (e : Error) (s : GState π δ)
  | crash

/-- Result of `play_action`: `crash` stands for a Rust panic or divergence. -/
inductive PRes (π δ : Type) where
  | ok (s : GState π δ)
  | err (e : Error) (s : GState π δ)
  | crash
deriving DecidableEq

/-- Result of one challenge sub-machine step. -/
inductive ChStepRes (π δ : Type) where
  | ok (s : GState π δ) (c : ChallengeState)
  | err (e : Error) (s : GState π δ)
  | crash

/-- Fueled loop body of `get_next_player` (fsm.rs): repeatedly advance while
the next player's hand is 0. -/
def get_next_player_aux (hands : List Nat) : Nat → Nat → Option Nat
  | 0, _ => none
  | fuel + 1, player =>
    if hands.getD ((player + 1) % hands.length) 0 = 0 then
      get_next_player_aux hands fuel (player + 1)
    else
      some ((player + 1) % hands.length)

/-- `get_next_player` of fsm.rs. The Rust `while` loop diverges iff every hand
is 0 (and panics on an empty slice); fuel `hands.length` always suffices
otherwise, and `none` stands for the divergence. -/
def get_next_player (player : Nat) (hands : List Nat) : Option Nat :=
  get_next_player_aux hands hands.length player

/-- `start_exchange` of fsm.rs. -/
def start_exchange {δ : Type} (dk : DeckOps δ) (player : Nat) (hands : List Nat)
    (deck : δ) : Option StateType :=
  match MAX_CARDS_TO_EXCHANGE.min (dk.count deck) with
  | 0 => (get_next_player player hands).map (fun p => StateType.Turn p)
  | count => some (StateType.NeedCards player count)

variable {π δ : Type}

/-- The `matches!(action_type, ActionType::Coup(..))` test of `on_turn`. -/
def isCoup : ActionType → Bool
  | .Coup _ => true
  | _ => false

/-- `on_turn` of fsm.rs. -/
def on_turn (player : Nat) (a : Action) (s : GState π δ) : StepRes π δ :=
  if player ≠ a.player then .err .InvalidPlayer s else
  match s.player_coins[player]? with
  | none => .crash
  | some coins =>
    if MAX_COINS ≤ coins ∧ ¬ isCoup a.action_type then .err .TooManyCoins s else
    match a.action_type with
    | .Income =>
      let s1 := { s with player_coins := s.player_coins.set player (coins + INCOME) }
      match get_next_player player s1.player_hands with
      | none => .crash
      | some next => .ok s1 (.Turn next)
    | .ForeignAid => .ok s (.ForeignAid player)
    | .Tax => .ok s (.Tax player)
    | .Exchange => .ok s (.Exchange player)
    | .Coup target =>
      if target = player then .err .InvalidTarget s else
      match s.player_hands[target]? with
      | none => .crash
      | some th =>
        if th = 0 then .err .InvalidTarget s else
        if coins < COUP_COST then .err .NotEnoughCoins s else
        let s1 := { s with player_coins := s.player_coins.set player (coins - COUP_COST) }
        .ok s1 (.LostInfluence target player)
    | .Assassinate target =>
      if target = player then .err .InvalidTarget s else
      match s.player_hands[target]? with
      | none => .crash
      | some th =>
        if th = 0 then .err .InvalidTarget s else
        if coins < ASSASSINATION_COST then .err .NotEnoughCoins s else
        let s1 := { s with player_coins := s.player_coins.set player (coins - ASSASSINATION_COST) }
        .ok s1 (.Assassination player target true)
    | .Steal target =>
      if target = player then .err .InvalidTarget s else
      match s.player_hands[target]? with
      | none => .crash
      | some th =>
        if th = 0 then .err .InvalidTarget s else
        .ok s (.Steal player target true)
    | _ => .err .InvalidAction s

/-- `on_foreign_aid` of fsm.rs. -/
def on_foreign_aid (player : Nat) (a : Action) (s : GState π δ) : StepRes π δ :=
  match a.action_type with
  | .PassBlock =>
    if player ≠ a.player then .err .InvalidPlayer s else
    match s.player_coins[player]? with
    | none => .crash
    | some coins =>
      let s1 := { s with player_coins := s.player_coins.set player (coins + FOREIGN_AID) }
      match get_next_player player s1.player_hands with
      | none => .crash
      | some next => .ok s1 (.Turn next)
  | .BlockForeignAid =>
    if player = a.player then .err .InvalidTarget s else
    .ok s (.BlockForeignAid a.player player)
  | _ => .err .InvalidAction s

/-- `on_tax` of fsm.rs. -/
def on_tax (player : Nat) (a : Action) (s : GState π δ) : StepRes π δ :=
  match a.action_type with
  | .PassChallenge =>
    if player ≠ a.player then .err .InvalidPlayer s else
    match s.player_coins[player]? with
    | none => .crash
    | some coins =>
      let s1 := { s with player_coins := s.player_coins.set player (coins + TAX) }
      match get_next_player player s1.player_hands with
      | none => .crash
      | some next => .ok s1 (.Turn next)
  | .Challenge =>
    if player = a.player then .err .InvalidTarget s else
    .ok s (.Challenge player (.Tax player) (.Initial a.player player .Duke))
  | _ => .err .InvalidAction s

/-- `on_exchange` of fsm.rs. -/
def on_exchange (dk : DeckOps δ) (player : Nat) (a : Action) (s : GState π δ) : StepRes π δ :=
  match a.action_type with
  | .PassChallenge =>
    if player ≠ a.player then .err .InvalidPlayer s else
    match start_exchange dk player s.player_hands s.deck with
    | none => .crash
    | some t => .ok s t
  | .Challenge =>
    if player = a.player then .err .InvalidTarget s else
    .ok s (.Challenge player (.Exchange player) (.Initial a.player player .Ambassador))
  | _ => .err .InvalidAction s

/-- `on_assassination` of fsm.rs. -/
def on_assassination (player target : Nat) (can_challenge : Bool) (a : Action)
    (s : GState π δ) : StepRes π δ :=
  if can_challenge then
    match a.action_type with
    | .PassChallenge =>
      if player ≠ a.player then .err .InvalidPlayer s else
      .ok s (.Assassination player target false)
    | .Challenge =>
      if player = a.player then .err .InvalidTarget s else
      .ok s (.Challenge player (.Assassination player target true) (.Initial a.player player .Assassin))
    | _ => .err .InvalidAction s
  else
    match a.action_type with
    | .PassBlock =>
      if player ≠ a.player then .err .InvalidPlayer s else
      match s.player_hands[target]? with
      | none => .crash
      | some th =>
        if th = 0 then
          match get_next_player player s.player_hands with
          | none => .crash
          | some next => .ok s (.Turn next)
        else .ok s (.LostInfluence target player)
    | .BlockAssassination =>
      if player = a.player ∨ target ≠ a.player then .err .InvalidTarget s else
      .ok s (.BlockAssassination a.player player)
    | _ => .err .InvalidAction s

/-- `on_steal` of fsm.rs. -/
def on_steal (player target : Nat) (can_challenge : Bool) (a : Action)
    (s : GState π δ) : StepRes π δ :=
  if can_challenge then
    match a.action_type with
    | .PassChallenge =>
      if player ≠ a.player then .err .InvalidPlayer s else
      .ok s (.Steal player target false)
    | .Challenge =>
      if player = a.player then .err .InvalidTarget s else
      .ok s (.Challenge player (.Steal player target true) (.Initial a.player player .Captain))
    | _ => .err .InvalidAction s
  else
    match a.action_type with
    | .PassBlock =>
      if player ≠ a.player then .err .InvalidPlayer s else
      match s.player_coins[target]? with
      | none => .crash
      | some tc =>
        let coins := tc.min MAX_STEAL
        let pcs := s.player_coins.set target (tc - coins)
        match pcs[player]? with
        | none => .crash
        | some pc =>
          let s1 := { s with player_coins := pcs.set player (pc + coins) }
          match get_next_player player s1.player_hands with
          | none => .crash
          | some next => .ok s1 (.Turn next)
    | .BlockSteal card =>
      if player = a.player ∨ target ≠ a.player then .err .InvalidTarget s else
      if ¬ (card = .Ambassador ∨ card = .Captain) then .err .InvalidCard s else
      .ok s (.BlockSteal a.player player card)
    | _ => .err .InvalidAction s

/-- `on_block_foreign_aid` of fsm.rs. -/
def on_block_foreign_aid (player target : Nat) (a : Action) (s : GState π δ) : StepRes π δ :=
  match a.action_type with
  | .PassChallenge =>
    if player ≠ a.player then .err .InvalidPlayer s else
    match get_next_player target s.player_hands with
    | none => .crash
    | some next => .ok s (.Turn next)
  | .Challenge =>
    if player = a.player then .err .InvalidTarget s else
    .ok s (.Challenge target (.BlockForeignAid player target) (.Initial a.player player .Duke))
  | _ => .err .InvalidAction s

/-- `on_need_cards` of fsm.rs. -/
def on_need_cards (po : PlayerCardsOps π) (dk : DeckOps δ) (player count : Nat)
    (a : Action) (s : GState π δ) : StepRes π δ :=
  if player ≠ a.player then .err .InvalidPlayer s else
  match a.action_type with
  | .TakeCard =>
    match dk.pop_card s.deck with
    | none => .crash
    | some (card, deck1) =>
      match s.player_cards[player]? with
      | none => .crash
      | some pc =>
        let s1 := { s with player_cards := s.player_cards.set player (po.add_card pc card),
                           deck := deck1 }
        match s1.player_cards_counter[player]? with
        | none => .crash
        | some cnt =>
          let s2 := { s1 with player_cards_counter := s1.player_cards_counter.set player (cnt + 1) }
          if count = 1 then
            match s2.player_hands[player]? with
            | none => .crash
            | some h =>
              if cnt + 1 < h then .crash else
              .ok s2 (.TookCards player (cnt + 1 - h))
          else
            if count = 0 then .crash else
            .ok s2 (.NeedCards player (count - 1))
  | _ => .err .InvalidAction s

/-- `on_took_cards` of fsm.rs. -/
def on_took_cards (po : PlayerCardsOps π) (dk : DeckOps δ) (player count : Nat)
    (a : Action) (s : GState π δ) : StepRes π δ :=
  match a.action_type with
  | .DropCard card =>
    if player ≠ a.player then .err .InvalidPlayer s else
    match s.player_cards[player]? with
    | none => .crash
    | some pc =>
      if ¬ po.has_card pc card then .err .InvalidCard s else
      match po.drop_card pc card with
      | none => .crash
      | some pc1 =>
        match s.player_cards_counter[player]? with
        | none => .crash
        | some cnt =>
          if cnt = 0 then .crash else
          let s1 := { s with player_cards := s.player_cards.set player pc1,
                             player_cards_counter := s.player_cards_counter.set player (cnt - 1),
                             deck := dk.push_card s.deck card }
          if count = 1 then
            match get_next_player player s1.player_hands with
            | none => .crash
            | some next => .ok s1 (.Turn next)
          else
            if count = 0 then .crash else
            .ok s1 (.TookCards player (count - 1))
  | _ => .err .InvalidAction s

/-- `on_dropped_cards` of fsm.rs. -/
def on_dropped_cards (po : PlayerCardsOps π) (dk : DeckOps δ) (player left : Nat)
    (a : Action) (s : GState π δ) : StepRes π δ :=
  match a.action_type with
  | .DropCard card =>
    if player ≠ a.player then .err .InvalidPlayer s else
    match s.player_cards[player]? with
    | none => .crash
    | some pc =>
      if ¬ po.has_card pc card then .err .InvalidCard s else
      match po.drop_card pc card with
      | none => .crash
      | some pc1 =>
        match s.player_cards_counter[player]? with
        | none => .crash
        | some cnt =>
          if cnt = 0 then .crash else
          let s1 := { s with player_cards := s.player_cards.set player pc1,
                             player_cards_counter := s.player_cards_counter.set player (cnt - 1),
                             deck := dk.push_card s.deck card }
          if left = 1 then
            match get_next_player player s1.player_hands with
            | none => .crash
            | some next => .ok s1 (.Turn next)
          else
            if left = 0 then .crash else
            .ok s1 (.DroppedCard player (left - 1))
  | _ => .err .InvalidAction s

/-- `on_block_assassination` of fsm.rs. -/
def on_block_assassination (player target : Nat) (a : Action) (s : GState π δ) : StepRes π δ :=
  match a.action_type with
  | .PassChallenge =>
    if player ≠ a.player then .err .InvalidPlayer s else
    match get_next_player target s.player_hands with
    | none => .crash
    | some next => .ok s (.Turn next)
  | .Challenge =>
    if player = a.player then .err .InvalidPlayer s else
    .ok s (.Challenge target (.BlockAssassination player target) (.Initial a.player player .Contessa))
  | _ => .err .InvalidAction s

/-- `on_block_steal` of fsm.rs. -/
def on_block_steal (player target : Nat) (card : Card) (a : Action) (s : GState π δ) : StepRes π δ :=
  match a.action_type with
  | .PassChallenge =>
    if player ≠ a.player then .err .InvalidPlayer s else
    match get_next_player target s.player_hands with
    | none => .crash
    | some next => .ok s (.Turn next)
  | .Challenge =>
    if player = a.player then .err .InvalidPlayer s else
    .ok s (.Challenge target (.BlockSteal player target card) (.Initial a.player player card))
  | _ => .err .InvalidAction s

/-- `on_lost_influence` of fsm.rs. -/
def on_lost_influence (po : PlayerCardsOps π) (player current_turn_player : Nat)
    (a : Action) (s : GState π δ) : StepRes π δ :=
  match a.action_type with
  | .RevealCard card =>
    if player ≠ a.player then .err .InvalidPlayer s else
    match s.player_cards[player]? with
    | none => .crash
    | some pc =>
      if ¬ po.has_card pc card then .err .InvalidCard s else
      match po.drop_card pc card with
      | none => .crash
      | some pc1 =>
        match s.player_hands[player]?, s.player_cards_counter[player]? with
        | some h, some cnt =>
          if h = 0 ∨ cnt = 0 then .crash else
          let s1 := { s with player_cards := s.player_cards.set player pc1,
                             player_hands := s.player_hands.set player (h - 1),
                             player_cards_counter := s.player_cards_counter.set player (cnt - 1),
                             revealed_cards := s.revealed_cards ++ [card] }
          match get_next_player current_turn_player s1.player_hands with
          | none => .crash
          | some next => .ok s1 (.Turn next)
        | _, _ => .crash
  | _ => .err .InvalidAction s

/-- `on_challenge_initial` of fsm.rs. -/
def on_challenge_initial (po : PlayerCardsOps π) (dk : DeckOps δ)
    (initiator target : Nat) (card : Card) (a : Action) (s : GState π δ) : ChStepRes π δ :=
  if target ≠ a.player then .err .InvalidPlayer s else
  match a.action_type with
  | .ShowCard shown_card =>
    if shown_card ≠ card then .err .InvalidCard s else
    match s.player_cards[target]? with
    | none => .crash
    | some pc =>
      if ¬ po.has_card pc card then .err .InvalidCard s else
      match po.drop_card pc card with
      | none => .crash
      | some pc1 =>
        match s.player_cards_counter[target]? with
        | none => .crash
        | some cnt =>
          if cnt = 0 then .crash else
          let s1 := { s with player_cards := s.player_cards.set target pc1,
                             player_cards_counter := s.player_cards_counter.set target (cnt - 1),
                             deck := dk.push_card s.deck card }
          .ok s1 (.ShownCard initiator target)
  | .RevealCard revealed_card =>
    match s.player_cards[target]? with
    | none => .crash
    | some pc =>
      if ¬ po.has_card pc revealed_card then .err .InvalidCard s else
      match po.drop_card pc revealed_card with
      | none => .crash
      | some pc1 =>
        match s.player_hands[target]?, s.player_cards_counter[target]? with
        | some h, some cnt =>
          if h = 0 ∨ cnt = 0 then .crash else
          let s1 := { s with player_cards := s.player_cards.set target pc1,
                             player_hands := s.player_hands.set target (h - 1),
                             player_cards_counter := s.player_cards_counter.set target (cnt - 1),
                             revealed_cards := s.revealed_cards ++ [revealed_card] }
          .ok s1 .TargetRevealedCard
        | _, _ => .crash
  | _ => .err .InvalidAction s

/-- `on_challenge_shown_card` of fsm.rs. -/
def on_challenge_shown_card (po : PlayerCardsOps π) (initiator target : Nat)
    (a : Action) (s : GState π δ) : ChStepRes π δ :=
  if initiator ≠ a.player then .err .InvalidPlayer s else
  match a.action_type with
  | .RevealCard card =>
    match s.player_cards[initiator]? with
    | none => .crash
    | some pc =>
      if ¬ po.has_card pc card then .err .InvalidCard s else
      match po.drop_card pc card with
      | none => .crash
      | some pc1 =>
        match s.player_hands[initiator]?, s.player_cards_counter[initiator]? with
        | some h, some cnt =>
          if h = 0 ∨ cnt = 0 then .crash else
          let s1 := { s with player_cards := s.player_cards.set initiator pc1,
                             player_hands := s.player_hands.set initiator (h - 1),
                             player_cards_counter := s.player_cards_counter.set initiator (cnt - 1),
                             revealed_cards := s.revealed_cards ++ [card] }
          .ok s1 (.InitiatorRevealedCard target)
        | _, _ => .crash
  | _ => .err .InvalidAction s

/-- `on_challenge_initiator_revealed_card` of fsm.rs: the only transition that
invokes the RNG, through the externalized `shuffle`. -/
def on_challenge_initiator_revealed_card (shuffle : δ → δ) (target : Nat)
    (a : Action) (s : GState π δ) : ChStepRes π δ :=
  if target ≠ a.player then .err .InvalidPlayer s else
  match a.action_type with
  | .ShuffleDeck => .ok { s with deck := shuffle s.deck } (.DeckShuffled target)
  | _ => .err .InvalidAction s

/-- `on_challenge_deck_shuffled` of fsm.rs. -/
def on_challenge_deck_shuffled (po : PlayerCardsOps π) (dk : DeckOps δ) (target : Nat)
    (a : Action) (s : GState π δ) : ChStepRes π δ :=
  if target ≠ a.player then .err .InvalidPlayer s else
  match a.action_type with
  | .TakeCard =>
    match dk.pop_card s.deck with
    | none => .crash
    | some (card, deck1) =>
      match s.player_cards[target]? with
      | none => .crash
      | some pc =>
        let s1 := { s with player_cards := s.player_cards.set target (po.add_card pc card),
                           deck := deck1 }
        match s1.player_cards_counter[target]? with
        | none => .crash
        | some cnt =>
          .ok { s1 with player_cards_counter := s1.player_cards_counter.set target (cnt + 1) } .TookCard
  | _ => .err .InvalidAction s

/-- `play_challenge_action` of fsm.rs. -/
def play_challenge_action (po : PlayerCardsOps π) (dk : DeckOps δ) (shuffle : δ → δ)
    (state : ChallengeState) (a : Action) (s : GState π δ) : ChStepRes π δ :=
  match state with
  | .Initial initiator target card => on_challenge_initial po dk initiator target card a s
  | .ShownCard initiator target => on_challenge_shown_card po initiator target a s
  | .InitiatorRevealedCard target => on_challenge_initiator_revealed_card shuffle target a s
  | .DeckShuffled target => on_challenge_deck_shuffled po dk target a s
  | _ => .err .InvalidAction s

/-- `on_challenge` of fsm.rs: run the sub-machine, then resume the parent
source on a terminal outcome. -/
def on_challenge (po : PlayerCardsOps π) (dk : DeckOps δ) (shuffle : δ → δ)
    (current_player : Nat) (source : StateType) (state : ChallengeState)
    (a : Action) (s : GState π δ) : StepRes π δ :=
  match play_challenge_action po dk shuffle state a s with
  | .crash => .crash
  | .err e s1 => .err e s1
  | .ok s1 c =>
    match c with
    | .TookCard =>
      match source with
      | .Tax player =>
        match s1.player_coins[player]? with
        | none => .crash
        | some coins =>
          let s2 := { s1 with player_coins := s1.player_coins.set player (coins + TAX) }
          match get_next_player current_player s2.player_hands with
          | none => .crash
          | some next => .ok s2 (.Turn next)
      | .BlockForeignAid _ _ | .BlockAssassination _ _ | .BlockSteal _ _ _ =>
        match get_next_player current_player s1.player_hands with
        | none => .crash
        | some next => .ok s1 (.Turn next)
      | .Exchange player =>
        match start_exchange dk player s1.player_hands s1.deck with
        | none => .crash
        | some t => .ok s1 t
      | .Assassination player target _ => .ok s1 (.Assassination player target false)
      | .Steal player target _ => .ok s1 (.Steal player target false)
      | _ => .err .InvalidSource s1
    | .TargetRevealedCard =>
      match source with
      | .BlockForeignAid _ target => .ok s1 (.ForeignAid target)
      | .BlockAssassination player target => .ok s1 (.Assassination target player false)
      | .BlockSteal player target _ => .ok s1 (.Steal target player false)
      | .Tax _ | .Exchange _ | .Assassination _ _ _ | .Steal _ _ _ =>
        match get_next_player current_player s1.player_hands with
        | none => .crash
        | some next => .ok s1 (.Turn next)
      | _ => .err .InvalidSource s1
    | v => .ok s1 (.Challenge current_player source v)

/-- The dispatch on the current state type inside `play_action` of fsm.rs. -/
def dispatch (po : PlayerCardsOps π) (dk : DeckOps δ) (shuffle : δ → δ)
    (a : Action) (s : GState π δ) : StepRes π δ :=
  match s.state_type with
  | .Turn player => on_turn player a s
  | .ForeignAid player => on_foreign_aid player a s
  | .Tax player => on_tax player a s
  | .Exchange player => on_exchange dk player a s
  | .Assassination player target cc => on_assassination player target cc a s
  | .Steal player target cc => on_steal player target cc a s
  | .Challenge cp source cs => on_challenge po dk shuffle cp source cs a s
  | .BlockForeignAid player target => on_block_foreign_aid player target a s
  | .NeedCards player count => on_need_cards po dk player count a s
  | .TookCards player count => on_took_cards po dk player count a s
  | .DroppedCard player left => on_dropped_cards po dk player left a s
  | .BlockAssassination player target => on_block_assassination player target a s
  | .BlockSteal player target card => on_block_steal player target card a s
  | .LostInfluence player cp => on_lost_influence po player cp a s

/-- `play_action` of fsm.rs: the single transition function of the FSM. -/
def play_action (po : PlayerCardsOps π) (dk : DeckOps δ) (shuffle : δ → δ)
    (a : Action) (s : GState π δ) : PRes π δ :=
  match s.player_hands[a.player]? with
  | none => .crash
  | some h =>
    if h = 0 then .err .InactivePlayer s else
    match dispatch po dk shuffle a s with
    | .ok s1 t => .ok { s1 with state_type := t }
    | .err e s1 => .err e s1
    | .crash => .crash

/-- The concrete `impl PlayerCards for Vec<Card>` of fsm.rs. -/
def vec_cards : PlayerCardsOps (List Card) where
  has_card l c := l.contains c
  count l := l.length
  add_card l c := sortCards (l ++ [c])
  drop_card l c := if l.contains c then some (l.erase c) else none

/-- The concrete `impl Deck for Vec<Card>` of fsm.rs (head of the list is the
end of the Vec: `pop` takes the head, `push` conses). -/
def vec_deck : DeckOps (List Card) where
  count := List.length
  pop_card l := match l with
    | [] => none
    | c :: rest => some (c, rest)
  push_card l c := c :: l

/-- Sources from which the FSM itself builds a nested challenge: the seven
state kinds `on_challenge` can resume. -/
def valid_challenge_source : StateType → Bool
  | .Tax _ => true
  | .Exchange _ => true
  | .Assassination _ _ _ => true
  | .Steal _ _ _ => true
  | .BlockForeignAid _ _ => true
  | .BlockAssassination _ _ => true
  | .BlockSteal _ _ _ => true
  | _ => false

/-- Well-formedness of a state type: a nested challenge carries a source the
FSM itself constructs. All other components are unconstrained. -/
def wf_state_type : StateType → Bool
  | .Challenge _ src _ => valid_challenge_source src
  | _ => true

theorem on_turn_err {player : Nat} {a : Action} {s s' : GState π δ} {e : Error}
    (h : on_turn player a s = .err e s') : s' = s := by
  unfold on_turn at h
  repeat' split at h
  all_goals try simp_all
  all_goals repeat' split at h
  all_goals simp_all

theorem on_foreign_aid_err {player : Nat} {a : Action} {s s' : GState π δ} {e : Error}
    (h : on_foreign_aid player a s = .err e s') : s' = s := by
  unfold on_foreign_aid at h
  repeat' split at h
  all_goals try simp_all
  all_goals repeat' split at h
  all_goals simp_all

theorem on_tax_err {player : Nat} {a : Action} {s s' : GState π δ} {e : Error}
    (h : on_tax player a s = .err e s') : s' = s := by
  unfold on_tax at h
  repeat' split at h
  all_goals try simp_all
  all_goals repeat' split at h
  all_goals simp_all

theorem on_exchange_err {dk : DeckOps δ} {player : Nat} {a : Action} {s s' : GState π δ} {e : Error}
    (h : on_exchange dk player a s = .err e s') : s' = s := by
  unfold on_exchange at h
  repeat' split at h
  all_goals try simp_all
  all_goals repeat' split at h
  all_goals simp_all

theorem on_assassination_err {player target : Nat} {cc : Bool} {a : Action}
    {s s' : GState π δ} {e : Error}
    (h : on_assassination player target cc a s = .err e s') : s' = s := by
  unfold on_assassination at h
  repeat' split at h
  all_goals try simp_all
  all_goals repeat' split at h
  all_goals simp_all

theorem on_steal_err {player target : Nat} {cc : Bool} {a : Action}
    {s s' : GState π δ} {e : Error}
    (h : on_steal player target cc a s = .err e s') : s' = s := by
  unfold on_steal at h
  repeat' split at h
  all_goals try simp_all
  all_goals repeat' split at h
  all_goals simp_all

theorem on_block_foreign_aid_err {player target : Nat} {a : Action}
    {s s' : GState π δ} {e : Error}
    (h : on_block_foreign_aid player target a s = .err e s') : s' = s := by
  unfold on_block_foreign_aid at h
  repeat' split at h
  all_goals try simp_all
  all_goals repeat' split at h
  all_goals simp_all

theorem on_need_cards_err {po : PlayerCardsOps π} {dk : DeckOps δ} {player count : Nat}
    {a : Action} {s s' : GState π δ} {e : Error}
    (h : on_need_cards po dk player count a s = .err e s') : s' = s := by
  unfold on_need_cards at h
  repeat' split at h
  all_goals try simp_all
  all_goals repeat' split at h
  all_goals simp_all

theorem on_took_cards_err {po : PlayerCardsOps π} {dk : DeckOps δ} {player count : Nat}
    {a : Action} {s s' : GState π δ} {e : Error}
    (h : on_took_cards po dk player count a s = .err e s') : s' = s := by
  unfold on_took_cards at h
  repeat' split at h
  all_goals try simp_all
  all_goals repeat' split at h
  all_goals simp_all

theorem on_dropped_cards_err {po : PlayerCardsOps π} {dk : DeckOps δ} {player left : Nat}
    {a : Action} {s s' : GState π δ} {e : Error}
    (h : on_dropped_cards po dk player left a s = .err e s') : s' = s := by
  unfold on_dropped_cards at h
  repeat' split at h
  all_goals try simp_all
  all_goals repeat' split at h
  all_goals simp_all

theorem on_block_assassination_err {player target : Nat} {a : Action}
    {s s' : GState π δ} {e : Error}
    (h : on_block_assassination player target a s = .err e s') : s' = s := by
  unfold on_block_assassination at h
  repeat' split at h
  all_goals try simp_all
  all_goals repeat' split at h
  all_goals simp_all

theorem on_block_steal_err {player target : Nat} {card : Card} {a : Action}
    {s s' : GState π δ} {e : Error}
    (h : on_block_steal player target card a s = .err e s') : s' = s := by
  unfold on_block_steal at h
  repeat' split at h
  all_goals try simp_all
  all_goals repeat' split at h
  all_goals simp_all

theorem on_lost_influence_err {po : PlayerCardsOps π} {player cp : Nat}
    {a : Action} {s s' : GState π δ} {e : Error}
    (h : on_lost_influence po player cp a s = .err e s') : s' = s := by
  unfold on_lost_influence at h
  repeat' split at h
  all_goals try simp_all
  all_goals repeat' split at h
  all_goals simp_all

theorem play_challenge_action_err {po : PlayerCardsOps π} {dk : DeckOps δ}
    {shuffle : δ → δ} {cs : ChallengeState} {a : Action} {s s' : GState π δ} {e : Error}
    (h : play_challenge_action po dk shuffle cs a s = .err e s') : s' = s := by
  unfold play_challenge_action at h
  split at h
  case h_1 =>
    unfold on_challenge_initial at h
    repeat' split at h
    all_goals try simp_all
    all_goals repeat' split at h
    all_goals simp_all
  case h_2 =>
    unfold on_challenge_shown_card at h
    repeat' split at h
    all_goals try simp_all
    all_goals repeat' split at h
    all_goals simp_all
  case h_3 =>
    unfold on_challenge_initiator_revealed_card at h
    repeat' split at h
    all_goals simp_all
  case h_4 =>
    unfold on_challenge_deck_shuffled at h
    repeat' split at h
    all_goals try simp_all
    all_goals repeat' split at h
    all_goals simp_all
  case h_5 => simp_all

theorem on_challenge_err {po : PlayerCardsOps π} {dk : DeckOps δ} {shuffle : δ → δ}
    {cp : Nat} {source : StateType} {cs : ChallengeState} {a : Action}
    {s s' : GState π δ} {e : Error}
    (hsrc : valid_challenge_source source = true)
    (h : on_challenge po dk shuffle cp source cs a s = .err e s') : s' = s := by
  unfold on_challenge at h
  split at h
  case h_1 => simp_all
  case h_2 hpc =>
    cases h
    exact play_challenge_action_err hpc
  case h_3 s1 c hpc =>
    unfold valid_challenge_source at hsrc
    repeat' split at h
    all_goals try simp_all
    all_goals repeat' split at h
    all_goals simp_all

theorem dispatch_err {po : PlayerCardsOps π} {dk : DeckOps δ} {shuffle : δ → δ}
    {a : Action} {s s' : GState π δ} {e : Error}
    (hwf : wf_state_type s.state_type = true)
    (h : dispatch po dk shuffle a s = .err e s') : s' = s := by
  unfold dispatch at h
  split at h
  case h_1 => exact on_turn_err h
  case h_2 => exact on_foreign_aid_err h
  case h_3 => exact on_tax_err h
  case h_4 => exact on_exchange_err h
  case h_5 => exact on_assassination_err h
  case h_6 => exact on_steal_err h
  case h_7 heq =>
    refine on_challenge_err ?_ h
    rw [heq] at hwf
    simpa [wf_state_type] using hwf
  case h_8 => exact on_block_foreign_aid_err h
  case h_9 => exact on_need_cards_err h
  case h_10 => exact on_took_cards_err h
  case h_11 => exact on_dropped_cards_err h
  case h_12 => exact on_block_assassination_err h
  case h_13 => exact on_block_steal_err h
  case h_14 => exact on_lost_influence_err h

theorem play_challenge_action_shuffle {po : PlayerCardsOps π} {dk : DeckOps δ}
    {sh1 sh2 : δ → δ} {cs : ChallengeState} {a : Action} {s : GState π δ}
    (h : a.action_type ≠ .ShuffleDeck) :
    play_challenge_action po dk sh1 cs a s = play_challenge_action po dk sh2 cs a s := by
  cases cs <;> try rfl
  case InitiatorRevealedCard target =>
    show on_challenge_initiator_revealed_card sh1 target a s =
      on_challenge_initiator_revealed_card sh2 target a s
    unfold on_challenge_initiator_revealed_card
    split
    · rfl
    · split <;> simp_all

theorem on_challenge_shuffle {po : PlayerCardsOps π} {dk : DeckOps δ}
    {sh1 sh2 : δ → δ} {cp : Nat} {source : StateType} {cs : ChallengeState}
    {a : Action} {s : GState π δ} (h : a.action_type ≠ .ShuffleDeck) :
    on_challenge po dk sh1 cp source cs a s = on_challenge po dk sh2 cp source cs a s := by
  unfold on_challenge
  rw [play_challenge_action_shuffle h]

theorem dispatch_shuffle {po : PlayerCardsOps π} {dk : DeckOps δ}
    {sh1 sh2 : δ → δ} {a : Action} {s : GState π δ} (h : a.action_type ≠ .ShuffleDeck) :
    dispatch po dk sh1 a s = dispatch po dk sh2 a s := by
  unfold dispatch
  cases hst : s.state_type <;> first
    | rfl
    | exact on_challenge_shuffle h

/-- Claim C7. For every state and every action whose type is not
`ShuffleDeck`, `play_action` never consumes the RNG: running it with any two
RNG streams (any two `shuffle` functions) returns the same result — the same
`Ok`/`Err` outcome and identical final states. -/
theorem play_action_rng_independent {π δ : Type} (po : PlayerCardsOps π) (dk : DeckOps δ)
    (sh1 sh2 : δ → δ) (a : Action) (s : GState π δ)
    (h : a.action_type ≠ .ShuffleDeck) :
    play_action po dk sh1 a s = play_action po dk sh2 a s := by
  unfold play_action
  rw [dispatch_shuffle h]

/-- Witness for C7 at a concrete input. -/
theorem play_action_rng_independent_witness :
    (ActionType.Income ≠ ActionType.ShuffleDeck) ∧
    play_action vec_cards vec_deck (fun d => d)
        ⟨0, .Income⟩
        ⟨.Turn 0, [2, 2], [2, 2], [2, 2],
          [[.Assassin, .Captain], [.Ambassador, .Duke]], [.Contessa], []⟩ =
      play_action vec_cards vec_deck (fun d => d.reverse)
        ⟨0, .Income⟩
        ⟨.Turn 0, [2, 2], [2, 2], [2, 2],
          [[.Assassin, .Captain], [.Ambassador, .Duke]], [.Contessa], []⟩ :=
  ⟨by decide, play_action_rng_independent vec_cards vec_deck _ _ _ _ (by decide)⟩

theorem get_next_player_aux_none {hands : List Nat} :
    ∀ {fuel p : Nat}, get_next_player_aux hands fuel p = none →
      ∀ i, i < fuel → hands.getD ((p + 1 + i) % hands.length) 0 = 0 := by
  intro fuel
  induction fuel with
  | zero => intro p _ i hi; omega
  | succ fuel ih =>
    intro p h i hi
    unfold get_next_player_aux at h
    split at h
    case isTrue h0 =>
      match i with
      | 0 => simpa using h0
      | j + 1 =>
        have := ih h j (by omega)
        have harith : p + 1 + 1 + j = p + 1 + (j + 1) := by omega
        rwa [harith] at this
    case isFalse => simp at h

theorem get_next_player_aux_spec {hands : List Nat} :
    ∀ {fuel p : Nat},
      (∃ j, j < fuel ∧ hands.getD ((p + 1 + j) % hands.length) 0 ≠ 0) →
      ∃ k, 1 ≤ k ∧ k ≤ fuel ∧
        get_next_player_aux hands fuel p = some ((p + k) % hands.length) ∧
        hands.getD ((p + k) % hands.length) 0 ≠ 0 ∧
        ∀ i, 1 ≤ i → i < k → hands.getD ((p + i) % hands.length) 0 = 0 := by
  intro fuel
  induction fuel with
  | zero => rintro p ⟨j, hj, _⟩; omega
  | succ fuel ih =>
    rintro p ⟨j, hj, hjnz⟩
    by_cases h0 : hands.getD ((p + 1) % hands.length) 0 = 0
    · have hjpos : j ≠ 0 := by
        intro hj0
        rw [hj0] at hjnz
        exact hjnz h0
      obtain ⟨k, hk1, hkf, heq, hnz, hzeros⟩ := ih (p := p + 1)
        ⟨j - 1, by omega, by
          have harith : p + 1 + 1 + (j - 1) = p + 1 + j := by omega
          rwa [harith]⟩
      refine ⟨k + 1, by omega, by omega, ?_, ?_, ?_⟩
      · unfold get_next_player_aux
        rw [if_pos h0, heq]
        have harith : p + 1 + k = p + (k + 1) := by omega
        rw [harith]
      · have harith : p + 1 + k = p + (k + 1) := by omega
        rwa [harith] at hnz
      · intro i hi1 hik
        match i with
        | 1 => simpa using h0
        | m + 2 =>
          have := hzeros (m + 1) (by omega) (by omega)
          have harith : p + 1 + (m + 1) = p + (m + 2) := by omega
          rwa [harith] at this
    · refine ⟨1, le_refl 1, by omega, ?_, by simpa using h0, ?_⟩
      · unfold get_next_player_aux
        rw [if_neg h0]
      · intro i h1 h2
        omega

theorem exists_shift (n p r : Nat) (hn : 0 < n) (hr : r < n) :
    ∃ i, i < n ∧ (p + 1 + i) % n = r := by
  have hq : (p + 1) % n < n := Nat.mod_lt _ hn
  by_cases hge : (p + 1) % n ≤ r
  · refine ⟨r - (p + 1) % n, by omega, ?_⟩
    rw [Nat.add_mod (p + 1) (r - (p + 1) % n) n,
        Nat.mod_eq_of_lt (show r - (p + 1) % n < n by omega)]
    have : (p + 1) % n + (r - (p + 1) % n) = r := by omega
    rw [this, Nat.mod_eq_of_lt hr]
  · refine ⟨n - (p + 1) % n + r, by omega, ?_⟩
    rw [Nat.add_mod (p + 1) (n - (p + 1) % n + r) n,
        Nat.mod_eq_of_lt (show n - (p + 1) % n + r < n by omega)]
    have : (p + 1) % n + (n - (p + 1) % n + r) = n + r := by omega
    rw [this, Nat.add_mod_left, Nat.mod_eq_of_lt hr]

/-- Claim C10. For every in-bounds player and every hand array with a nonzero
entry, `get_next_player` terminates (the fuel bound is not exhausted) and
returns the first index strictly after the player in cyclic order whose hand
size is nonzero. -/
theorem get_next_player_first_active (player : Nat) (hands : List Nat)
    (hp : player < hands.length)
    (hnz : ∃ j, j < hands.length ∧ hands.getD j 0 ≠ 0) :
    ∃ k, 1 ≤ k ∧ k ≤ hands.length ∧
      get_next_player player hands = some ((player + k) % hands.length) ∧
      hands.getD ((player + k) % hands.length) 0 ≠ 0 ∧
      ∀ i, 1 ≤ i → i < k → hands.getD ((player + i) % hands.length) 0 = 0 := by
  obtain ⟨j, hj, hjnz⟩ := hnz
  obtain ⟨i, hi, hieq⟩ := exists_shift hands.length player j (by omega) hj
  exact get_next_player_aux_spec ⟨i, hi, by rw [hieq]; exact hjnz⟩

theorem get_next_player_some (p : Nat) (hands : List Nat)
    (hnz : ∃ j, j < hands.length ∧ hands.getD j 0 ≠ 0) :
    ∃ next, get_next_player p hands = some next := by
  obtain ⟨j, hj, hjnz⟩ := hnz
  obtain ⟨i, hi, hieq⟩ := exists_shift hands.length p j (by omega) hj
  obtain ⟨k, _, _, heq, _, _⟩ :=
    @get_next_player_aux_spec hands hands.length p
      ⟨i, hi, by rw [hieq]; exact hjnz⟩
  exact ⟨_, heq⟩

/-- Witness for C10 at a concrete input. -/
theorem get_next_player_first_active_witness :
    (0 : Nat) < 4 ∧
    (∃ j, j < 4 ∧ [2, 0, 0, 1].getD j 0 ≠ 0) ∧
    ∃ k, 1 ≤ k ∧ k ≤ 4 ∧
      get_next_player 0 [2, 0, 0, 1] = some ((0 + k) % 4) ∧
      [2, 0, 0, 1].getD ((0 + k) % 4) 0 ≠ 0 ∧
      ∀ i, 1 ≤ i → i < k → [2, 0, 0, 1].getD ((0 + i) % 4) 0 = 0 :=
  ⟨by decide, ⟨0, by decide⟩, get_next_player_first_active 0 [2, 0, 0, 1] (by decide) ⟨0, by decide⟩⟩

/-- Claim C1. On a well-formed state (the nested challenge source, if any, is
one the FSM itself constructs), whenever `play_action` returns an `Err` the
observable state — state type, coins, hands, counters, hands-as-cards, deck
and revealed log — is exactly the state before the call. -/
theorem play_action_err_state_unchanged {π δ : Type} (po : PlayerCardsOps π) (dk : DeckOps δ)
    (shuffle : δ → δ) (a : Action) (s s' : GState π δ) (e : Error)
    (hwf : wf_state_type s.state_type = true)
    (h : play_action po dk shuffle a s = .err e s') : s' = s := by
  unfold play_action at h
  split at h
  · simp_all
  case h_2 hh =>
    split at h
    · simp_all
    · split at h
      case h_1 => simp_all
      case h_2 heq =>
        cases h
        exact dispatch_err hwf heq
      case h_3 => simp_all

/-- A two-player fixture matching `TestState::two_players` of fsm.rs. -/
def two_player_state : GState (List Card) (List Card) :=
  ⟨.Turn 0, [2, 2], [2, 2], [2, 2],
    [[.Assassin, .Captain], [.Ambassador, .Duke]], [.Contessa], []⟩

/-- Witness for C1 at a concrete input. -/
theorem play_action_err_state_unchanged_witness :
    wf_state_type two_player_state.state_type = true ∧
    play_action vec_cards vec_deck (fun d => d) ⟨0, .PassBlock⟩ two_player_state =
      .err .InvalidAction two_player_state ∧
    two_player_state = two_player_state :=
  ⟨by decide, by decide,
    play_action_err_state_unchanged vec_cards vec_deck (fun d => d) ⟨0, .PassBlock⟩
      two_player_state two_player_state .InvalidAction (by decide) (by decide)⟩

/-- The C8 start state: a fresh two-player game with cards_per_type 1 where
player 0 holds two Assassins; player 1's concrete cards and the deck order are
irrelevant to the scenario and stay universally quantified. -/
def c8_start (p1 d : List Card) : GState (List Card) (List Card) :=
  ⟨.Turn 0, [2, 2], [2, 2], [2, 2], [[.Assassin, .Assassin], p1], d, []⟩

/-- Claim C8. From the fresh two-player game with cards_per_type 1, state
Turn 0, coins 2/hands 2/counters 2 and player 0 holding two Assassins, the
sequence P0 Exchange; P1 Challenge; P0 RevealCard(Assassin) succeeds at every
step and ends with player 0's hand size 1, revealed cards exactly one
Assassin, and state Turn 1. -/
theorem exchange_challenge_reveal_scenario (p1 d : List Card) :
    ∃ s1 s2 s3 : GState (List Card) (List Card),
      play_action vec_cards vec_deck (fun x => x) ⟨0, .Exchange⟩ (c8_start p1 d) = .ok s1 ∧
      play_action vec_cards vec_deck (fun x => x) ⟨1, .Challenge⟩ s1 = .ok s2 ∧
      play_action vec_cards vec_deck (fun x => x) ⟨0, .RevealCard .Assassin⟩ s2 = .ok s3 ∧
      s3.player_hands.getD 0 0 = 1 ∧
      s3.revealed_cards = [.Assassin] ∧
      s3.state_type = .Turn 1 :=
  ⟨_, _, _, rfl, rfl, rfl, rfl, rfl, rfl⟩

/-- Claim C9. Whenever an Exchange resolves — by `PassChallenge` on the
Exchange state, or by `TakeCard` completing a successfully defended challenge
whose source is the Exchange — the number of cards to draw is the minimum of
2 and the deck size at that moment; with an empty deck the Exchange resolves
directly to the next active player's turn, with no NeedCards phase and no
card drawn. -/
theorem exchange_draw_count_min_deck :
    (∀ (sh : List Card → List Card) (s : GState (List Card) (List Card)) (p hp : Nat),
      s.state_type = .Exchange p →
      s.player_hands[p]? = some hp → hp ≠ 0 →
      ∃ t, play_action vec_cards vec_deck sh ⟨p, .PassChallenge⟩ s = .ok { s with state_type := t } ∧
        ((s.deck.length = 0 ∧
            ∃ next, get_next_player p s.player_hands = some next ∧ t = .Turn next) ∨
         (s.deck.length ≠ 0 ∧ t = .NeedCards p (min 2 s.deck.length)))) ∧
    (∀ (sh : List Card → List Card) (s : GState (List Card) (List Card))
        (cp p tgt htg cnt : Nat) (pc : List Card) (c : Card) (rest : List Card),
      s.state_type = .Challenge cp (.Exchange p) (.DeckShuffled tgt) →
      s.player_hands[tgt]? = some htg → htg ≠ 0 →
      s.deck = c :: rest →
      s.player_cards[tgt]? = some pc →
      s.player_cards_counter[tgt]? = some cnt →
      ∃ s', play_action vec_cards vec_deck sh ⟨tgt, .TakeCard⟩ s = .ok s' ∧
        s'.deck = rest ∧ s'.player_hands = s.player_hands ∧
        ((rest.length = 0 ∧
            ∃ next, get_next_player p s.player_hands = some next ∧ s'.state_type = .Turn next) ∨
         (rest.length ≠ 0 ∧ s'.state_type = .NeedCards p (min 2 rest.length)))) := by
  constructor
  · intro sh s p hp hst hhp hne
    have hplt : p < s.player_hands.length := (List.getElem?_eq_some_iff.mp hhp).1
    have hgd : s.player_hands.getD p 0 ≠ 0 := by
      rw [List.getD_eq_getElem?_getD, hhp]
      simpa using hne
    rcases hdeck : s.deck with _ | ⟨c, rest⟩
    · obtain ⟨next, hnext⟩ := get_next_player_some p s.player_hands ⟨p, hplt, hgd⟩
      refine ⟨.Turn next, ?_, .inl ⟨by simp [hdeck], next, hnext, rfl⟩⟩
      unfold play_action dispatch
      rw [hst]
      unfold on_exchange start_exchange
      simp [hhp, hne, hdeck, vec_deck, MAX_CARDS_TO_EXCHANGE, hnext]
    · refine ⟨.NeedCards p (min 2 (c :: rest).length), ?_, .inr ⟨by simp, rfl⟩⟩
      unfold play_action dispatch
      rw [hst]
      unfold on_exchange start_exchange
      simp [hhp, hne, hdeck, vec_deck, MAX_CARDS_TO_EXCHANGE]
  · intro sh s cp p tgt htg cnt pc c rest hst hhp hne hdeck hpc hcnt
    have htlt : tgt < s.player_hands.length := (List.getElem?_eq_some_iff.mp hhp).1
    have hgd : s.player_hands.getD tgt 0 ≠ 0 := by
      rw [List.getD_eq_getElem?_getD, hhp]
      simpa using hne
    rcases hrest : rest with _ | ⟨c2, rest2⟩
    · obtain ⟨next, hnext⟩ := get_next_player_some p s.player_hands ⟨tgt, htlt, hgd⟩
      refine ⟨{ s with state_type := .Turn next,
                       player_cards := s.player_cards.set tgt (vec_cards.add_card pc c),
                       player_cards_counter := s.player_cards_counter.set tgt (cnt + 1),
                       deck := [] }, ?_, rfl, rfl, .inl ⟨rfl, next, hnext, rfl⟩⟩
      subst hrest
      unfold play_action dispatch
      rw [hst]
      unfold on_challenge play_challenge_action on_challenge_deck_shuffled start_exchange
      simp [hhp, hne, hdeck, hpc, hcnt, vec_deck, MAX_CARDS_TO_EXCHANGE, hnext]
    · refine ⟨{ s with state_type := .NeedCards p (min 2 (c2 :: rest2).length),
                       player_cards := s.player_cards.set tgt (vec_cards.add_card pc c),
                       player_cards_counter := s.player_cards_counter.set tgt (cnt + 1),
                       deck := c2 :: rest2 }, ?_, rfl, rfl, .inr ⟨by simp, rfl⟩⟩
      subst hrest
      unfold play_action dispatch
      rw [hst]
      unfold on_challenge play_challenge_action on_challenge_deck_shuffled start_exchange
      simp [hhp, hne, hdeck, hpc, hcnt, vec_deck, MAX_CARDS_TO_EXCHANGE]

/-- A concrete Exchange state with an empty deck, for the C9 witness. -/
def c9_state : GState (List Card) (List Card) :=
  ⟨.Exchange 0, [2, 2], [2, 2], [2, 2],
    [[.Assassin, .Captain], [.Ambassador, .Duke]], [], []⟩

/-- Witness for C9 at a concrete input: an Exchange over an empty deck
resolves directly to the next turn. -/
theorem exchange_draw_count_min_deck_witness :
    c9_state.state_type = .Exchange 0 ∧
    c9_state.player_hands[0]? = some 2 ∧ (2 : Nat) ≠ 0 ∧
    ∃ t, play_action vec_cards vec_deck (fun d => d) ⟨0, .PassChallenge⟩ c9_state =
        .ok { c9_state with state_type := t } ∧
      ((c9_state.deck.length = 0 ∧
          ∃ next, get_next_player 0 c9_state.player_hands = some next ∧ t = .Turn next) ∨
       (c9_state.deck.length ≠ 0 ∧ t = .NeedCards 0 (min 2 c9_state.deck.length))) :=
  ⟨rfl, rfl, by decide,
    exchange_draw_count_min_deck.1 (fun d => d) c9_state 0 2 rfl rfl (by decide)⟩

/-- The observable card total of C3: hand sizes plus revealed plus deck. -/
def obs_sum (s : GState (List Card) (List Card)) : Nat :=
  s.player_hands.sum + s.revealed_cards.length + s.deck.length

/-- The counter-based card total: `player_cards_counter` plus revealed plus
deck. This is the quantity the FSM in fact conserves at every step. -/
def counter_sum (s : GState (List Card) (List Card)) : Nat :=
  s.player_cards_counter.sum + s.revealed_cards.length + s.deck.length

/-- The two phases the claim C3 excludes. -/
def is_need_or_took : StateType → Bool
  | .NeedCards _ _ => true
  | .TookCards _ _ => true
  | _ => false

/-- The transient phases during which a card is parked outside the hands-sum:
the exchange card phases and the challenge card-replacement phases. -/
def is_transient : StateType → Bool
  | .NeedCards _ _ => true
  | .TookCards _ _ => true
  | .DroppedCard _ _ => true
  | .Challenge _ _ cs =>
    match cs with
    | .ShownCard _ _ => true
    | .InitiatorRevealedCard _ => true
    | .DeckShuffled _ => true
    | _ => false
  | _ => false

/-- A cards_per_type 1 state in a tax challenge where player 0 holds the Duke;
hands 2+2, deck 1, revealed 0 gives the full total 5. -/
def challenge_show_state : GState (List Card) (List Card) :=
  ⟨.Challenge 0 (.Tax 0) (.Initial 1 0 .Duke), [2, 2], [2, 2], [2, 2],
    [[.Assassin, .Duke], [.Ambassador, .Contessa]], [.Captain], []⟩

/-- Counterexample to C3 as stated: from a state whose observable total is
cards_per_type times 5, the accepted `ShowCard(Duke)` transition ends in the
`ShownCard` challenge phase — which is neither `NeedCards` nor `TookCards` —
with the observable total one too large (the shown card sits in the deck while
the hand size is not yet restored). -/
theorem card_conservation_counterexample :
    obs_sum challenge_show_state = 1 * 5 ∧
    ∃ s', play_action vec_cards vec_deck (fun d => d) ⟨0, .ShowCard .Duke⟩
        challenge_show_state = .ok s' ∧
      is_need_or_took s'.state_type = false ∧
      obs_sum s' ≠ 1 * 5 := by
  refine ⟨by decide, ⟨.Challenge 0 (.Tax 0) (.ShownCard 1 0), [2, 2], [2, 2], [1, 2],
    [[.Assassin], [.Ambassador, .Contessa]], [.Duke, .Captain], []⟩, by decide, by decide, by decide⟩

theorem sum_set_getD {l : List Nat} {i v : Nat} (h : i < l.length) :
    (l.set i v).sum + l.getD i 0 = l.sum + v := by
  induction l generalizing i with
  | nil => simp at h
  | cons x xs ih =>
    cases i with
    | zero => simp [List.set]; omega
    | succ n =>
      simp only [List.set, List.sum_cons, List.getD_cons_succ]
      have := ih (by simpa using h)
      omega

theorem getD_of_getElem? {l : List Nat} {i v : Nat} (h : l[i]? = some v) :
    l.getD i 0 = v := by
  rw [List.getD_eq_getElem?_getD, h]
  rfl

theorem lt_of_getElem? {α : Type} {l : List α} {i : Nat} {v : α} (h : l[i]? = some v) :
    i < l.length := (List.getElem?_eq_some_iff.mp h).1

/-- Every transition of the card phases preserves the counter-based total.
Type A functions (coins only) leave hands, counters, deck and revealed log
untouched. -/
theorem on_turn_fields {player : Nat} {a : Action} {s s1 : GState π δ} {t : StateType}
    (h : on_turn player a s = .ok s1 t) :
    s1.player_hands = s.player_hands ∧ s1.player_cards_counter = s.player_cards_counter ∧
    s1.deck = s.deck ∧ s1.revealed_cards = s.revealed_cards := by
  unfold on_turn at h
  repeat' split at h
  all_goals try simp_all
  all_goals repeat' split at h
  all_goals try simp_all
  all_goals (obtain ⟨h1, h2⟩ := h; subst h1; subst h2; simp)

theorem on_foreign_aid_fields {player : Nat} {a : Action} {s s1 : GState π δ} {t : StateType}
    (h : on_foreign_aid player a s = .ok s1 t) :
    s1.player_hands = s.player_hands ∧ s1.player_cards_counter = s.player_cards_counter ∧
    s1.deck = s.deck ∧ s1.revealed_cards = s.revealed_cards := by
  unfold on_foreign_aid at h
  repeat' split at h
  all_goals try simp_all
  all_goals repeat' split at h
  all_goals try simp_all
  all_goals (obtain ⟨h1, h2⟩ := h; subst h1; subst h2; simp)

theorem on_tax_fields {player : Nat} {a : Action} {s s1 : GState π δ} {t : StateType}
    (h : on_tax player a s = .ok s1 t) :
    s1.player_hands = s.player_hands ∧ s1.player_cards_counter = s.player_cards_counter ∧
    s1.deck = s.deck ∧ s1.revealed_cards = s.revealed_cards := by
  unfold on_tax at h
  repeat' split at h
  all_goals try simp_all
  all_goals repeat' split at h
  all_goals try simp_all
  all_goals (obtain ⟨h1, h2⟩ := h; subst h1; subst h2; simp)

theorem on_exchange_fields {dk : DeckOps δ} {player : Nat} {a : Action}
    {s s1 : GState π δ} {t : StateType}
    (h : on_exchange dk player a s = .ok s1 t) :
    s1.player_hands = s.player_hands ∧ s1.player_cards_counter = s.player_cards_counter ∧
    s1.deck = s.deck ∧ s1.revealed_cards = s.revealed_cards := by
  unfold on_exchange at h
  repeat' split at h
  all_goals try simp_all
  all_goals repeat' split at h
  all_goals try simp_all
  all_goals (obtain ⟨h1, h2⟩ := h; subst h1; subst h2; simp)

theorem on_assassination_fields {player target : Nat} {cc : Bool} {a : Action}
    {s s1 : GState π δ} {t : StateType}
    (h : on_assassination player target cc a s = .ok s1 t) :
    s1.player_hands = s.player_hands ∧ s1.player_cards_counter = s.player_cards_counter ∧
    s1.deck = s.deck ∧ s1.revealed_cards = s.revealed_cards := by
  unfold on_assassination at h
  repeat' split at h
  all_goals try simp_all
  all_goals repeat' split at h
  all_goals try simp_all
  all_goals (obtain ⟨h1, h2⟩ := h; subst h1; subst h2; simp)

theorem on_steal_fields {player target : Nat} {cc : Bool} {a : Action}
    {s s1 : GState π δ} {t : StateType}
    (h : on_steal player target cc a s = .ok s1 t) :
    s1.player_hands = s.player_hands ∧ s1.player_cards_counter = s.player_cards_counter ∧
    s1.deck = s.deck ∧ s1.revealed_cards = s.revealed_cards := by
  unfold on_steal at h
  repeat' split at h
  all_goals try simp_all
  all_goals repeat' split at h
  all_goals try simp_all
  all_goals (obtain ⟨h1, h2⟩ := h; subst h1; subst h2; simp)

theorem on_block_foreign_aid_fields {player target : Nat} {a : Action}
    {s s1 : GState π δ} {t : StateType}
    (h : on_block_foreign_aid player target a s = .ok s1 t) :
    s1.player_hands = s.player_hands ∧ s1.player_cards_counter = s.player_cards_counter ∧
    s1.deck = s.deck ∧ s1.revealed_cards = s.revealed_cards := by
  unfold on_block_foreign_aid at h
  repeat' split at h
  all_goals try simp_all
  all_goals repeat' split at h
  all_goals try simp_all
  all_goals (obtain ⟨h1, h2⟩ := h; subst h1; subst h2; simp)

theorem on_block_assassination_fields {player target : Nat} {a : Action}
    {s s1 : GState π δ} {t : StateType}
    (h : on_block_assassination player target a s = .ok s1 t) :
    s1.player_hands = s.player_hands ∧ s1.player_cards_counter = s.player_cards_counter ∧
    s1.deck = s.deck ∧ s1.revealed_cards = s.revealed_cards := by
  unfold on_block_assassination at h
  repeat' split at h
  all_goals try simp_all
  all_goals repeat' split at h
  all_goals try simp_all
  all_goals (obtain ⟨h1, h2⟩ := h; subst h1; subst h2; simp)

theorem on_block_steal_fields {player target : Nat} {card : Card} {a : Action}
    {s s1 : GState π δ} {t : StateType}
    (h : on_block_steal player target card a s = .ok s1 t) :
    s1.player_hands = s.player_hands ∧ s1.player_cards_counter = s.player_cards_counter ∧
    s1.deck = s.deck ∧ s1.revealed_cards = s.revealed_cards := by
  unfold on_block_steal at h
  repeat' split at h
  all_goals try simp_all
  all_goals repeat' split at h
  all_goals try simp_all
  all_goals (obtain ⟨h1, h2⟩ := h; subst h1; subst h2; simp)

theorem on_need_cards_csum {player count : Nat} {a : Action}
    {s s1 : GState (List Card) (List Card)} {t : StateType}
    (hlen : s.player_cards_counter.length = s.player_hands.length)
    (hb : a.player < s.player_hands.length)
    (h : on_need_cards vec_cards vec_deck player count a s = .ok s1 t) :
    counter_sum s1 = counter_sum s ∧ is_transient t = true := by
  unfold on_need_cards at h
  split at h
  · exact absurd h (by simp)
  case isFalse hpe =>
  have hpa : player = a.player := not_not.mp hpe
  subst hpa
  split at h
  case h_2 => exact absurd h (by simp)
  rcases hdk : s.deck with _ | ⟨c, rest⟩ <;> rw [hdk] at h
  · exact absurd h (by simp [vec_deck])
  simp only [vec_deck] at h
  rcases hpc : s.player_cards[a.player]? with _ | pc <;> rw [hpc] at h
  · exact absurd h (by simp)
  rcases hcnt : s.player_cards_counter[a.player]? with _ | cnt <;> rw [hcnt] at h
  · exact absurd h (by simp)
  have hsum := sum_set_getD (l := s.player_cards_counter) (i := a.player) (v := cnt + 1)
    (by omega)
  have hgd := getD_of_getElem? hcnt
  dsimp only at h
  by_cases hc1 : count = 1
  · rw [if_pos hc1] at h
    rcases hh : s.player_hands[a.player]? with _ | hv
    all_goals rw [hh] at h
    · exact absurd h (by simp)
    dsimp only at h
    by_cases hlt : cnt + 1 < hv
    · rw [if_pos hlt] at h
      exact absurd h (by simp)
    · rw [if_neg hlt] at h
      obtain ⟨h1, h2⟩ : _ ∧ _ := by simpa using h
      subst h1
      subst h2
      refine ⟨?_, by simp [is_transient]⟩
      simp only [counter_sum, hdk]
      simp
      omega
  · rw [if_neg hc1] at h
    by_cases hc0 : count = 0
    · rw [if_pos hc0] at h
      exact absurd h (by simp)
    · rw [if_neg hc0] at h
      obtain ⟨h1, h2⟩ : _ ∧ _ := by simpa using h
      subst h1
      subst h2
      refine ⟨?_, by simp [is_transient]⟩
      simp only [counter_sum, hdk]
      simp
      omega

theorem on_took_cards_csum {player count : Nat} {a : Action}
    {s s1 : GState (List Card) (List Card)} {t : StateType}
    (hlen : s.player_cards_counter.length = s.player_hands.length)
    (hb : a.player < s.player_hands.length)
    (h : on_took_cards vec_cards vec_deck player count a s = .ok s1 t) :
    counter_sum s1 = counter_sum s := by
  unfold on_took_cards at h
  split at h
  case h_2 => exact absurd h (by simp)
  case h_1 card heq =>
  split at h
  · exact absurd h (by simp)
  case isFalse hpe =>
  have hpa : player = a.player := not_not.mp hpe
  subst hpa
  rcases hpcs : s.player_cards[a.player]? with _ | pc
  all_goals rw [hpcs] at h
  · exact absurd h (by simp)
  dsimp only at h
  split at h
  · exact absurd h (by simp)
  case isFalse hhas =>
  have hcont : pc.contains card = true := by simpa [vec_cards] using hhas
  rw [show vec_cards.drop_card pc card = some (pc.erase card) by
    simp [vec_cards, hcont]] at h
  dsimp only at h
  rcases hcnt : s.player_cards_counter[a.player]? with _ | cnt
  all_goals rw [hcnt] at h
  · exact absurd h (by simp)
  dsimp only at h
  by_cases hc0 : cnt = 0
  · rw [if_pos hc0] at h
    exact absurd h (by simp)
  rw [if_neg hc0] at h
  have hsum := sum_set_getD (l := s.player_cards_counter) (i := a.player) (v := cnt - 1)
    (by omega)
  have hgd := getD_of_getElem? hcnt
  by_cases hc1 : count = 1
  · rw [if_pos hc1] at h
    rcases hnx : get_next_player a.player s.player_hands with _ | nx
    all_goals rw [hnx] at h
    · exact absurd h (by simp)
    obtain ⟨h1, h2⟩ : _ ∧ _ := by simpa using h
    subst h1
    subst h2
    simp only [counter_sum, vec_deck]
    simp
    omega
  · rw [if_neg hc1] at h
    by_cases hcz : count = 0
    · rw [if_pos hcz] at h
      exact absurd h (by simp)
    rw [if_neg hcz] at h
    obtain ⟨h1, h2⟩ : _ ∧ _ := by simpa using h
    subst h1
    subst h2
    simp only [counter_sum, vec_deck]
    simp
    omega

theorem on_dropped_cards_csum {player left : Nat} {a : Action}
    {s s1 : GState (List Card) (List Card)} {t : StateType}
    (hlen : s.player_cards_counter.length = s.player_hands.length)
    (hb : a.player < s.player_hands.length)
    (h : on_dropped_cards vec_cards vec_deck player left a s = .ok s1 t) :
    counter_sum s1 = counter_sum s := by
  unfold on_dropped_cards at h
  split at h
  case h_2 => exact absurd h (by simp)
  case h_1 card heq =>
  split at h
  · exact absurd h (by simp)
  case isFalse hpe =>
  have hpa : player = a.player := not_not.mp hpe
  subst hpa
  rcases hpcs : s.player_cards[a.player]? with _ | pc
  all_goals rw [hpcs] at h
  · exact absurd h (by simp)
  dsimp only at h
  split at h
  · exact absurd h (by simp)
  case isFalse hhas =>
  have hcont : pc.contains card = true := by simpa [vec_cards] using hhas
  rw [show vec_cards.drop_card pc card = some (pc.erase card) by
    simp [vec_cards, hcont]] at h
  dsimp only at h
  rcases hcnt : s.player_cards_counter[a.player]? with _ | cnt
  all_goals rw [hcnt] at h
  · exact absurd h (by simp)
  dsimp only at h
  by_cases hc0 : cnt = 0
  · rw [if_pos hc0] at h
    exact absurd h (by simp)
  rw [if_neg hc0] at h
  have hsum := sum_set_getD (l := s.player_cards_counter) (i := a.player) (v := cnt - 1)
    (by omega)
  have hgd := getD_of_getElem? hcnt
  by_cases hc1 : left = 1
  · rw [if_pos hc1] at h
    rcases hnx : get_next_player a.player s.player_hands with _ | nx
    all_goals rw [hnx] at h
    · exact absurd h (by simp)
    obtain ⟨h1, h2⟩ : _ ∧ _ := by simpa using h
    subst h1
    subst h2
    simp only [counter_sum, vec_deck]
    simp
    omega
  · rw [if_neg hc1] at h
    by_cases hcz : left = 0
    · rw [if_pos hcz] at h
      exact absurd h (by simp)
    rw [if_neg hcz] at h
    obtain ⟨h1, h2⟩ : _ ∧ _ := by simpa using h
    subst h1
    subst h2
    simp only [counter_sum, vec_deck]
    simp
    omega

theorem on_lost_influence_csum {player cp : Nat} {a : Action}
    {s s1 : GState (List Card) (List Card)} {t : StateType}
    (hlen : s.player_cards_counter.length = s.player_hands.length)
    (hb : a.player < s.player_hands.length)
    (h : on_lost_influence vec_cards player cp a s = .ok s1 t) :
    counter_sum s1 = counter_sum s ∧ obs_sum s1 = obs_sum s := by
  unfold on_lost_influence at h
  split at h
  case h_2 => exact absurd h (by simp)
  case h_1 card heq =>
  split at h
  · exact absurd h (by simp)
  case isFalse hpe =>
  have hpa : player = a.player := not_not.mp hpe
  subst hpa
  rcases hpcs : s.player_cards[a.player]? with _ | pc
  all_goals rw [hpcs] at h
  · exact absurd h (by simp)
  dsimp only at h
  split at h
  · exact absurd h (by simp)
  case isFalse hhas =>
  have hcont : pc.contains card = true := by simpa [vec_cards] using hhas
  rw [show vec_cards.drop_card pc card = some (pc.erase card) by
    simp [vec_cards, hcont]] at h
  dsimp only at h
  rcases hh : s.player_hands[a.player]? with _ | hv
  all_goals rw [hh] at h
  · exact absurd h (by simp)
  rcases hcnt : s.player_cards_counter[a.player]? with _ | cnt
  all_goals rw [hcnt] at h
  · exact absurd h (by simp)
  dsimp only at h
  by_cases hz : hv = 0 ∨ cnt = 0
  · rw [if_pos hz] at h
    exact absurd h (by simp)
  rw [if_neg hz] at h
  have hsumc := sum_set_getD (l := s.player_cards_counter) (i := a.player) (v := cnt - 1)
    (by omega)
  have hsumh := sum_set_getD (l := s.player_hands) (i := a.player) (v := hv - 1) hb
  have hgdc := getD_of_getElem? hcnt
  have hgdh := getD_of_getElem? hh
  rcases hnx : get_next_player cp ((s.player_hands.set a.player (hv - 1))) with _ | nx
  all_goals rw [hnx] at h
  · exact absurd h (by simp)
  obtain ⟨h1, h2⟩ : _ ∧ _ := by simpa using h
  subst h1
  subst h2
  constructor
  · simp only [counter_sum]
    simp
    omega
  · simp only [obs_sum]
    simp
    omega

theorem play_challenge_action_csum {shuffle : List Card → List Card}
    {cs : ChallengeState} {a : Action}
    {s s1 : GState (List Card) (List Card)} {c : ChallengeState}
    (hlen : s.player_cards_counter.length = s.player_hands.length)
    (hb : a.player < s.player_hands.length)
    (hsh : ∀ d, (shuffle d).length = d.length)
    (h : play_challenge_action vec_cards vec_deck shuffle cs a s = .ok s1 c) :
    counter_sum s1 = counter_sum s ∧
    (∀ i tg cd, cs = .Initial i tg cd →
      (c = .ShownCard i tg ∨ (c = .TargetRevealedCard ∧ obs_sum s1 = obs_sum s))) := by
  unfold play_challenge_action at h
  split at h
  case h_1 i tg cd =>
    unfold on_challenge_initial at h
    split at h
    · exact absurd h (by simp)
    case isFalse hpe =>
    have hpa : tg = a.player := not_not.mp hpe
    subst hpa
    split at h
    case h_1 sc heq =>
      split at h
      · exact absurd h (by simp)
      rcases hpcs : s.player_cards[a.player]? with _ | pc
      all_goals rw [hpcs] at h
      · exact absurd h (by simp)
      dsimp only at h
      split at h
      · exact absurd h (by simp)
      case isFalse hhas =>
      have hcont : pc.contains cd = true := by simpa [vec_cards] using hhas
      rw [show vec_cards.drop_card pc cd = some (pc.erase cd) by
        simp [vec_cards, hcont]] at h
      dsimp only at h
      rcases hcnt : s.player_cards_counter[a.player]? with _ | cnt
      all_goals rw [hcnt] at h
      · exact absurd h (by simp)
      dsimp only at h
      by_cases hc0 : cnt = 0
      · rw [if_pos hc0] at h
        exact absurd h (by simp)
      rw [if_neg hc0] at h
      have hsum := sum_set_getD (l := s.player_cards_counter) (i := a.player) (v := cnt - 1)
        (by omega)
      have hgd := getD_of_getElem? hcnt
      obtain ⟨h1, h2⟩ : _ ∧ _ := by simpa using h
      subst h1
      subst h2
      refine ⟨?_, fun i2 tg2 cd2 heq2 => ?_⟩
      · simp only [counter_sum, vec_deck]
        simp
        omega
      · obtain ⟨rfl, rfl, rfl⟩ : i = i2 ∧ a.player = tg2 ∧ cd = cd2 := by
          cases heq2
          exact ⟨rfl, rfl, rfl⟩
        exact .inl rfl
    case h_2 rc heq =>
      rcases hpcs : s.player_cards[a.player]? with _ | pc
      all_goals rw [hpcs] at h
      · exact absurd h (by simp)
      dsimp only at h
      split at h
      · exact absurd h (by simp)
      case isFalse hhas =>
      have hcont : pc.contains rc = true := by simpa [vec_cards] using hhas
      rw [show vec_cards.drop_card pc rc = some (pc.erase rc) by
        simp [vec_cards, hcont]] at h
      dsimp only at h
      rcases hh2 : s.player_hands[a.player]? with _ | hv
      all_goals rw [hh2] at h
      · exact absurd h (by simp)
      rcases hcnt : s.player_cards_counter[a.player]? with _ | cnt
      all_goals rw [hcnt] at h
      · exact absurd h (by simp)
      dsimp only at h
      by_cases hz : hv = 0 ∨ cnt = 0
      · rw [if_pos hz] at h
        exact absurd h (by simp)
      rw [if_neg hz] at h
      have hsumc := sum_set_getD (l := s.player_cards_counter) (i := a.player) (v := cnt - 1)
        (by omega)
      have hsumh := sum_set_getD (l := s.player_hands) (i := a.player) (v := hv - 1) hb
      have hgdc := getD_of_getElem? hcnt
      have hgdh := getD_of_getElem? hh2
      obtain ⟨h1, h2⟩ : _ ∧ _ := by simpa using h
      subst h1
      subst h2
      refine ⟨?_, fun i2 tg2 cd2 heq2 => .inr ⟨rfl, ?_⟩⟩
      · simp only [counter_sum]
        simp
        omega
      · simp only [obs_sum]
        simp
        omega
    case h_3 => exact absurd h (by simp)
  case h_2 i tg =>
    unfold on_challenge_shown_card at h
    split at h
    · exact absurd h (by simp)
    case isFalse hpe =>
    have hpa : i = a.player := not_not.mp hpe
    subst hpa
    split at h
    case h_2 => exact absurd h (by simp)
    case h_1 card heq =>
    rcases hpcs : s.player_cards[a.player]? with _ | pc
    all_goals rw [hpcs] at h
    · exact absurd h (by simp)
    dsimp only at h
    split at h
    · exact absurd h (by simp)
    case isFalse hhas =>
    have hcont : pc.contains card = true := by simpa [vec_cards] using hhas
    rw [show vec_cards.drop_card pc card = some (pc.erase card) by
      simp [vec_cards, hcont]] at h
    dsimp only at h
    rcases hh2 : s.player_hands[a.player]? with _ | hv
    all_goals rw [hh2] at h
    · exact absurd h (by simp)
    rcases hcnt : s.player_cards_counter[a.player]? with _ | cnt
    all_goals rw [hcnt] at h
    · exact absurd h (by simp)
    dsimp only at h
    by_cases hz : hv = 0 ∨ cnt = 0
    · rw [if_pos hz] at h
      exact absurd h (by simp)
    rw [if_neg hz] at h
    have hsumc := sum_set_getD (l := s.player_cards_counter) (i := a.player) (v := cnt - 1)
      (by omega)
    have hgdc := getD_of_getElem? hcnt
    obtain ⟨h1, h2⟩ : _ ∧ _ := by simpa using h
    subst h1
    subst h2
    refine ⟨?_, by simp⟩
    simp only [counter_sum]
    simp
    omega
  case h_3 tg =>
    unfold on_challenge_initiator_revealed_card at h
    split at h
    · exact absurd h (by simp)
    split at h
    case h_2 => exact absurd h (by simp)
    case h_1 =>
      obtain ⟨h1, h2⟩ : _ ∧ _ := by simpa using h
      subst h1
      subst h2
      refine ⟨?_, by simp⟩
      simp only [counter_sum]
      simp [hsh]
  case h_4 tg =>
    unfold on_challenge_deck_shuffled at h
    split at h
    · exact absurd h (by simp)
    case isFalse hpe =>
    have hpa : tg = a.player := not_not.mp hpe
    subst hpa
    split at h
    case h_2 => exact absurd h (by simp)
    case h_1 =>
    rcases hdk : s.deck with _ | ⟨c0, rest⟩
    all_goals rw [hdk] at h
    · exact absurd h (by simp [vec_deck])
    simp only [vec_deck] at h
    rcases hpcs : s.player_cards[a.player]? with _ | pc
    all_goals rw [hpcs] at h
    · exact absurd h (by simp)
    dsimp only at h
    rcases hcnt : s.player_cards_counter[a.player]? with _ | cnt
    all_goals rw [hcnt] at h
    · exact absurd h (by simp)
    dsimp only at h
    have hsum := sum_set_getD (l := s.player_cards_counter) (i := a.player) (v := cnt + 1)
      (by omega)
    have hgd := getD_of_getElem? hcnt
    obtain ⟨h1, h2⟩ : _ ∧ _ := by simpa using h
    subst h1
    subst h2
    refine ⟨?_, by simp⟩
    simp only [counter_sum, hdk]
    simp
    omega
  case h_5 => exact absurd h (by simp)

theorem on_challenge_csum {shuffle : List Card → List Card}
    {cp : Nat} {source : StateType} {cs : ChallengeState} {a : Action}
    {s sf : GState (List Card) (List Card)} {t : StateType}
    (hlen : s.player_cards_counter.length = s.player_hands.length)
    (hb : a.player < s.player_hands.length)
    (hsh : ∀ d, (shuffle d).length = d.length)
    (h : on_challenge vec_cards vec_deck shuffle cp source cs a s = .ok sf t) :
    counter_sum sf = counter_sum s ∧
    (is_transient (.Challenge cp source cs) = false →
      (is_transient t = true ∨ obs_sum sf = obs_sum s)) := by
  unfold on_challenge at h
  split at h
  case h_1 => exact absurd h (by simp)
  case h_2 => exact absurd h (by simp)
  case h_3 s1 c heqpc =>
  obtain ⟨hcs, himp⟩ := play_challenge_action_csum hlen hb hsh heqpc
  split at h
  case h_1 =>
    have hcontra : is_transient (.Challenge cp source cs) = false → False := by
      intro hnt
      cases cs with
      | Initial i tg cd =>
        rcases himp i tg cd rfl with h1 | ⟨h1, _⟩ <;> exact absurd h1 (by simp)
      | ShownCard i tg => simp [is_transient] at hnt
      | InitiatorRevealedCard tg => simp [is_transient] at hnt
      | DeckShuffled tg => simp [is_transient] at hnt
      | TookCard => simp [play_challenge_action] at heqpc
      | TargetRevealedCard => simp [play_challenge_action] at heqpc
    split at h
    case h_1 player =>
      rcases hco : s1.player_coins[player]? with _ | coins
      all_goals rw [hco] at h
      · exact absurd h (by simp)
      dsimp only at h
      rcases hnx : get_next_player cp s1.player_hands with _ | nx
      all_goals rw [hnx] at h
      · exact absurd h (by simp)
      obtain ⟨h1, h2⟩ : _ ∧ _ := by simpa using h
      subst h1
      subst h2
      exact ⟨by simpa [counter_sum] using hcs, fun hnt => absurd hnt (by simpa using hcontra)⟩
    case h_5 player =>
      rcases hse : start_exchange vec_deck player s1.player_hands s1.deck with _ | t0
      all_goals rw [hse] at h
      · exact absurd h (by simp)
      obtain ⟨h1, h2⟩ : _ ∧ _ := by simpa using h
      subst h1
      subst h2
      exact ⟨hcs, fun hnt => absurd hnt (by simpa using hcontra)⟩
    case h_6 player target cc =>
      obtain ⟨h1, h2⟩ : _ ∧ _ := by simpa using h
      subst h1
      subst h2
      exact ⟨hcs, fun hnt => absurd hnt (by simpa using hcontra)⟩
    case h_7 player target cc =>
      obtain ⟨h1, h2⟩ : _ ∧ _ := by simpa using h
      subst h1
      subst h2
      exact ⟨hcs, fun hnt => absurd hnt (by simpa using hcontra)⟩
    case h_8 => exact absurd h (by simp)
    all_goals (
      rcases hnx : get_next_player cp s1.player_hands with _ | nx
      all_goals rw [hnx] at h
      · exact absurd h (by simp)
      obtain ⟨h1, h2⟩ : _ ∧ _ := by simpa using h
      subst h1
      subst h2
      exact ⟨hcs, fun hnt => absurd hnt (by simpa using hcontra)⟩)
  case h_2 =>
    have hobs : is_transient (.Challenge cp source cs) = false → obs_sum s1 = obs_sum s := by
      intro hnt
      cases cs with
      | Initial i tg cd =>
        rcases himp i tg cd rfl with h1 | ⟨_, h2⟩
        · exact absurd h1 (by simp)
        · exact h2
      | ShownCard i tg => simp [is_transient] at hnt
      | InitiatorRevealedCard tg => simp [is_transient] at hnt
      | DeckShuffled tg => simp [is_transient] at hnt
      | TookCard => simp [play_challenge_action] at heqpc
      | TargetRevealedCard => simp [play_challenge_action] at heqpc
    split at h
    case h_8 => exact absurd h (by simp)
    case h_4 =>
      rcases hnx : get_next_player cp s1.player_hands with _ | nx
      all_goals rw [hnx] at h
      · exact absurd h (by simp)
      obtain ⟨h1, h2⟩ : _ ∧ _ := by simpa using h
      subst h1
      subst h2
      exact ⟨hcs, fun hnt => .inr (hobs hnt)⟩
    case h_5 =>
      rcases hnx : get_next_player cp s1.player_hands with _ | nx
      all_goals rw [hnx] at h
      · exact absurd h (by simp)
      obtain ⟨h1, h2⟩ : _ ∧ _ := by simpa using h
      subst h1
      subst h2
      exact ⟨hcs, fun hnt => .inr (hobs hnt)⟩
    case h_6 =>
      rcases hnx : get_next_player cp s1.player_hands with _ | nx
      all_goals rw [hnx] at h
      · exact absurd h (by simp)
      obtain ⟨h1, h2⟩ : _ ∧ _ := by simpa using h
      subst h1
      subst h2
      exact ⟨hcs, fun hnt => .inr (hobs hnt)⟩
    case h_7 =>
      rcases hnx : get_next_player cp s1.player_hands with _ | nx
      all_goals rw [hnx] at h
      · exact absurd h (by simp)
      obtain ⟨h1, h2⟩ : _ ∧ _ := by simpa using h
      subst h1
      subst h2
      exact ⟨hcs, fun hnt => .inr (hobs hnt)⟩
    all_goals (
      obtain ⟨h1, h2⟩ : _ ∧ _ := by simpa using h
      subst h1
      subst h2
      exact ⟨hcs, fun hnt => .inr (hobs hnt)⟩)
  case h_3 =>
    obtain ⟨h1, h2⟩ : _ ∧ _ := by simpa using h
    subst h1
    subst h2
    refine ⟨hcs, fun hnt => ?_⟩
    cases cs with
    | Initial i tg cd =>
      rcases himp i tg cd rfl with h1 | ⟨h1, _⟩
      · subst h1
        exact .inl (by simp [is_transient])
      · subst h1
        simp_all
    | ShownCard i tg => simp [is_transient] at hnt
    | InitiatorRevealedCard tg => simp [is_transient] at hnt
    | DeckShuffled tg => simp [is_transient] at hnt
    | TookCard => simp [play_challenge_action] at heqpc
    | TargetRevealedCard => simp [play_challenge_action] at heqpc

theorem dispatch_csum {shuffle : List Card → List Card} {a : Action}
    {s s1 : GState (List Card) (List Card)} {t : StateType}
    (hlen : s.player_cards_counter.length = s.player_hands.length)
    (hb : a.player < s.player_hands.length)
    (hsh : ∀ d, (shuffle d).length = d.length)
    (h : dispatch vec_cards vec_deck shuffle a s = .ok s1 t) :
    counter_sum s1 = counter_sum s ∧
    (is_transient s.state_type = false →
      (is_transient t = true ∨ obs_sum s1 = obs_sum s)) := by
  unfold dispatch at h
  split at h
  case h_1 player heq =>
    obtain ⟨h1, h2, h3, h4⟩ := on_turn_fields h
    exact ⟨by simp [counter_sum, h2, h3, h4], fun _ => .inr (by simp [obs_sum, h1, h3, h4])⟩
  case h_2 player heq =>
    obtain ⟨h1, h2, h3, h4⟩ := on_foreign_aid_fields h
    exact ⟨by simp [counter_sum, h2, h3, h4], fun _ => .inr (by simp [obs_sum, h1, h3, h4])⟩
  case h_3 player heq =>
    obtain ⟨h1, h2, h3, h4⟩ := on_tax_fields h
    exact ⟨by simp [counter_sum, h2, h3, h4], fun _ => .inr (by simp [obs_sum, h1, h3, h4])⟩
  case h_4 player heq =>
    obtain ⟨h1, h2, h3, h4⟩ := on_exchange_fields h
    exact ⟨by simp [counter_sum, h2, h3, h4], fun _ => .inr (by simp [obs_sum, h1, h3, h4])⟩
  case h_5 player target cc heq =>
    obtain ⟨h1, h2, h3, h4⟩ := on_assassination_fields h
    exact ⟨by simp [counter_sum, h2, h3, h4], fun _ => .inr (by simp [obs_sum, h1, h3, h4])⟩
  case h_6 player target cc heq =>
    obtain ⟨h1, h2, h3, h4⟩ := on_steal_fields h
    exact ⟨by simp [counter_sum, h2, h3, h4], fun _ => .inr (by simp [obs_sum, h1, h3, h4])⟩
  case h_7 cp source cs heq =>
    obtain ⟨h1, h2⟩ := on_challenge_csum hlen hb hsh h
    exact ⟨h1, by rw [heq]; exact h2⟩
  case h_8 player target heq =>
    obtain ⟨h1, h2, h3, h4⟩ := on_block_foreign_aid_fields h
    exact ⟨by simp [counter_sum, h2, h3, h4], fun _ => .inr (by simp [obs_sum, h1, h3, h4])⟩
  case h_9 player count heq =>
    obtain ⟨h1, h2⟩ := on_need_cards_csum hlen hb h
    exact ⟨h1, fun hnt => by rw [heq] at hnt; simp [is_transient] at hnt⟩
  case h_10 player count heq =>
    exact ⟨on_took_cards_csum hlen hb h,
      fun hnt => by rw [heq] at hnt; simp [is_transient] at hnt⟩
  case h_11 player left heq =>
    exact ⟨on_dropped_cards_csum hlen hb h,
      fun hnt => by rw [heq] at hnt; simp [is_transient] at hnt⟩
  case h_12 player target heq =>
    obtain ⟨h1, h2, h3, h4⟩ := on_block_assassination_fields h
    exact ⟨by simp [counter_sum, h2, h3, h4], fun _ => .inr (by simp [obs_sum, h1, h3, h4])⟩
  case h_13 player target card heq =>
    obtain ⟨h1, h2, h3, h4⟩ := on_block_steal_fields h
    exact ⟨by simp [counter_sum, h2, h3, h4], fun _ => .inr (by simp [obs_sum, h1, h3, h4])⟩
  case h_14 player cp heq =>
    obtain ⟨h1, h2⟩ := on_lost_influence_csum hlen hb h
    exact ⟨h1, fun _ => .inr h2⟩

/-- Claim C3, amended. The FSM conserves the counter-based total
`Σ player_cards_counter + |revealed_cards| + |deck|` across every successful
`play_action` transition; the hands-based total
`Σ player_hands + |revealed_cards| + |deck|` equals it whenever the state is
outside the transient phases (`NeedCards`, `TookCards`, `DroppedCard`, and the
`ShownCard`/`InitiatorRevealedCard`/`DeckShuffled` challenge sub-phases), so it
is preserved between any two non-transient endpoints. -/
theorem card_conservation_amended {shuffle : List Card → List Card} {a : Action}
    {s s1 : GState (List Card) (List Card)} {cpt : Nat}
    (hlen : s.player_cards_counter.length = s.player_hands.length)
    (hsh : ∀ d, (shuffle d).length = d.length)
    (hstart : counter_sum s = cpt * 5)
    (h : play_action vec_cards vec_deck shuffle a s = .ok s1) :
    counter_sum s1 = cpt * 5 ∧
    (is_transient s.state_type = false → is_transient s1.state_type = false →
      obs_sum s1 = obs_sum s) := by
  unfold play_action at h
  rcases hh : s.player_hands[a.player]? with _ | hand
  all_goals rw [hh] at h
  · exact absurd h (by simp)
  dsimp only at h
  by_cases h0 : hand = 0
  · rw [if_pos h0] at h
    exact absurd h (by simp)
  rw [if_neg h0] at h
  have hb : a.player < s.player_hands.length := lt_of_getElem? hh
  rcases hd : dispatch vec_cards vec_deck shuffle a s with ⟨s2, t⟩ | ⟨e, s2⟩ | _
  all_goals rw [hd] at h
  case _ =>
    obtain ⟨hc, hi⟩ := dispatch_csum hlen hb hsh hd
    have h1 : ({ s2 with state_type := t } : GState (List Card) (List Card)) = s1 := by
      simpa using h
    subst h1
    refine ⟨by rw [← hstart]; simpa [counter_sum] using hc, fun hns hnt => ?_⟩
    dsimp only at hnt
    rcases hi hns with h2 | h2
    · rw [h2] at hnt
      exact absurd hnt (by simp)
    · simpa [obs_sum] using h2
  case _ => exact absurd h (by simp)
  case _ => exact absurd h (by simp)

/-- Witness for the amended C3 at a concrete input: `Income` from the fresh
two-player state with cards_per_type 1. -/
theorem card_conservation_amended_witness :
    counter_sum (⟨.Turn 1, [3, 2], [2, 2], [2, 2],
        [[.Assassin, .Captain], [.Ambassador, .Duke]], [.Contessa], []⟩ :
      GState (List Card) (List Card)) = 1 * 5 ∧
    (is_transient two_player_state.state_type = false →
      is_transient (StateType.Turn 1) = false →
      obs_sum (⟨.Turn 1, [3, 2], [2, 2], [2, 2],
          [[.Assassin, .Captain], [.Ambassador, .Duke]], [.Contessa], []⟩ :
        GState (List Card) (List Card)) = obs_sum two_player_state) :=
  @card_conservation_amended (fun d => d) ⟨0, .Income⟩ two_player_state
    ⟨.Turn 1, [3, 2], [2, 2], [2, 2],
      [[.Assassin, .Captain], [.Ambassador, .Duke]], [.Contessa], []⟩ 1
    (by decide) (fun d => rfl) (by decide) (by decide)

/-- Counterexample to C4 as stated: from a state in which every counter is at
least the hand size, the accepted `ShowCard(Duke)` transition leaves player
0's counter 1 strictly below their hand size 2. -/
theorem counter_ge_hands_counterexample :
    (∀ p, p < challenge_show_state.player_hands.length →
      challenge_show_state.player_hands.getD p 0 ≤
        challenge_show_state.player_cards_counter.getD p 0) ∧
    ∃ s', play_action vec_cards vec_deck (fun d => d) ⟨0, .ShowCard .Duke⟩
        challenge_show_state = .ok s' ∧
      s'.player_cards_counter.getD 0 0 < s'.player_hands.getD 0 0 := by
  refine ⟨by decide, ⟨.Challenge 0 (.Tax 0) (.ShownCard 1 0), [2, 2], [2, 2], [1, 2],
    [[.Assassin], [.Ambassador, .Contessa]], [.Duke, .Captain], []⟩, by decide, by decide⟩

/-- Counter of player `p` read with default 0. -/
def cgetD (s : GState (List Card) (List Card)) (p : Nat) : Nat :=
  s.player_cards_counter.getD p 0

/-- Hand size of player `p` read with default 0. -/
def hgetD (s : GState (List Card) (List Card)) (p : Nat) : Nat :=
  s.player_hands.getD p 0

/-- Every player other than `tg` has counter equal to hand size. -/
def eq_except (s : GState (List Card) (List Card)) (tg : Nat) : Prop :=
  ∀ p, p ≠ tg → cgetD s p = hgetD s p

/-- The counter/hand relation attached to each challenge sub-phase: in the
three phases after a card was shown, the shown player's counter is one below
the hand size; elsewhere counters equal hand sizes. -/
def chrel (s : GState (List Card) (List Card)) : ChallengeState → Prop
  | .ShownCard _ tg => eq_except s tg ∧ cgetD s tg + 1 = hgetD s tg
  | .InitiatorRevealedCard tg => eq_except s tg ∧ cgetD s tg + 1 = hgetD s tg
  | .DeckShuffled tg => eq_except s tg ∧ cgetD s tg + 1 = hgetD s tg
  | _ => ∀ p, cgetD s p = hgetD s p

/-- The counter/hand relation attached to each state type: equality outside
the transient phases; counter inflated by the pending drop count during
`NeedCards`/`TookCards`/`DroppedCard`; deflated by one for the shown player
during the challenge card-show phases. -/
def strel (s : GState (List Card) (List Card)) : StateType → Prop
  | .NeedCards player _ => eq_except s player ∧ hgetD s player ≤ cgetD s player
  | .TookCards player count =>
    eq_except s player ∧ cgetD s player = hgetD s player + count ∧ 1 ≤ count
  | .DroppedCard player left =>
    eq_except s player ∧ cgetD s player = hgetD s player + left ∧ 1 ≤ left
  | .Challenge _ _ cs => chrel s cs
  | _ => ∀ p, cgetD s p = hgetD s p

/-- The phase-indexed counter/hand invariant of a state. -/
def counter_rel (s : GState (List Card) (List Card)) : Prop :=
  strel s s.state_type

/-- `p` is the player whose shown card is parked in the deck in state `t`. -/
def show_target : StateType → Nat → Bool
  | .Challenge _ _ (.ShownCard _ tg), p => p = tg
  | .Challenge _ _ (.InitiatorRevealedCard tg), p => p = tg
  | .Challenge _ _ (.DeckShuffled tg), p => p = tg
  | _, _ => false

theorem getD_set_self {l : List Nat} {i v : Nat} (h : i < l.length) :
    (l.set i v).getD i 0 = v := by
  simp [List.getD_eq_getElem?_getD, List.getElem?_set_self, h]

theorem getD_set_ne {l : List Nat} {i p v : Nat} (h : p ≠ i) :
    (l.set i v).getD p 0 = l.getD p 0 := by
  simp [List.getD_eq_getElem?_getD, List.getElem?_set_ne (by omega : i ≠ p)]

/-- `counter_rel` yields the claimed inequality for every player other than
the shown player of a challenge show phase. -/
theorem rel_ge {s : GState (List Card) (List Card)} (hrel : counter_rel s) :
    ∀ p, show_target s.state_type p = false → hgetD s p ≤ cgetD s p := by
  intro p hp
  unfold counter_rel at hrel
  unfold strel at hrel
  split at hrel
  case h_1 =>
    rename_i player count heq
    by_cases hpe : p = player
    · subst hpe
      exact hrel.2
    · exact (hrel.1 p hpe).ge
  case h_2 =>
    rename_i player count heq
    by_cases hpe : p = player
    · subst hpe
      omega
    · exact (hrel.1 p hpe).ge
  case h_3 =>
    rename_i player left heq
    by_cases hpe : p = player
    · subst hpe
      omega
    · exact (hrel.1 p hpe).ge
  case h_4 =>
    rename_i cp source cs heq
    rw [heq] at hp
    unfold chrel at hrel
    split at hrel
    case h_1 =>
      rename_i i tg
      have hpt : p ≠ tg := by simpa [show_target] using hp
      exact (hrel.1 p hpt).ge
    case h_2 =>
      rename_i tg
      have hpt : p ≠ tg := by simpa [show_target] using hp
      exact (hrel.1 p hpt).ge
    case h_3 =>
      rename_i tg
      have hpt : p ≠ tg := by simpa [show_target] using hp
      exact (hrel.1 p hpt).ge
    case h_4 => exact (hrel p).ge
  case h_5 => exact (hrel p).ge

/-- State types that carry no pending card drop or shown card. -/
def no_pending_drop : StateType → Bool
  | .TookCards _ _ => false
  | .DroppedCard _ _ => false
  | .Challenge _ _ (.ShownCard _ _) => false
  | .Challenge _ _ (.InitiatorRevealedCard _) => false
  | .Challenge _ _ (.DeckShuffled _) => false
  | _ => true

theorem strel_all_eq {s : GState (List Card) (List Card)}
    (hall : ∀ p, cgetD s p = hgetD s p) (t : StateType)
    (ht : no_pending_drop t = true) : strel s t := by
  cases t
  case NeedCards player count => exact ⟨fun p _ => hall p, (hall _).ge⟩
  case TookCards => simp [no_pending_drop] at ht
  case DroppedCard => simp [no_pending_drop] at ht
  case Challenge cp source cs =>
    cases cs
    case ShownCard => simp [no_pending_drop] at ht
    case InitiatorRevealedCard => simp [no_pending_drop] at ht
    case DeckShuffled => simp [no_pending_drop] at ht
    all_goals exact hall
  all_goals exact hall

theorem strel_start_exchange {s : GState (List Card) (List Card)}
    (hall : ∀ p, cgetD s p = hgetD s p) {player : Nat} {t : StateType}
    (heq : start_exchange vec_deck player s.player_hands s.deck = some t) :
    strel s t := by
  unfold start_exchange at heq
  split at heq
  · rcases hnx : get_next_player player s.player_hands with _ | nx
    all_goals rw [hnx] at heq
    · exact absurd heq (by simp)
    · obtain h1 : _ = t := by simpa using heq
      subst h1
      exact strel_all_eq hall _ rfl
  · obtain h1 : _ = t := by simpa using heq
    subst h1
    exact ⟨fun p _ => hall p, (hall _).ge⟩

theorem on_turn_rel {player : Nat} {a : Action}
    {s s1 : GState (List Card) (List Card)} {t : StateType}
    (hall : ∀ p, cgetD s p = hgetD s p)
    (h : on_turn player a s = .ok s1 t) :
    strel s1 t := by
  unfold on_turn at h
  repeat' split at h
  all_goals try simp_all
  all_goals repeat' split at h
  all_goals try simp_all
  all_goals try (obtain ⟨h1, h2⟩ := h; subst h1; subst h2)
  all_goals try (refine strel_all_eq ?_ _ rfl; exact hall)
  all_goals try (rename_i heq; refine strel_start_exchange ?_ heq; exact hall)

theorem on_foreign_aid_rel {player : Nat} {a : Action}
    {s s1 : GState (List Card) (List Card)} {t : StateType}
    (hall : ∀ p, cgetD s p = hgetD s p)
    (h : on_foreign_aid player a s = .ok s1 t) :
    strel s1 t := by
  unfold on_foreign_aid at h
  repeat' split at h
  all_goals try simp_all
  all_goals repeat' split at h
  all_goals try simp_all
  all_goals try (obtain ⟨h1, h2⟩ := h; subst h1; subst h2)
  all_goals try (refine strel_all_eq ?_ _ rfl; exact hall)
  all_goals try (rename_i heq; refine strel_start_exchange ?_ heq; exact hall)

theorem on_tax_rel {player : Nat} {a : Action}
    {s s1 : GState (List Card) (List Card)} {t : StateType}
    (hall : ∀ p, cgetD s p = hgetD s p)
    (h : on_tax player a s = .ok s1 t) :
    strel s1 t := by
  unfold on_tax at h
  repeat' split at h
  all_goals try simp_all
  all_goals repeat' split at h
  all_goals try simp_all
  all_goals try (obtain ⟨h1, h2⟩ := h; subst h1; subst h2)
  all_goals try (refine strel_all_eq ?_ _ rfl; exact hall)
  all_goals try (rename_i heq; refine strel_start_exchange ?_ heq; exact hall)

theorem on_exchange_rel {player : Nat} {a : Action}
    {s s1 : GState (List Card) (List Card)} {t : StateType}
    (hall : ∀ p, cgetD s p = hgetD s p)
    (h : on_exchange vec_deck player a s = .ok s1 t) :
    strel s1 t := by
  unfold on_exchange at h
  repeat' split at h
  all_goals try simp_all
  all_goals repeat' split at h
  all_goals try simp_all
  all_goals try (obtain ⟨h1, h2⟩ := h; subst h1; subst h2)
  all_goals try (refine strel_all_eq ?_ _ rfl; exact hall)
  all_goals try (rename_i heq; refine strel_start_exchange ?_ heq; exact hall)

theorem on_assassination_rel {player target : Nat} {cc : Bool} {a : Action}
    {s s1 : GState (List Card) (List Card)} {t : StateType}
    (hall : ∀ p, cgetD s p = hgetD s p)
    (h : on_assassination player target cc a s = .ok s1 t) :
    strel s1 t := by
  unfold on_assassination at h
  repeat' split at h
  all_goals try simp_all
  all_goals repeat' split at h
  all_goals try simp_all
  all_goals try (obtain ⟨h1, h2⟩ := h; subst h1; subst h2)
  all_goals try (refine strel_all_eq ?_ _ rfl; exact hall)
  all_goals try (rename_i heq; refine strel_start_exchange ?_ heq; exact hall)

theorem on_steal_rel {player target : Nat} {cc : Bool} {a : Action}
    {s s1 : GState (List Card) (List Card)} {t : StateType}
    (hall : ∀ p, cgetD s p = hgetD s p)
    (h : on_steal player target cc a s = .ok s1 t) :
    strel s1 t := by
  unfold on_steal at h
  repeat' split at h
  all_goals try simp_all
  all_goals repeat' split at h
  all_goals try simp_all
  all_goals try (obtain ⟨h1, h2⟩ := h; subst h1; subst h2)
  all_goals try (refine strel_all_eq ?_ _ rfl; exact hall)
  all_goals try (rename_i heq; refine strel_start_exchange ?_ heq; exact hall)

theorem on_block_foreign_aid_rel {player target : Nat} {a : Action}
    {s s1 : GState (List Card) (List Card)} {t : StateType}
    (hall : ∀ p, cgetD s p = hgetD s p)
    (h : on_block_foreign_aid player target a s = .ok s1 t) :
    strel s1 t := by
  unfold on_block_foreign_aid at h
  repeat' split at h
  all_goals try simp_all
  all_goals repeat' split at h
  all_goals try simp_all
  all_goals try (obtain ⟨h1, h2⟩ := h; subst h1; subst h2)
  all_goals try (refine strel_all_eq ?_ _ rfl; exact hall)
  all_goals try (rename_i heq; refine strel_start_exchange ?_ heq; exact hall)

theorem on_block_assassination_rel {player target : Nat} {a : Action}
    {s s1 : GState (List Card) (List Card)} {t : StateType}
    (hall : ∀ p, cgetD s p = hgetD s p)
    (h : on_block_assassination player target a s = .ok s1 t) :
    strel s1 t := by
  unfold on_block_assassination at h
  repeat' split at h
  all_goals try simp_all
  all_goals repeat' split at h
  all_goals try simp_all
  all_goals try (obtain ⟨h1, h2⟩ := h; subst h1; subst h2)
  all_goals try (refine strel_all_eq ?_ _ rfl; exact hall)
  all_goals try (rename_i heq; refine strel_start_exchange ?_ heq; exact hall)

theorem on_block_steal_rel {player target : Nat} {card : Card} {a : Action}
    {s s1 : GState (List Card) (List Card)} {t : StateType}
    (hall : ∀ p, cgetD s p = hgetD s p)
    (h : on_block_steal player target card a s = .ok s1 t) :
    strel s1 t := by
  unfold on_block_steal at h
  repeat' split at h
  all_goals try simp_all
  all_goals repeat' split at h
  all_goals try simp_all
  all_goals try (obtain ⟨h1, h2⟩ := h; subst h1; subst h2)
  all_goals try (refine strel_all_eq ?_ _ rfl; exact hall)
  all_goals try (rename_i heq; refine strel_start_exchange ?_ heq; exact hall)

theorem on_need_cards_rel {player count : Nat} {a : Action}
    {s s1 : GState (List Card) (List Card)} {t : StateType}
    (hrel : eq_except s player ∧ hgetD s player ≤ cgetD s player)
    (h : on_need_cards vec_cards vec_deck player count a s = .ok s1 t) :
    strel s1 t := by
  unfold on_need_cards at h
  split at h
  · exact absurd h (by simp)
  case isFalse hpe =>
  have hpa : player = a.player := not_not.mp hpe
  subst hpa
  split at h
  case h_2 => exact absurd h (by simp)
  rcases hdk : s.deck with _ | ⟨c, rest⟩ <;> rw [hdk] at h
  · exact absurd h (by simp [vec_deck])
  simp only [vec_deck] at h
  rcases hpc : s.player_cards[a.player]? with _ | pc <;> rw [hpc] at h
  · exact absurd h (by simp)
  rcases hcnt : s.player_cards_counter[a.player]? with _ | cnt <;> rw [hcnt] at h
  · exact absurd h (by simp)
  have hcl : a.player < s.player_cards_counter.length := lt_of_getElem? hcnt
  have hgd : s.player_cards_counter.getD a.player 0 = cnt := getD_of_getElem? hcnt
  have hle : s.player_hands.getD a.player 0 ≤ cnt := by
    have := hrel.2
    simp only [cgetD, hgetD] at this
    omega
  dsimp only at h
  by_cases hc1 : count = 1
  · rw [if_pos hc1] at h
    rcases hh : s.player_hands[a.player]? with _ | hv
    all_goals rw [hh] at h
    · exact absurd h (by simp)
    dsimp only at h
    by_cases hlt : cnt + 1 < hv
    · rw [if_pos hlt] at h
      exact absurd h (by simp)
    · rw [if_neg hlt] at h
      obtain ⟨h1, h2⟩ : _ ∧ _ := by simpa using h
      subst h1
      subst h2
      have hhd : s.player_hands.getD a.player 0 = hv := getD_of_getElem? hh
      refine ⟨?_, ?_, ?_⟩
      · intro p hp
        simp only [cgetD, hgetD]
        rw [getD_set_ne hp]
        simpa [cgetD, hgetD] using hrel.1 p hp
      · simp only [cgetD, hgetD]
        rw [getD_set_self hcl, hhd]
        omega
      · omega
  · rw [if_neg hc1] at h
    by_cases hc0 : count = 0
    · rw [if_pos hc0] at h
      exact absurd h (by simp)
    · rw [if_neg hc0] at h
      obtain ⟨h1, h2⟩ : _ ∧ _ := by simpa using h
      subst h1
      subst h2
      refine ⟨?_, ?_⟩
      · intro p hp
        simp only [cgetD, hgetD]
        rw [getD_set_ne hp]
        simpa [cgetD, hgetD] using hrel.1 p hp
      · simp only [cgetD, hgetD]
        rw [getD_set_self hcl]
        omega

theorem on_took_cards_rel {player count : Nat} {a : Action}
    {s s1 : GState (List Card) (List Card)} {t : StateType}
    (hrel : eq_except s player ∧ cgetD s player = hgetD s player + count ∧ 1 ≤ count)
    (h : on_took_cards vec_cards vec_deck player count a s = .ok s1 t) :
    strel s1 t := by
  unfold on_took_cards at h
  split at h
  case h_2 => exact absurd h (by simp)
  case h_1 card heq =>
  split at h
  · exact absurd h (by simp)
  case isFalse hpe =>
  have hpa : player = a.player := not_not.mp hpe
  subst hpa
  rcases hpc : s.player_cards[a.player]? with _ | pc <;> rw [hpc] at h
  · exact absurd h (by simp)
  dsimp only at h
  by_cases hhc : vec_cards.has_card pc card
  all_goals simp only [hhc] at h
  case neg => exact absurd h (by simp)
  rcases hdc : vec_cards.drop_card pc card with _ | pc1 <;> rw [hdc] at h
  · exact absurd h (by simp)
  rcases hcnt : s.player_cards_counter[a.player]? with _ | cnt <;> rw [hcnt] at h
  · exact absurd h (by simp)
  have hcl : a.player < s.player_cards_counter.length := lt_of_getElem? hcnt
  have hgd : s.player_cards_counter.getD a.player 0 = cnt := getD_of_getElem? hcnt
  have hcc : cnt = s.player_hands.getD a.player 0 + count := by
    have := hrel.2.1
    simp only [cgetD, hgetD] at this
    omega
  dsimp only at h
  by_cases hc0 : cnt = 0
  · rw [if_pos hc0] at h
    exact absurd h (by simp)
  rw [if_neg hc0] at h
  by_cases hc1 : count = 1
  · rw [if_pos hc1] at h
    rcases hnx : get_next_player a.player s.player_hands with _ | nx
    all_goals rw [hnx] at h
    · exact absurd h (by simp)
    obtain ⟨h1, h2⟩ : _ ∧ _ := by simpa using h
    subst h1
    subst h2
    intro p
    by_cases hp : p = a.player
    · subst hp
      simp only [cgetD, hgetD]
      rw [getD_set_self hcl]
      omega
    · simp only [cgetD, hgetD]
      rw [getD_set_ne hp]
      simpa [cgetD, hgetD] using hrel.1 p hp
  · rw [if_neg hc1] at h
    by_cases hcz : count = 0
    · rw [if_pos hcz] at h
      exact absurd h (by simp)
    · rw [if_neg hcz] at h
      obtain ⟨h1, h2⟩ : _ ∧ _ := by simpa using h
      subst h1
      subst h2
      refine ⟨?_, ?_, ?_⟩
      · intro p hp
        simp only [cgetD, hgetD]
        rw [getD_set_ne hp]
        simpa [cgetD, hgetD] using hrel.1 p hp
      · simp only [cgetD, hgetD]
        rw [getD_set_self hcl]
        omega
      · omega

theorem on_dropped_cards_rel {player left : Nat} {a : Action}
    {s s1 : GState (List Card) (List Card)} {t : StateType}
    (hrel : eq_except s player ∧ cgetD s player = hgetD s player + left ∧ 1 ≤ left)
    (h : on_dropped_cards vec_cards vec_deck player left a s = .ok s1 t) :
    strel s1 t := by
  unfold on_dropped_cards at h
  split at h
  case h_2 => exact absurd h (by simp)
  case h_1 card heq =>
  split at h
  · exact absurd h (by simp)
  case isFalse hpe =>
  have hpa : player = a.player := not_not.mp hpe
  subst hpa
  rcases hpc : s.player_cards[a.player]? with _ | pc <;> rw [hpc] at h
  · exact absurd h (by simp)
  dsimp only at h
  by_cases hhc : vec_cards.has_card pc card
  all_goals simp only [hhc] at h
  case neg => exact absurd h (by simp)
  rcases hdc : vec_cards.drop_card pc card with _ | pc1 <;> rw [hdc] at h
  · exact absurd h (by simp)
  rcases hcnt : s.player_cards_counter[a.player]? with _ | cnt <;> rw [hcnt] at h
  · exact absurd h (by simp)
  have hcl : a.player < s.player_cards_counter.length := lt_of_getElem? hcnt
  have hgd : s.player_cards_counter.getD a.player 0 = cnt := getD_of_getElem? hcnt
  have hcc : cnt = s.player_hands.getD a.player 0 + left := by
    have := hrel.2.1
    simp only [cgetD, hgetD] at this
    omega
  dsimp only at h
  by_cases hc0 : cnt = 0
  · rw [if_pos hc0] at h
    exact absurd h (by simp)
  rw [if_neg hc0] at h
  by_cases hc1 : left = 1
  · rw [if_pos hc1] at h
    rcases hnx : get_next_player a.player s.player_hands with _ | nx
    all_goals rw [hnx] at h
    · exact absurd h (by simp)
    obtain ⟨h1, h2⟩ : _ ∧ _ := by simpa using h
    subst h1
    subst h2
    intro p
    by_cases hp : p = a.player
    · subst hp
      simp only [cgetD, hgetD]
      rw [getD_set_self hcl]
      omega
    · simp only [cgetD, hgetD]
      rw [getD_set_ne hp]
      simpa [cgetD, hgetD] using hrel.1 p hp
  · rw [if_neg hc1] at h
    by_cases hcz : left = 0
    · rw [if_pos hcz] at h
      exact absurd h (by simp)
    · rw [if_neg hcz] at h
      obtain ⟨h1, h2⟩ : _ ∧ _ := by simpa using h
      subst h1
      subst h2
      refine ⟨?_, ?_, ?_⟩
      · intro p hp
        simp only [cgetD, hgetD]
        rw [getD_set_ne hp]
        simpa [cgetD, hgetD] using hrel.1 p hp
      · simp only [cgetD, hgetD]
        rw [getD_set_self hcl]
        omega
      · omega

theorem on_lost_influence_rel {player cp : Nat} {a : Action}
    {s s1 : GState (List Card) (List Card)} {t : StateType}
    (hall : ∀ p, cgetD s p = hgetD s p)
    (h : on_lost_influence vec_cards player cp a s = .ok s1 t) :
    strel s1 t := by
  unfold on_lost_influence at h
  split at h
  case h_2 => exact absurd h (by simp)
  case h_1 card heq =>
  split at h
  · exact absurd h (by simp)
  case isFalse hpe =>
  have hpa : player = a.player := not_not.mp hpe
  subst hpa
  rcases hpc : s.player_cards[a.player]? with _ | pc <;> rw [hpc] at h
  · exact absurd h (by simp)
  dsimp only at h
  by_cases hhc : vec_cards.has_card pc card
  all_goals simp only [hhc] at h
  case neg => exact absurd h (by simp)
  rcases hdc : vec_cards.drop_card pc card with _ | pc1 <;> rw [hdc] at h
  · exact absurd h (by simp)
  rcases hh0 : s.player_hands[a.player]? with _ | hv <;> rw [hh0] at h
  · exact absurd h (by simp)
  rcases hcnt : s.player_cards_counter[a.player]? with _ | cnt <;> rw [hcnt] at h
  · exact absurd h (by simp)
  have hcl : a.player < s.player_cards_counter.length := lt_of_getElem? hcnt
  have hhl : a.player < s.player_hands.length := lt_of_getElem? hh0
  have hgd : s.player_cards_counter.getD a.player 0 = cnt := getD_of_getElem? hcnt
  have hhd : s.player_hands.getD a.player 0 = hv := getD_of_getElem? hh0
  dsimp only at h
  by_cases hz : hv = 0 ∨ cnt = 0
  · rw [if_pos hz] at h
    exact absurd h (by simp)
  rw [if_neg hz] at h
  rcases hnx : get_next_player cp (s.player_hands.set a.player (hv - 1)) with _ | nx
  all_goals rw [hnx] at h
  · exact absurd h (by simp)
  obtain ⟨h1, h2⟩ : _ ∧ _ := by simpa using h
  subst h1
  subst h2
  intro p
  by_cases hp : p = a.player
  · subst hp
    simp only [cgetD, hgetD]
    rw [getD_set_self hcl, getD_set_self hhl]
    have := hall a.player
    simp only [cgetD, hgetD] at this
    omega
  · simp only [cgetD, hgetD]
    rw [getD_set_ne hp, getD_set_ne hp]
    simpa [cgetD, hgetD] using hall p

theorem on_challenge_initial_crel {initiator target : Nat} {card : Card} {a : Action}
    {s s1 : GState (List Card) (List Card)} {c : ChallengeState}
    (hall : ∀ p, cgetD s p = hgetD s p)
    (h : on_challenge_initial vec_cards vec_deck initiator target card a s = .ok s1 c) :
    chrel s1 c := by
  unfold on_challenge_initial at h
  split at h
  · exact absurd h (by simp)
  case isFalse hpe =>
  have hpa : target = a.player := not_not.mp hpe
  subst hpa
  split at h
  case h_3 => exact absurd h (by simp)
  case h_1 shown_card heq =>
    by_cases hsc : shown_card ≠ card
    · rw [if_pos hsc] at h
      exact absurd h (by simp)
    rw [if_neg hsc] at h
    rcases hpc : s.player_cards[a.player]? with _ | pc <;> rw [hpc] at h
    · exact absurd h (by simp)
    dsimp only at h
    by_cases hhc : vec_cards.has_card pc card
    all_goals simp only [hhc] at h
    case neg => exact absurd h (by simp)
    rcases hdc : vec_cards.drop_card pc card with _ | pc1 <;> rw [hdc] at h
    · exact absurd h (by simp)
    rcases hcnt : s.player_cards_counter[a.player]? with _ | cnt <;> rw [hcnt] at h
    · exact absurd h (by simp)
    have hcl : a.player < s.player_cards_counter.length := lt_of_getElem? hcnt
    have hgd : s.player_cards_counter.getD a.player 0 = cnt := getD_of_getElem? hcnt
    dsimp only at h
    by_cases hc0 : cnt = 0
    · rw [if_pos hc0] at h
      exact absurd h (by simp)
    rw [if_neg hc0] at h
    obtain ⟨h1, h2⟩ : _ ∧ _ := by simpa using h
    subst h1
    subst h2
    refine ⟨?_, ?_⟩
    · intro p hp
      simp only [cgetD, hgetD]
      rw [getD_set_ne hp]
      simpa [cgetD, hgetD] using hall p
    · simp only [cgetD, hgetD]
      rw [getD_set_self hcl]
      have := hall a.player
      simp only [cgetD, hgetD] at this
      omega
  case h_2 revealed_card heq =>
    rcases hpc : s.player_cards[a.player]? with _ | pc <;> rw [hpc] at h
    · exact absurd h (by simp)
    dsimp only at h
    by_cases hhc : vec_cards.has_card pc revealed_card
    all_goals simp only [hhc] at h
    case neg => exact absurd h (by simp)
    rcases hdc : vec_cards.drop_card pc revealed_card with _ | pc1 <;> rw [hdc] at h
    · exact absurd h (by simp)
    rcases hh0 : s.player_hands[a.player]? with _ | hv <;> rw [hh0] at h
    · exact absurd h (by simp)
    rcases hcnt : s.player_cards_counter[a.player]? with _ | cnt <;> rw [hcnt] at h
    · exact absurd h (by simp)
    have hcl : a.player < s.player_cards_counter.length := lt_of_getElem? hcnt
    have hhl : a.player < s.player_hands.length := lt_of_getElem? hh0
    have hgd : s.player_cards_counter.getD a.player 0 = cnt := getD_of_getElem? hcnt
    have hhd : s.player_hands.getD a.player 0 = hv := getD_of_getElem? hh0
    dsimp only at h
    by_cases hz : hv = 0 ∨ cnt = 0
    · rw [if_pos hz] at h
      exact absurd h (by simp)
    rw [if_neg hz] at h
    obtain ⟨h1, h2⟩ : _ ∧ _ := by simpa using h
    subst h1
    subst h2
    intro p
    by_cases hp : p = a.player
    · subst hp
      simp only [cgetD, hgetD]
      rw [getD_set_self hcl, getD_set_self hhl]
      have := hall a.player
      simp only [cgetD, hgetD] at this
      omega
    · simp only [cgetD, hgetD]
      rw [getD_set_ne hp, getD_set_ne hp]
      simpa [cgetD, hgetD] using hall p

theorem on_challenge_shown_card_crel {initiator target : Nat} {a : Action}
    {s s1 : GState (List Card) (List Card)} {c : ChallengeState}
    (hrel : eq_except s target ∧ cgetD s target + 1 = hgetD s target)
    (h : on_challenge_shown_card vec_cards initiator target a s = .ok s1 c) :
    chrel s1 c := by
  unfold on_challenge_shown_card at h
  split at h
  · exact absurd h (by simp)
  case isFalse hpe =>
  have hpa : initiator = a.player := not_not.mp hpe
  subst hpa
  split at h
  case h_2 => exact absurd h (by simp)
  case h_1 card heq =>
  rcases hpc : s.player_cards[a.player]? with _ | pc <;> rw [hpc] at h
  · exact absurd h (by simp)
  dsimp only at h
  by_cases hhc : vec_cards.has_card pc card
  all_goals simp only [hhc] at h
  case neg => exact absurd h (by simp)
  rcases hdc : vec_cards.drop_card pc card with _ | pc1 <;> rw [hdc] at h
  · exact absurd h (by simp)
  rcases hh0 : s.player_hands[a.player]? with _ | hv <;> rw [hh0] at h
  · exact absurd h (by simp)
  rcases hcnt : s.player_cards_counter[a.player]? with _ | cnt <;> rw [hcnt] at h
  · exact absurd h (by simp)
  have hcl : a.player < s.player_cards_counter.length := lt_of_getElem? hcnt
  have hhl : a.player < s.player_hands.length := lt_of_getElem? hh0
  have hgd : s.player_cards_counter.getD a.player 0 = cnt := getD_of_getElem? hcnt
  have hhd : s.player_hands.getD a.player 0 = hv := getD_of_getElem? hh0
  dsimp only at h
  by_cases hz : hv = 0 ∨ cnt = 0
  · rw [if_pos hz] at h
    exact absurd h (by simp)
  rw [if_neg hz] at h
  obtain ⟨h1, h2⟩ : _ ∧ _ := by simpa using h
  subst h1
  subst h2
  by_cases hit : a.player = target
  · subst hit
    refine ⟨?_, ?_⟩
    · intro p hp
      simp only [cgetD, hgetD]
      rw [getD_set_ne hp, getD_set_ne hp]
      simpa [cgetD, hgetD] using hrel.1 p hp
    · have := hrel.2
      simp only [cgetD, hgetD] at this ⊢
      rw [getD_set_self hcl, getD_set_self hhl]
      omega
  · refine ⟨?_, ?_⟩
    · intro p hp
      by_cases hpi : p = a.player
      · subst hpi
        have := hrel.1 a.player hit
        simp only [cgetD, hgetD] at this ⊢
        rw [getD_set_self hcl, getD_set_self hhl]
        omega
      · simp only [cgetD, hgetD]
        rw [getD_set_ne hpi, getD_set_ne hpi]
        simpa [cgetD, hgetD] using hrel.1 p hp
    · have := hrel.2
      simp only [cgetD, hgetD] at this ⊢
      rw [getD_set_ne (by omega : target ≠ a.player),
        getD_set_ne (by omega : target ≠ a.player)]
      omega

theorem on_challenge_initiator_revealed_card_crel {shuffle : List Card → List Card}
    {target : Nat} {a : Action}
    {s s1 : GState (List Card) (List Card)} {c : ChallengeState}
    (hrel : eq_except s target ∧ cgetD s target + 1 = hgetD s target)
    (h : on_challenge_initiator_revealed_card shuffle target a s = .ok s1 c) :
    chrel s1 c := by
  unfold on_challenge_initiator_revealed_card at h
  split at h
  · exact absurd h (by simp)
  split at h
  case h_2 => exact absurd h (by simp)
  obtain ⟨h1, h2⟩ : _ ∧ _ := by simpa using h
  subst h1
  subst h2
  exact hrel

theorem on_challenge_deck_shuffled_crel {target : Nat} {a : Action}
    {s s1 : GState (List Card) (List Card)} {c : ChallengeState}
    (hrel : eq_except s target ∧ cgetD s target + 1 = hgetD s target)
    (h : on_challenge_deck_shuffled vec_cards vec_deck target a s = .ok s1 c) :
    chrel s1 c := by
  unfold on_challenge_deck_shuffled at h
  split at h
  · exact absurd h (by simp)
  case isFalse hpe =>
  have hpa : target = a.player := not_not.mp hpe
  subst hpa
  split at h
  case h_2 => exact absurd h (by simp)
  rcases hdk : s.deck with _ | ⟨card, rest⟩ <;> rw [hdk] at h
  · exact absurd h (by simp [vec_deck])
  simp only [vec_deck] at h
  rcases hpc : s.player_cards[a.player]? with _ | pc <;> rw [hpc] at h
  · exact absurd h (by simp)
  rcases hcnt : s.player_cards_counter[a.player]? with _ | cnt <;> rw [hcnt] at h
  · exact absurd h (by simp)
  have hcl : a.player < s.player_cards_counter.length := lt_of_getElem? hcnt
  have hgd : s.player_cards_counter.getD a.player 0 = cnt := getD_of_getElem? hcnt
  obtain ⟨h1, h2⟩ : _ ∧ _ := by simpa using h
  subst h1
  subst h2
  intro p
  by_cases hp : p = a.player
  · subst hp
    have := hrel.2
    simp only [cgetD, hgetD] at this ⊢
    rw [getD_set_self hcl]
    omega
  · simp only [cgetD, hgetD]
    rw [getD_set_ne hp]
    simpa [cgetD, hgetD] using hrel.1 p hp

theorem play_challenge_action_crel {shuffle : List Card → List Card}
    {cs : ChallengeState} {a : Action}
    {s s1 : GState (List Card) (List Card)} {c : ChallengeState}
    (hrel : chrel s cs)
    (h : play_challenge_action vec_cards vec_deck shuffle cs a s = .ok s1 c) :
    chrel s1 c := by
  unfold play_challenge_action at h
  split at h
  case h_1 initiator target card => exact on_challenge_initial_crel hrel h
  case h_2 initiator target => exact on_challenge_shown_card_crel hrel h
  case h_3 target => exact on_challenge_initiator_revealed_card_crel hrel h
  case h_4 target => exact on_challenge_deck_shuffled_crel hrel h
  case h_5 => exact absurd h (by simp)

theorem on_challenge_rel {shuffle : List Card → List Card}
    {cp : Nat} {source : StateType} {cs : ChallengeState} {a : Action}
    {s sf : GState (List Card) (List Card)} {t : StateType}
    (hrel : chrel s cs)
    (h : on_challenge vec_cards vec_deck shuffle cp source cs a s = .ok sf t) :
    strel sf t := by
  unfold on_challenge at h
  split at h
  case h_1 => exact absurd h (by simp)
  case h_2 => exact absurd h (by simp)
  case h_3 s1 c heqpc =>
  have hrel1 := play_challenge_action_crel hrel heqpc
  split at h
  case h_1 =>
    split at h
    case h_1 player =>
      rcases hco : s1.player_coins[player]? with _ | coins
      all_goals rw [hco] at h
      · exact absurd h (by simp)
      dsimp only at h
      rcases hnx : get_next_player cp s1.player_hands with _ | nx
      all_goals rw [hnx] at h
      · exact absurd h (by simp)
      obtain ⟨h1, h2⟩ : _ ∧ _ := by simpa using h
      subst h1
      subst h2
      refine strel_all_eq ?_ _ rfl
      exact hrel1
    case h_5 player =>
      rcases hse : start_exchange vec_deck player s1.player_hands s1.deck with _ | t0
      all_goals rw [hse] at h
      · exact absurd h (by simp)
      obtain ⟨h1, h2⟩ : _ ∧ _ := by simpa using h
      subst h1
      subst h2
      refine strel_start_exchange ?_ hse
      exact hrel1
    case h_6 player target cc =>
      obtain ⟨h1, h2⟩ : _ ∧ _ := by simpa using h
      subst h1
      subst h2
      refine strel_all_eq ?_ _ rfl
      exact hrel1
    case h_7 player target cc =>
      obtain ⟨h1, h2⟩ : _ ∧ _ := by simpa using h
      subst h1
      subst h2
      refine strel_all_eq ?_ _ rfl
      exact hrel1
    case h_8 => exact absurd h (by simp)
    all_goals (
      rcases hnx : get_next_player cp s1.player_hands with _ | nx
      all_goals rw [hnx] at h
      · exact absurd h (by simp)
      obtain ⟨h1, h2⟩ : _ ∧ _ := by simpa using h
      subst h1
      subst h2
      refine strel_all_eq ?_ _ rfl
      exact hrel1)
  case h_2 =>
    split at h
    case h_8 => exact absurd h (by simp)
    case h_1 target =>
      obtain ⟨h1, h2⟩ : _ ∧ _ := by simpa using h
      subst h1
      subst h2
      refine strel_all_eq ?_ _ rfl
      exact hrel1
    case h_2 player target =>
      obtain ⟨h1, h2⟩ : _ ∧ _ := by simpa using h
      subst h1
      subst h2
      refine strel_all_eq ?_ _ rfl
      exact hrel1
    case h_3 player target card =>
      obtain ⟨h1, h2⟩ : _ ∧ _ := by simpa using h
      subst h1
      subst h2
      refine strel_all_eq ?_ _ rfl
      exact hrel1
    all_goals (
      rcases hnx : get_next_player cp s1.player_hands with _ | nx
      all_goals rw [hnx] at h
      · exact absurd h (by simp)
      obtain ⟨h1, h2⟩ : _ ∧ _ := by simpa using h
      subst h1
      subst h2
      refine strel_all_eq ?_ _ rfl
      exact hrel1)
  case h_3 =>
    obtain ⟨h1, h2⟩ : _ ∧ _ := by simpa using h
    subst h1
    subst h2
    exact hrel1

theorem dispatch_rel {shuffle : List Card → List Card} {a : Action}
    {s s1 : GState (List Card) (List Card)} {t : StateType}
    (hrel : counter_rel s)
    (h : dispatch vec_cards vec_deck shuffle a s = .ok s1 t) :
    strel s1 t := by
  unfold counter_rel at hrel
  unfold dispatch at h
  split at h
  case h_1 player heq => rw [heq] at hrel; exact on_turn_rel hrel h
  case h_2 player heq => rw [heq] at hrel; exact on_foreign_aid_rel hrel h
  case h_3 player heq => rw [heq] at hrel; exact on_tax_rel hrel h
  case h_4 player heq => rw [heq] at hrel; exact on_exchange_rel hrel h
  case h_5 player target cc heq => rw [heq] at hrel; exact on_assassination_rel hrel h
  case h_6 player target cc heq => rw [heq] at hrel; exact on_steal_rel hrel h
  case h_7 cp source cs heq => rw [heq] at hrel; exact on_challenge_rel hrel h
  case h_8 player target heq => rw [heq] at hrel; exact on_block_foreign_aid_rel hrel h
  case h_9 player count heq => rw [heq] at hrel; exact on_need_cards_rel hrel h
  case h_10 player count heq => rw [heq] at hrel; exact on_took_cards_rel hrel h
  case h_11 player left heq => rw [heq] at hrel; exact on_dropped_cards_rel hrel h
  case h_12 player target heq => rw [heq] at hrel; exact on_block_assassination_rel hrel h
  case h_13 player target card heq => rw [heq] at hrel; exact on_block_steal_rel hrel h
  case h_14 player cp heq => rw [heq] at hrel; exact on_lost_influence_rel hrel h

/-- Claim C4, amended. The inequality `player_cards_counter[p] ≥ player_hands[p]`
is not preserved as stated: during the challenge card-show phases the shown
player's counter is one below the hand size. The invariant the FSM maintains is
the phase-indexed relation `counter_rel` (equality outside the transient
phases, counter inflated by the pending drop count during
`NeedCards`/`TookCards`/`DroppedCard`, deflated by exactly one for the shown
player during `ShownCard`/`InitiatorRevealedCard`/`DeckShuffled`); it is
preserved by every successful `play_action` transition, and it implies
`player_cards_counter[p] ≥ player_hands[p]` for every player `p` other than
the shown player of a challenge card-show phase. -/
theorem counter_ge_hands_amended {shuffle : List Card → List Card} {a : Action}
    {s s1 : GState (List Card) (List Card)}
    (hrel : counter_rel s)
    (h : play_action vec_cards vec_deck shuffle a s = .ok s1) :
    counter_rel s1 ∧
    ∀ p, show_target s1.state_type p = false → hgetD s1 p ≤ cgetD s1 p := by
  unfold play_action at h
  rcases hh : s.player_hands[a.player]? with _ | hand
  all_goals rw [hh] at h
  · exact absurd h (by simp)
  dsimp only at h
  by_cases h0 : hand = 0
  · rw [if_pos h0] at h
    exact absurd h (by simp)
  rw [if_neg h0] at h
  rcases hd : dispatch vec_cards vec_deck shuffle a s with ⟨s2, t⟩ | ⟨e, s2⟩ | _
  all_goals rw [hd] at h
  case _ =>
    have hrel2 := dispatch_rel hrel hd
    have h1 : ({ s2 with state_type := t } : GState (List Card) (List Card)) = s1 := by
      simpa using h
    subst h1
    have hrel3 : counter_rel { s2 with state_type := t } := hrel2
    exact ⟨hrel3, rel_ge hrel3⟩
  case _ => exact absurd h (by simp)
  case _ => exact absurd h (by simp)

/-- Witness for the amended C4 at a concrete input: `Income` from the fresh
two-player state. -/
theorem counter_ge_hands_amended_witness :
    counter_rel (⟨.Turn 1, [3, 2], [2, 2], [2, 2],
        [[.Assassin, .Captain], [.Ambassador, .Duke]], [.Contessa], []⟩ :
      GState (List Card) (List Card)) ∧
    ∀ p, show_target (StateType.Turn 1) p = false →
      hgetD (⟨.Turn 1, [3, 2], [2, 2], [2, 2],
          [[.Assassin, .Captain], [.Ambassador, .Duke]], [.Contessa], []⟩ :
        GState (List Card) (List Card)) p ≤
      cgetD (⟨.Turn 1, [3, 2], [2, 2], [2, 2],
          [[.Assassin, .Captain], [.Ambassador, .Duke]], [.Contessa], []⟩ :
        GState (List Card) (List Card)) p :=
  @counter_ge_hands_amended (fun d => d) ⟨0, .Income⟩ two_player_state
    ⟨.Turn 1, [3, 2], [2, 2], [2, 2],
      [[.Assassin, .Captain], [.Ambassador, .Duke]], [.Contessa], []⟩
    (fun p => match p with | 0 => rfl | 1 => rfl | _ + 2 => rfl) (by decide)

end fsm

/-!
## The blocker-stack game of `game.rs`

`game.rs` implements the game as a `Game` record with a stack of `Blocker`
values. Vectors are modeled as Lean lists in the same order as the Rust `Vec`:
`push` appends at the end, `pop`/`last` read the end (`getLast?`/`dropLast`).
The RNG is externalized: `Game::new` receives the already shuffled deck, and
`play` receives the shuffle function used by `show_card`. A Rust panic
(out-of-bounds index, `unwrap` of `None`, or a divergent `advance_player`
loop) is the `crash` result.
-/

namespace game

inductive Card where
  | Assassin
  | Ambassador
  | Captain
  | Contessa
  | Duke
deriving DecidableEq, Repr, BEq

def ALL_CARDS : List Card := [.Assassin, .Ambassador, .Captain, .Contessa, .Duke]

def CARDS_PER_PLAYER : Nat := 2

def MAX_CARDS_TO_EXCHANGE : Nat := 2

def STEAL_BLOCKERS : List Card := [.Ambassador, .Captain]

def ASSASSINATION_COST : Nat := 3

def COUP_COST : Nat := 7

def MAX_COINS : Nat := 10

structure PlayerCard where
  kind : Card
  revealed : Bool
deriving DecidableEq, Repr, BEq

structure Player where
  coins : Nat
  cards : List PlayerCard
deriving DecidableEq, Repr, BEq

def Player.is_active (p : Player) : Bool :=
  p.cards.any (fun v => !v.revealed)

structure OpponentView where
  coins : Nat
  hand : Nat
  revealed_cards : List Card
deriving DecidableEq, Repr

inductive ActionType where
  | Income
  | ForeignAid
  | Coup (target : Nat)
  | Tax
  | Assassinate (target : Nat)
  | Exchange
  | Steal (target : Nat)
  | BlockForeignAid
  | BlockAssassination
  | BlockSteal (card : Card)
  | Complete
  | Challenge
  | ShowCard (card : Card)
  | RevealCard (card : Card)
  | DropCard (card : Card)
deriving DecidableEq, Repr

structure Action where
  player : Nat
  action_type : ActionType
deriving DecidableEq, Repr

inductive Blocker where
  | Counteraction (action_type : ActionType) (target : Nat) (source : Option Nat)
  | Challenge (target : Nat) (source : Nat) (card : Card)
  | RevealCard (target : Nat)
  | DropCard (target : Nat)
deriving DecidableEq, Repr

structure Game where
  step : Nat
  turn : Nat
  round : Nat
  players : List Player
  deck : List Card
  player : Nat
  blockers : List Blocker
deriving DecidableEq, Repr

def make_deck (cards_per_type : Nat) : List Card :=
  ALL_CARDS.flatMap (fun card => List.replicate cards_per_type card)

def opponent_view (pl : Player) : OpponentView :=
  ⟨pl.coins, (pl.cards.filter (fun card => !card.revealed)).length,
    (pl.cards.filter (fun card => card.revealed)).map (fun card => card.kind)⟩

/-- The `players` field of `get_anonymous_view`/`get_player_view`. -/
def Game.views (g : Game) : List OpponentView :=
  g.players.map opponent_view

def Game.is_done (g : Game) : Bool :=
  (g.players.filter (fun player => player.cards.any (fun card => !card.revealed))).length ≤ 1

/-- Result of a `Game` method returning `Result<(), String>`: the mutated
game on `Ok`, `err` on `Err` (the message strings are elided), `crash` for a
panic. -/
inductive GRes where
  | ok (g : Game)
  | err
  | crash
deriving DecidableEq, Repr

/-- The `advance_player` while-loop, with explicit fuel; `none` is the
divergent loop (no active player), a hang in Rust. -/
def advance_player_aux (players : List Player) : Nat → Nat → Option Nat
  | _, 0 => none
  | player, fuel + 1 =>
    match players[(player + 1) % players.length]? with
    | none => none
    | some pl =>
      if pl.is_active then some ((player + 1) % players.length)
      else advance_player_aux players (player + 1) fuel

def advance_player (g : Game) : Option Game :=
  match advance_player_aux g.players g.player (g.players.length + 1) with
  | none => none
  | some p => some { g with player := p }

def income (player : Nat) (g : Game) : GRes :=
  if player ≠ g.player then .err else
  if ¬ g.blockers.isEmpty then .err else
  match g.players[player]? with
  | none => .crash
  | some pl =>
    if MAX_COINS ≤ pl.coins then .err else
    match advance_player { g with players := g.players.set player { pl with coins := pl.coins + 1 } } with
    | none => .crash
    | some g1 => .ok g1

def action_without_target (action_type : ActionType) (player : Nat) (g : Game) : GRes :=
  if player ≠ g.player then .err else
  if ¬ g.blockers.isEmpty then .err else
  match g.players[player]? with
  | none => .crash
  | some pl =>
    if MAX_COINS ≤ pl.coins then .err else
    .ok { g with blockers := g.blockers ++ [.Counteraction action_type player none] }

def coup (player target : Nat) (g : Game) : GRes :=
  if player ≠ g.player then .err else
  if ¬ g.blockers.isEmpty then .err else
  if player = target then .err else
  match g.players[player]? with
  | none => .crash
  | some pl =>
    if pl.coins < COUP_COST then .err else
    match g.players[target]? with
    | none => .crash
    | some tg =>
      if ¬ tg.is_active then .err else
      .ok { g with players := g.players.set player { pl with coins := pl.coins - COUP_COST },
                   blockers := g.blockers ++ [.RevealCard target] }

def assassinate (player target : Nat) (g : Game) : GRes :=
  if player ≠ g.player then .err else
  if ¬ g.blockers.isEmpty then .err else
  if player = target then .err else
  match g.players[target]? with
  | none => .crash
  | some tg =>
    if ¬ tg.is_active then .err else
    match g.players[player]? with
    | none => .crash
    | some pl =>
      if pl.coins < ASSASSINATION_COST then .err else
      if MAX_COINS ≤ pl.coins then .err else
      .ok { g with players := g.players.set player { pl with coins := pl.coins - ASSASSINATION_COST },
                   blockers := g.blockers ++ [.Counteraction (.Assassinate target) player none] }

def steal (player target : Nat) (g : Game) : GRes :=
  if player ≠ g.player then .err else
  if ¬ g.blockers.isEmpty then .err else
  if player = target then .err else
  match g.players[target]? with
  | none => .crash
  | some tg =>
    if ¬ tg.is_active then .err else
    match g.players[player]? with
    | none => .crash
    | some pl =>
      if MAX_COINS ≤ pl.coins then .err else
      .ok { g with blockers := g.blockers ++ [.Counteraction (.Steal target) player none] }

def block_foreign_aid (player : Nat) (g : Game) : GRes :=
  if player = g.player then .err else
  match g.blockers.getLast? with
  | some (.Counteraction at0 target0 source0) =>
    if source0.isSome then .err else
    .ok { g with blockers := g.blockers.dropLast ++
      [.Counteraction at0 target0 (some player),
       .Counteraction .BlockForeignAid player none] }
  | _ => .err

def block_steal (player : Nat) (card : Card) (g : Game) : GRes :=
  if player = g.player then .err else
  if ¬ (card = .Ambassador ∨ card = .Captain) then .err else
  match g.blockers.getLast? with
  | some (.Counteraction at0 target0 source0) =>
    if source0.isSome then .err else
    .ok { g with blockers := g.blockers.dropLast ++
      [.Counteraction at0 target0 (some player),
       .Counteraction (.BlockSteal card) player none] }
  | _ => .err

def block_assassination (player : Nat) (g : Game) : GRes :=
  if player = g.player then .err else
  match g.blockers.getLast? with
  | some (.Counteraction at0 target0 source0) =>
    if source0.isSome then .err else
    .ok { g with blockers := g.blockers.dropLast ++
      [.Counteraction at0 target0 (some player),
       .Counteraction .BlockAssassination player none] }
  | _ => .err

/-- The `Exchange` arm of `complete_action`: draw `k` cards from the deck end
into the player's hand, pushing a `DropCard` blocker for each; `none` is the
`unwrap` panic on an empty deck. -/
def exchange_take (player : Nat) : Nat → Game → Option Game
  | 0, g => some g
  | k + 1, g =>
    match g.deck.getLast? with
    | none => none
    | some card =>
      match g.players[player]? with
      | none => none
      | some pl =>
        exchange_take player k
          { g with deck := g.deck.dropLast,
                   players := g.players.set player
                     { pl with cards := pl.cards ++ [⟨card, false⟩] },
                   blockers := g.blockers ++ [.DropCard player] }

/-- `complete_action` of game.rs; `none` is a panic. -/
def complete_action (action_type : ActionType) (player : Nat) (g : Game) : Option Game :=
  match action_type with
  | .ForeignAid =>
    match g.players[player]? with
    | none => none
    | some pl => some { g with players := g.players.set player { pl with coins := pl.coins + 2 } }
  | .Tax =>
    match g.players[player]? with
    | none => none
    | some pl => some { g with players := g.players.set player { pl with coins := pl.coins + 3 } }
  | .Assassinate target =>
    match g.players[target]? with
    | none => none
    | some tg =>
      if tg.is_active then some { g with blockers := g.blockers ++ [.RevealCard target] }
      else some g
  | .Exchange => exchange_take player (Nat.min g.deck.length MAX_CARDS_TO_EXCHANGE) g
  | .Steal target =>
    match g.players[target]?, g.players[player]? with
    | some tg, some pl =>
      let pl1 : Player := { pl with coins := pl.coins + Nat.min tg.coins 2 }
      let g1 := { g with players := g.players.set player pl1 }
      match g1.players[target]? with
      | none => none
      | some tg1 =>
        let tg2 : Player := { tg1 with coins := tg1.coins - Nat.min tg1.coins 2 }
        some { g1 with players := g1.players.set target tg2 }
    | _, _ => none
  | _ => some g

def complete (player : Nat) (g : Game) : GRes :=
  if g.blockers.length < 1 then .err else
  match g.blockers.getLast? with
  | some (.Counteraction action_type target none) =>
    if player ≠ target then .err else
    match complete_action action_type target { g with blockers := [] } with
    | none => .crash
    | some g1 =>
      if g1.blockers.isEmpty then
        match advance_player g1 with
        | none => .crash
        | some g2 => .ok g2
      else .ok g1
  | _ => .err

/-- The card claimed by the counteraction being challenged. -/
def challenge_card : ActionType → Option Card
  | .BlockForeignAid => some .Duke
  | .Tax => some .Duke
  | .BlockSteal card => some card
  | .BlockAssassination => some .Contessa
  | .Steal _ => some .Captain
  | .Assassinate _ => some .Assassin
  | .Exchange => some .Ambassador
  | _ => none

def challenge (player : Nat) (g : Game) : GRes :=
  match g.blockers.getLast? with
  | some (.Counteraction at0 target0 source0) =>
    match challenge_card at0 with
    | none => .err
    | some card =>
      match source0 with
      | none =>
        .ok { g with blockers := g.blockers.dropLast ++
          [.Counteraction at0 target0 (some player), .Challenge target0 player card] }
      | some sp =>
        if target0 ≠ player then .err else
        .ok { g with blockers := g.blockers ++ [.Challenge sp player card] }
  | _ => .err

/-- First index of a non-revealed card of the given kind (`find_position`). -/
def find_card_index (cards : List PlayerCard) (card : Card) : Option Nat :=
  cards.findIdx? (fun v => !v.revealed && v.kind == card)

def show_card (shuffle : List Card → List Card) (player : Nat) (shown_card : Card)
    (g : Game) : GRes :=
  match g.blockers.getLast? with
  | some (.Challenge target source card) =>
    if shown_card ≠ card then .err else
    if target ≠ player then .err else
    match g.players[target]? with
    | none => .crash
    | some pl =>
      match find_card_index pl.cards card with
      | none => .err
      | some card_index =>
        let deck1 := shuffle (g.deck ++ [shown_card])
        match deck1.getLast? with
        | none => .crash
        | some new_card =>
          .ok { g with
            players := g.players.set target
              { pl with cards := pl.cards.eraseIdx card_index ++ [⟨new_card, false⟩] },
            deck := deck1.dropLast,
            blockers := g.blockers.dropLast ++ [.RevealCard source] }
  | _ => .err

/-- The blocker-unwinding loop at the end of `reveal_card`; one pop per
iteration, so the fuel only runs out (`none`, an impossibility the callers
turn into `crash`) if the loop itself would not terminate. -/
def reveal_loop (player : Nat) : Nat → Game → Option Game
  | 0, _ => none
  | fuel + 1, g =>
    if g.blockers.isEmpty then some g else
    match g.blockers.getLast? with
    | some (.Counteraction action_type target _) =>
      let g1 := { g with blockers := g.blockers.dropLast }
      if player ≠ target then
        match complete_action action_type target g1 with
        | none => none
        | some g2 => reveal_loop player fuel g2
      else reveal_loop player fuel g1
    | _ => some g

def reveal_card (player : Nat) (card : Card) (g : Game) : GRes :=
  match g.blockers.getLast? with
  | some (.RevealCard target) =>
    if target ≠ player then .err else reveal_card_body player card g
  | some (.Challenge target _ _) =>
    if target ≠ player then .err else reveal_card_body player card g
  | _ => .err
where
  reveal_card_body (player : Nat) (card : Card) (g : Game) : GRes :=
    match g.players[player]? with
    | none => .crash
    | some pl =>
      match find_card_index pl.cards card with
      | none => .err
      | some card_index =>
        let g1 := { g with
          players := g.players.set player
            { pl with cards := pl.cards.set card_index ⟨card, true⟩ },
          blockers := g.blockers.dropLast }
        match reveal_loop player (g1.blockers.length + 1) g1 with
        | none => .crash
        | some g2 =>
          if g2.blockers.isEmpty then
            match advance_player g2 with
            | none => .crash
            | some g3 => .ok g3
          else .ok g2

def drop_card (player : Nat) (card : Card) (g : Game) : GRes :=
  match g.blockers.getLast? with
  | some (.DropCard target) =>
    if target ≠ player then .err else
    match g.players[player]? with
    | none => .crash
    | some pl =>
      match find_card_index pl.cards card with
      | none => .err
      | some card_index =>
        match pl.cards[card_index]? with
        | none => .crash
        | some removed =>
          let g1 := { g with
            blockers := g.blockers.dropLast,
            players := g.players.set player { pl with cards := pl.cards.eraseIdx card_index },
            deck := g.deck ++ [removed.kind] }
          if g1.blockers.isEmpty then
            match advance_player g1 with
            | none => .crash
            | some g2 => .ok g2
          else .ok g1
  | _ => .err

/-- `Game::play` of game.rs: dispatch on the action type, then update the
step/turn/round counters on success. -/
def play (shuffle : List Card → List Card) (a : Action) (g : Game) : GRes :=
  let player := g.player
  let result :=
    match a.action_type with
    | .Income => income a.player g
    | .ForeignAid => action_without_target .ForeignAid a.player g
    | .Tax => action_without_target .Tax a.player g
    | .Exchange => action_without_target .Exchange a.player g
    | .Coup target => coup a.player target g
    | .Assassinate target => assassinate a.player target g
    | .Steal target => steal a.player target g
    | .BlockForeignAid => block_foreign_aid a.player g
    | .BlockSteal card => block_steal a.player card g
    | .BlockAssassination => block_assassination a.player g
    | .Complete => complete a.player g
    | .Challenge => challenge a.player g
    | .ShowCard card => show_card shuffle a.player card g
    | .RevealCard card => reveal_card a.player card g
    | .DropCard card => drop_card a.player card g
  match result with
  | .ok g1 =>
    .ok { g1 with
      step := g1.step + 1,
      turn := if player ≠ g1.player then g1.turn + 1 else g1.turn,
      round := if player ≠ g1.player ∧ g1.player < player then g1.round + 1 else g1.round }
  | .err => .err
  | .crash => .crash

def deal_one (pl : Player) (deck : List Card) : Option (Player × List Card) :=
  match deck.getLast? with
  | none => none
  | some card => some ({ pl with cards := pl.cards ++ [⟨card, false⟩] }, deck.dropLast)

def deal_round : List Player → List Card → Option (List Player × List Card)
  | [], deck => some ([], deck)
  | pl :: rest, deck =>
    match deal_one pl deck with
    | none => none
    | some (pl1, deck1) =>
      match deal_round rest deck1 with
      | none => none
      | some (rest1, deck2) => some (pl1 :: rest1, deck2)

/-- `Game::new` of game.rs with the RNG externalized: `deck0` is the deck
after the initial shuffle; two deal rounds hand each player two cards from
the deck end; `none` is the `unwrap` panic on a too-small deck. -/
def game_new (players_number : Nat) (deck0 : List Card) : Option Game :=
  let players : List Player := List.replicate players_number ⟨2, []⟩
  match deal_round players deck0 with
  | none => none
  | some (players1, deck1) =>
    match deal_round players1 deck1 with
    | none => none
    | some (players2, deck2) =>
      some ⟨0, 0, 0, players2, deck2, 0, []⟩

/-- `get_available_actions` of game.rs (an out-of-bounds `player`, a panic in
Rust, yields the empty list). -/
def get_available_actions (player : Nat) (players : List OpponentView)
    (blockers : List Blocker) : List Action :=
  if blockers.isEmpty then
    match players[player]? with
    | none => []
    | some me =>
      if MAX_COINS ≤ me.coins then
        (List.range players.length).flatMap (fun i =>
          match players[i]? with
          | some v => if i ≠ player ∧ 0 < v.hand then [⟨player, .Coup i⟩] else []
          | none => [])
      else
        [⟨player, .Income⟩, ⟨player, .ForeignAid⟩, ⟨player, .Tax⟩, ⟨player, .Exchange⟩] ++
        (List.range players.length).flatMap (fun i =>
          match players[i]? with
          | some v =>
            if i ≠ player ∧ 0 < v.hand then
              [⟨player, .Steal i⟩] ++
              (if ASSASSINATION_COST ≤ me.coins then [⟨player, .Assassinate i⟩] else []) ++
              (if COUP_COST ≤ me.coins then [⟨player, .Coup i⟩] else [])
            else []
          | none => [])
  else
    match blockers.getLast? with
    | some (.Counteraction action_type target _) =>
      match action_type with
      | .ForeignAid =>
        (List.range players.length).flatMap (fun i =>
          match players[i]? with
          | some v => if i ≠ target ∧ 0 < v.hand then [⟨i, .BlockForeignAid⟩] else []
          | none => []) ++ [⟨target, .Complete⟩]
      | .Assassinate _ =>
        (List.range players.length).flatMap (fun i =>
          match players[i]? with
          | some v =>
            if i ≠ target ∧ 0 < v.hand then [⟨i, .BlockAssassination⟩, ⟨i, .Challenge⟩]
            else []
          | none => []) ++ [⟨target, .Complete⟩]
      | .Steal _ =>
        (List.range players.length).flatMap (fun i =>
          match players[i]? with
          | some v =>
            if i ≠ target ∧ 0 < v.hand then
              STEAL_BLOCKERS.map (fun card => ⟨i, .BlockSteal card⟩) ++ [⟨i, .Challenge⟩]
            else []
          | none => []) ++ [⟨target, .Complete⟩]
      | .Tax | .Exchange | .BlockForeignAid | .BlockAssassination | .BlockSteal _ =>
        (List.range players.length).flatMap (fun i =>
          match players[i]? with
          | some v => if i ≠ target ∧ 0 < v.hand then [⟨i, .Challenge⟩] else []
          | none => []) ++ [⟨target, .Complete⟩]
      | _ => []
    | some (.Challenge target _ card) =>
      ⟨target, .ShowCard card⟩ :: ALL_CARDS.map (fun c => ⟨target, .RevealCard c⟩)
    | some (.RevealCard target) => ALL_CARDS.map (fun c => ⟨target, .RevealCard c⟩)
    | some (.DropCard target) => ALL_CARDS.map (fun c => ⟨target, .DropCard c⟩)
    | none => []

/-- The game states reachable through the public interface: a fresh game dealt
from a shuffled standard deck for at least two players, closed under accepted
`play` transitions with any permutation-producing shuffle. -/
inductive Reachable : Game → Prop where
  | init (players_number cards_per_type : Nat) (deck0 : List Card) (g : Game)
      (hn : 2 ≤ players_number)
      (hperm : deck0.Perm (make_deck cards_per_type))
      (hg : game_new players_number deck0 = some g) : Reachable g
  | step (g g1 : Game) (a : Action) (shuffle : List Card → List Card)
      (hsh : ∀ d, (shuffle d).Perm d)
      (hr : Reachable g) (hp : play shuffle a g = .ok g1) : Reachable g1

/-- Deck whose deal gives player 0 the hand `[Assassin, Captain]`. -/
def cx_deck : List Card := [.Duke, .Contessa, .Captain, .Ambassador, .Assassin]

def cx_g0 : Game :=
  ⟨0, 0, 0,
    [⟨2, [⟨.Assassin, false⟩, ⟨.Captain, false⟩]⟩,
     ⟨2, [⟨.Ambassador, false⟩, ⟨.Contessa, false⟩]⟩],
    [.Duke], 0, []⟩

def cx_g1 : Game :=
  ⟨1, 0, 0,
    [⟨2, [⟨.Assassin, false⟩, ⟨.Captain, false⟩]⟩,
     ⟨2, [⟨.Ambassador, false⟩, ⟨.Contessa, false⟩]⟩],
    [.Duke], 0, [.Counteraction .Tax 0 none]⟩

def cx_g2 : Game :=
  ⟨2, 0, 0,
    [⟨2, [⟨.Assassin, false⟩, ⟨.Captain, false⟩]⟩,
     ⟨2, [⟨.Ambassador, false⟩, ⟨.Contessa, false⟩]⟩],
    [.Duke], 0,
    [.Counteraction .Tax 0 (some 1), .Challenge 0 1 .Duke]⟩

theorem cx_reachable : Reachable cx_g2 :=
  .step cx_g1 cx_g2 ⟨1, .Challenge⟩ (fun d => d) (fun d => List.Perm.refl d)
    (.step cx_g0 cx_g1 ⟨0, .Tax⟩ (fun d => d) (fun d => List.Perm.refl d)
      (.init 2 1 cx_deck cx_g0 (by decide) (by decide) (by decide))
      (by decide))
    (by decide)

/-- Counterexample to C5 as stated: in the reachable game where player 0
played `Tax`, player 1 challenged, and player 0 holds `[Assassin, Captain]`,
the enumerator emits `ShowCard(Duke)` (and `RevealCard` of all five kinds)
for player 0, but playing `ShowCard(Duke)` is rejected because player 0 does
not hold a Duke. -/
theorem enumerator_soundness_counterexample :
    Reachable cx_g2 ∧
    (⟨0, .ShowCard .Duke⟩ : Action) ∈
      get_available_actions cx_g2.player cx_g2.views cx_g2.blockers ∧
    ∀ shuffle : List Card → List Card,
      play shuffle ⟨0, .ShowCard .Duke⟩ cx_g2 = .err :=
  ⟨cx_reachable, by decide, fun shuffle => rfl⟩

/-- Player `i` exists and holds a non-revealed card. -/
def active_at (players : List Player) (i : Nat) : Bool :=
  match players[i]? with
  | some pl => pl.is_active
  | none => false

/-- The basic well-formedness the game loop maintains: the current player
index is in bounds, and whenever the blocker stack is empty the current
player is active. -/
def inv_basic (g : Game) : Bool :=
  decide (g.player < g.players.length) &&
  (!g.blockers.isEmpty || active_at g.players g.player)

theorem hand_pos_iff_active {pl : Player} :
    0 < (pl.cards.filter (fun card => !card.revealed)).length ↔ pl.is_active = true := by
  rw [List.length_pos_iff_exists_mem]
  simp [Player.is_active, List.mem_filter, List.any_eq_true]

theorem advance_player_aux_sound {players : List Player} {p fuel q : Nat}
    (h : advance_player_aux players p fuel = some q) :
    q < players.length ∧ active_at players q = true := by
  induction fuel generalizing p with
  | zero => exact absurd h (by simp [advance_player_aux])
  | succ fuel ih =>
    unfold advance_player_aux at h
    rcases hpl : players[(p + 1) % players.length]? with _ | pl
    all_goals rw [hpl] at h
    · exact absurd h (by simp)
    dsimp only at h
    by_cases hact : pl.is_active
    · rw [if_pos hact] at h
      obtain hq : (p + 1) % players.length = q := by simpa using h
      subst hq
      exact ⟨fsm.lt_of_getElem? hpl, by simp [active_at, hpl, hact]⟩
    · rw [if_neg hact] at h
      exact ih h

theorem advance_player_aux_some {players : List Player} {p : Nat} (fuel : Nat)
    (hex : ∃ j, j < fuel ∧ active_at players ((p + 1 + j) % players.length) = true) :
    ∃ q, advance_player_aux players p fuel = some q := by
  induction fuel generalizing p with
  | zero =>
    obtain ⟨j, hj, _⟩ := hex
    omega
  | succ fuel ih =>
    obtain ⟨j, hj, hact⟩ := hex
    unfold advance_player_aux
    rcases hpl : players[(p + 1) % players.length]? with _ | pl
    · exfalso
      by_cases h0 : players.length = 0
      · have hpe : players = [] := by
          cases players with
          | nil => rfl
          | cons a l => simp at h0
        subst hpe
        simp [active_at] at hact
      · have hlt : (p + 1) % players.length < players.length := Nat.mod_lt _ (by omega)
        rw [List.getElem?_eq_none_iff] at hpl
        omega
    · dsimp only
      by_cases hact1 : pl.is_active
      · rw [if_pos hact1]
        exact ⟨_, rfl⟩
      · rw [if_neg hact1]
        have hj0 : j ≠ 0 := by
          intro hz
          subst hz
          simp only [Nat.add_zero] at hact
          unfold active_at at hact
          rw [hpl] at hact
          exact hact1 hact
        refine ih ⟨j - 1, by omega, ?_⟩
        have harith : p + 1 + 1 + (j - 1) = p + 1 + j := by omega
        rw [harith]
        exact hact

theorem advance_player_some {g : Game}
    (hb : g.player < g.players.length)
    (hact : active_at g.players g.player = true) :
    ∃ g1, advance_player g = some g1 ∧ g1.players = g.players ∧
      g1.blockers = g.blockers ∧ g1.player < g1.players.length ∧
      active_at g1.players g1.player = true ∧ g1.step = g.step ∧
      g1.turn = g.turn ∧ g1.round = g.round ∧ g1.deck = g.deck := by
  have hn : 0 < g.players.length := by omega
  obtain ⟨q, hq⟩ := @advance_player_aux_some g.players g.player
    (g.players.length + 1)
    ⟨g.players.length - 1, by omega, by
      have harith : (g.player + 1 + (g.players.length - 1)) % g.players.length
          = g.player % g.players.length := by
        conv_lhs => rw [show g.player + 1 + (g.players.length - 1)
          = g.player + g.players.length by omega]
        simp [Nat.add_mod_right]
      rw [harith, Nat.mod_eq_of_lt hb]
      exact hact⟩
  obtain ⟨hql, hqa⟩ := advance_player_aux_sound hq
  exact ⟨{ g with player := q }, by simp [advance_player, hq], rfl, rfl, hql, hqa,
    rfl, rfl, rfl, rfl⟩

theorem advance_player_fields {g g1 : Game}
    (h : advance_player g = some g1) :
    g1.players = g.players ∧ g1.blockers = g.blockers ∧
    g1.player < g1.players.length ∧ active_at g1.players g1.player = true := by
  unfold advance_player at h
  rcases hq : advance_player_aux g.players g.player (g.players.length + 1) with _ | q
  all_goals rw [hq] at h
  · exact absurd h (by simp)
  obtain hg : _ = g1 := by simpa using h
  subst hg
  obtain ⟨h1, h2⟩ := advance_player_aux_sound hq
  exact ⟨rfl, rfl, h1, h2⟩

theorem inv_parts {g : Game} (hinv : inv_basic g = true) :
    g.player < g.players.length ∧
    (g.blockers.isEmpty = false ∨ active_at g.players g.player = true) := by
  simp only [inv_basic, Bool.and_eq_true, decide_eq_true_eq, Bool.or_eq_true,
    Bool.not_eq_true'] at hinv
  exact hinv

theorem inv_build {g : Game} (h1 : g.player < g.players.length)
    (h2 : g.blockers.isEmpty = false ∨ active_at g.players g.player = true) :
    inv_basic g = true := by
  simp only [inv_basic, Bool.and_eq_true, decide_eq_true_eq, Bool.or_eq_true,
    Bool.not_eq_true']
  exact ⟨h1, h2⟩

theorem exchange_take_fields {p k : Nat} {g g1 : Game}
    (h : exchange_take p k g = some g1) :
    g1.players.length = g.players.length ∧ g1.player = g.player := by
  induction k generalizing g with
  | zero =>
    obtain hg : g = g1 := by simpa [exchange_take] using h
    subst hg
    exact ⟨rfl, rfl⟩
  | succ k ih =>
    unfold exchange_take at h
    rcases hd : g.deck.getLast? with _ | card <;> rw [hd] at h
    · exact absurd h (by simp)
    rcases hpl : g.players[p]? with _ | pl <;> rw [hpl] at h
    · exact absurd h (by simp)
    obtain ⟨h1, h2⟩ := ih h
    exact ⟨by rw [h1]; simp, by rw [h2]⟩

theorem complete_action_fields {at0 : ActionType} {p : Nat} {g g1 : Game}
    (h : complete_action at0 p g = some g1) :
    g1.players.length = g.players.length ∧ g1.player = g.player := by
  unfold complete_action at h
  split at h
  case h_1 =>
    rcases hpl : g.players[p]? with _ | pl <;> rw [hpl] at h
    · exact absurd h (by simp)
    obtain hg : _ = g1 := by simpa using h
    subst hg
    exact ⟨by simp, rfl⟩
  case h_2 =>
    rcases hpl : g.players[p]? with _ | pl <;> rw [hpl] at h
    · exact absurd h (by simp)
    obtain hg : _ = g1 := by simpa using h
    subst hg
    exact ⟨by simp, rfl⟩
  case h_3 target =>
    rcases hpl : g.players[target]? with _ | tg <;> rw [hpl] at h
    · exact absurd h (by simp)
    dsimp only at h
    by_cases ha : tg.is_active
    · rw [if_pos ha] at h
      obtain hg : _ = g1 := by simpa using h
      subst hg
      exact ⟨rfl, rfl⟩
    · rw [if_neg ha] at h
      obtain hg : g = g1 := by simpa using h
      subst hg
      exact ⟨rfl, rfl⟩
  case h_4 => exact exchange_take_fields h
  case h_5 target =>
    rcases hpl : g.players[target]? with _ | tg <;> rw [hpl] at h
    · exact absurd h (by simp)
    rcases hpp : g.players[p]? with _ | pl <;> rw [hpp] at h
    · exact absurd h (by simp)
    dsimp only at h
    rcases hpt : (g.players.set p { pl with coins := pl.coins + Nat.min tg.coins 2 })[target]?
      with _ | tg1 <;> rw [hpt] at h
    · exact absurd h (by simp)
    obtain hg : _ = g1 := by simpa using h
    subst hg
    exact ⟨by simp, rfl⟩
  case h_6 =>
    obtain hg : g = g1 := by simpa using h
    subst hg
    exact ⟨rfl, rfl⟩

theorem reveal_loop_fields {p fuel : Nat} {g g1 : Game}
    (h : reveal_loop p fuel g = some g1) :
    g1.players.length = g.players.length ∧ g1.player = g.player := by
  induction fuel generalizing g with
  | zero => exact absurd h (by simp [reveal_loop])
  | succ fuel ih =>
    unfold reveal_loop at h
    by_cases he : g.blockers.isEmpty
    · rw [if_pos he] at h
      obtain hg : g = g1 := by simpa using h
      subst hg
      exact ⟨rfl, rfl⟩
    · rw [if_neg he] at h
      split at h
      next action_type target src heq =>
        dsimp only at h
        by_cases hpt : p ≠ target
        · rw [if_pos hpt] at h
          rcases hca : complete_action action_type target { g with blockers := g.blockers.dropLast }
            with _ | g2 <;> rw [hca] at h
          · exact absurd h (by simp)
          obtain ⟨l1, p1⟩ := complete_action_fields hca
          obtain ⟨l2, p2⟩ := ih h
          exact ⟨by rw [l2, l1], by rw [p2, p1]⟩
        · rw [if_neg hpt] at h
          obtain ⟨l2, p2⟩ := ih h
          exact ⟨by rw [l2], by rw [p2]⟩
      next =>
        obtain hg : g = g1 := by simpa using h
        subst hg
        exact ⟨rfl, rfl⟩

theorem income_inv {p : Nat} {g g1 : Game}
    (hinv : inv_basic g = true) (h : income p g = .ok g1) : inv_basic g1 = true := by
  unfold income at h
  by_cases h1 : p ≠ g.player
  · rw [if_pos h1] at h
    exact absurd h (by simp)
  rw [if_neg h1] at h
  by_cases h2 : ¬ g.blockers.isEmpty
  · rw [if_pos h2] at h
    exact absurd h (by simp)
  rw [if_neg h2] at h
  rcases hpl : g.players[p]? with _ | pl <;> rw [hpl] at h
  · exact absurd h (by simp)
  dsimp only at h
  by_cases h3 : MAX_COINS ≤ pl.coins
  · rw [if_pos h3] at h
    exact absurd h (by simp)
  rw [if_neg h3] at h
  rcases hadv : advance_player { g with players := g.players.set p { pl with coins := pl.coins + 1 } }
    with _ | g2 <;> rw [hadv] at h
  · exact absurd h (by simp)
  obtain hg : g2 = g1 := by simpa using h
  subst hg
  obtain ⟨f1, f2, f3, f4⟩ := advance_player_fields hadv
  exact inv_build f3 (.inr f4)

theorem action_without_target_inv {at0 : ActionType} {p : Nat} {g g1 : Game}
    (hinv : inv_basic g = true) (h : action_without_target at0 p g = .ok g1) :
    inv_basic g1 = true := by
  unfold action_without_target at h
  by_cases h1 : p ≠ g.player
  · rw [if_pos h1] at h
    exact absurd h (by simp)
  rw [if_neg h1] at h
  by_cases h2 : ¬ g.blockers.isEmpty
  · rw [if_pos h2] at h
    exact absurd h (by simp)
  rw [if_neg h2] at h
  rcases hpl : g.players[p]? with _ | pl <;> rw [hpl] at h
  · exact absurd h (by simp)
  dsimp only at h
  by_cases h3 : MAX_COINS ≤ pl.coins
  · rw [if_pos h3] at h
    exact absurd h (by simp)
  rw [if_neg h3] at h
  obtain hg : _ = g1 := by simpa using h
  subst hg
  exact inv_build (by simpa using (inv_parts hinv).1) (.inl (by simp))

theorem coup_inv {p t : Nat} {g g1 : Game}
    (hinv : inv_basic g = true) (h : coup p t g = .ok g1) : inv_basic g1 = true := by
  unfold coup at h
  by_cases h1 : p ≠ g.player
  · rw [if_pos h1] at h
    exact absurd h (by simp)
  rw [if_neg h1] at h
  by_cases h2 : ¬ g.blockers.isEmpty
  · rw [if_pos h2] at h
    exact absurd h (by simp)
  rw [if_neg h2] at h
  by_cases h3 : p = t
  · rw [if_pos h3] at h
    exact absurd h (by simp)
  rw [if_neg h3] at h
  rcases hpl : g.players[p]? with _ | pl <;> rw [hpl] at h
  · exact absurd h (by simp)
  dsimp only at h
  by_cases h4 : pl.coins < COUP_COST
  · rw [if_pos h4] at h
    exact absurd h (by simp)
  rw [if_neg h4] at h
  rcases hpt : g.players[t]? with _ | tg <;> rw [hpt] at h
  · exact absurd h (by simp)
  dsimp only at h
  by_cases h5 : ¬ tg.is_active
  · rw [if_pos h5] at h
    exact absurd h (by simp)
  rw [if_neg h5] at h
  obtain hg : _ = g1 := by simpa using h
  subst hg
  exact inv_build (by simpa using (inv_parts hinv).1) (.inl (by simp))

theorem assassinate_inv {p t : Nat} {g g1 : Game}
    (hinv : inv_basic g = true) (h : assassinate p t g = .ok g1) : inv_basic g1 = true := by
  unfold assassinate at h
  by_cases h1 : p ≠ g.player
  · rw [if_pos h1] at h
    exact absurd h (by simp)
  rw [if_neg h1] at h
  by_cases h2 : ¬ g.blockers.isEmpty
  · rw [if_pos h2] at h
    exact absurd h (by simp)
  rw [if_neg h2] at h
  by_cases h3 : p = t
  · rw [if_pos h3] at h
    exact absurd h (by simp)
  rw [if_neg h3] at h
  rcases hpt : g.players[t]? with _ | tg <;> rw [hpt] at h
  · exact absurd h (by simp)
  dsimp only at h
  by_cases h4 : ¬ tg.is_active
  · rw [if_pos h4] at h
    exact absurd h (by simp)
  rw [if_neg h4] at h
  rcases hpl : g.players[p]? with _ | pl <;> rw [hpl] at h
  · exact absurd h (by simp)
  dsimp only at h
  by_cases h5 : pl.coins < ASSASSINATION_COST
  · rw [if_pos h5] at h
    exact absurd h (by simp)
  rw [if_neg h5] at h
  by_cases h6 : MAX_COINS ≤ pl.coins
  · rw [if_pos h6] at h
    exact absurd h (by simp)
  rw [if_neg h6] at h
  obtain hg : _ = g1 := by simpa using h
  subst hg
  exact inv_build (by simpa using (inv_parts hinv).1) (.inl (by simp))

theorem steal_inv {p t : Nat} {g g1 : Game}
    (hinv : inv_basic g = true) (h : steal p t g = .ok g1) : inv_basic g1 = true := by
  unfold steal at h
  by_cases h1 : p ≠ g.player
  · rw [if_pos h1] at h
    exact absurd h (by simp)
  rw [if_neg h1] at h
  by_cases h2 : ¬ g.blockers.isEmpty
  · rw [if_pos h2] at h
    exact absurd h (by simp)
  rw [if_neg h2] at h
  by_cases h3 : p = t
  · rw [if_pos h3] at h
    exact absurd h (by simp)
  rw [if_neg h3] at h
  rcases hpt : g.players[t]? with _ | tg <;> rw [hpt] at h
  · exact absurd h (by simp)
  dsimp only at h
  by_cases h4 : ¬ tg.is_active
  · rw [if_pos h4] at h
    exact absurd h (by simp)
  rw [if_neg h4] at h
  rcases hpl : g.players[p]? with _ | pl <;> rw [hpl] at h
  · exact absurd h (by simp)
  dsimp only at h
  by_cases h5 : MAX_COINS ≤ pl.coins
  · rw [if_pos h5] at h
    exact absurd h (by simp)
  rw [if_neg h5] at h
  obtain hg : _ = g1 := by simpa using h
  subst hg
  exact inv_build (by simpa using (inv_parts hinv).1) (.inl (by simp))

theorem block_foreign_aid_inv {p : Nat} {g g1 : Game}
    (hinv : inv_basic g = true) (h : block_foreign_aid p g = .ok g1) :
    inv_basic g1 = true := by
  unfold block_foreign_aid at h
  by_cases h1 : p = g.player
  · rw [if_pos h1] at h
    exact absurd h (by simp)
  rw [if_neg h1] at h
  split at h
  next at0 t0 s0 heq =>
    by_cases hs : s0.isSome
    · rw [if_pos hs] at h
      exact absurd h (by simp)
    rw [if_neg hs] at h
    obtain hg : _ = g1 := by simpa using h
    subst hg
    exact inv_build (by simpa using (inv_parts hinv).1) (.inl (by simp))
  next => exact absurd h (by simp)

theorem block_steal_inv {p : Nat} {card : Card} {g g1 : Game}
    (hinv : inv_basic g = true) (h : block_steal p card g = .ok g1) :
    inv_basic g1 = true := by
  unfold block_steal at h
  by_cases h1 : p = g.player
  · rw [if_pos h1] at h
    exact absurd h (by simp)
  rw [if_neg h1] at h
  by_cases h2 : ¬ (card = .Ambassador ∨ card = .Captain)
  · rw [if_pos h2] at h
    exact absurd h (by simp)
  rw [if_neg h2] at h
  split at h
  next at0 t0 s0 heq =>
    by_cases hs : s0.isSome
    · rw [if_pos hs] at h
      exact absurd h (by simp)
    rw [if_neg hs] at h
    obtain hg : _ = g1 := by simpa using h
    subst hg
    exact inv_build (by simpa using (inv_parts hinv).1) (.inl (by simp))
  next => exact absurd h (by simp)

theorem block_assassination_inv {p : Nat} {g g1 : Game}
    (hinv : inv_basic g = true) (h : block_assassination p g = .ok g1) :
    inv_basic g1 = true := by
  unfold block_assassination at h
  by_cases h1 : p = g.player
  · rw [if_pos h1] at h
    exact absurd h (by simp)
  rw [if_neg h1] at h
  split at h
  next at0 t0 s0 heq =>
    by_cases hs : s0.isSome
    · rw [if_pos hs] at h
      exact absurd h (by simp)
    rw [if_neg hs] at h
    obtain hg : _ = g1 := by simpa using h
    subst hg
    exact inv_build (by simpa using (inv_parts hinv).1) (.inl (by simp))
  next => exact absurd h (by simp)

theorem challenge_inv {p : Nat} {g g1 : Game}
    (hinv : inv_basic g = true) (h : challenge p g = .ok g1) : inv_basic g1 = true := by
  unfold challenge at h
  split at h
  next at0 t0 s0 heq =>
    rcases hcc : challenge_card at0 with _ | card <;> rw [hcc] at h
    · exact absurd h (by simp)
    rcases s0 with _ | sp
    · obtain hg : _ = g1 := by simpa using h
      subst hg
      exact inv_build (by simpa using (inv_parts hinv).1) (.inl (by simp))
    · dsimp only at h
      by_cases ht : t0 ≠ p
      · rw [if_pos ht] at h
        exact absurd h (by simp)
      rw [if_neg ht] at h
      obtain hg : _ = g1 := by simpa using h
      subst hg
      exact inv_build (by simpa using (inv_parts hinv).1) (.inl (by simp))
  next => exact absurd h (by simp)

theorem show_card_inv {shuffle : List Card → List Card} {p : Nat} {card : Card} {g g1 : Game}
    (hinv : inv_basic g = true) (h : show_card shuffle p card g = .ok g1) :
    inv_basic g1 = true := by
  unfold show_card at h
  split at h
  next t0 s0 c0 heq =>
    by_cases h1 : card ≠ c0
    · rw [if_pos h1] at h
      exact absurd h (by simp)
    rw [if_neg h1] at h
    by_cases h2 : t0 ≠ p
    · rw [if_pos h2] at h
      exact absurd h (by simp)
    rw [if_neg h2] at h
    rcases hpl : g.players[t0]? with _ | pl <;> rw [hpl] at h
    · exact absurd h (by simp)
    dsimp only at h
    rcases hfi : find_card_index pl.cards c0 with _ | idx <;> rw [hfi] at h
    · exact absurd h (by simp)
    dsimp only at h
    rcases hnl : (shuffle (g.deck ++ [card])).getLast? with _ | newc <;> rw [hnl] at h
    · exact absurd h (by simp)
    obtain hg : _ = g1 := by simpa using h
    subst hg
    exact inv_build (by simpa using (inv_parts hinv).1) (.inl (by simp))
  next => exact absurd h (by simp)

theorem complete_inv {p : Nat} {g g1 : Game}
    (hinv : inv_basic g = true) (h : complete p g = .ok g1) : inv_basic g1 = true := by
  unfold complete at h
  by_cases h1 : g.blockers.length < 1
  · rw [if_pos h1] at h
    exact absurd h (by simp)
  rw [if_neg h1] at h
  split at h
  next at0 t0 heq =>
    by_cases h2 : p ≠ t0
    · rw [if_pos h2] at h
      exact absurd h (by simp)
    rw [if_neg h2] at h
    rcases hca : complete_action at0 t0 { g with blockers := [] } with _ | g2 <;> rw [hca] at h
    · exact absurd h (by simp)
    dsimp only at h
    obtain ⟨l1, p1⟩ := complete_action_fields hca
    by_cases he : g2.blockers.isEmpty
    · rw [if_pos he] at h
      rcases hadv : advance_player g2 with _ | g3 <;> rw [hadv] at h
      · exact absurd h (by simp)
      obtain hg : g3 = g1 := by simpa using h
      subst hg
      obtain ⟨f1, f2, f3, f4⟩ := advance_player_fields hadv
      exact inv_build f3 (.inr f4)
    · rw [if_neg he] at h
      obtain hg : g2 = g1 := by simpa using h
      subst hg
      refine inv_build ?_ (.inl (by simpa using he))
      rw [p1, l1]
      simpa using (inv_parts hinv).1
  next => exact absurd h (by simp)

theorem reveal_card_inv {p : Nat} {card : Card} {g g1 : Game}
    (hinv : inv_basic g = true) (h : reveal_card p card g = .ok g1) :
    inv_basic g1 = true := by
  have hbody : reveal_card.reveal_card_body p card g = .ok g1 → inv_basic g1 = true := by
    intro hb
    unfold reveal_card.reveal_card_body at hb
    rcases hpl : g.players[p]? with _ | pl <;> rw [hpl] at hb
    · exact absurd hb (by simp)
    dsimp only at hb
    rcases hfi : find_card_index pl.cards card with _ | idx <;> rw [hfi] at hb
    · exact absurd hb (by simp)
    dsimp only at hb
    split at hb
    next hloop => exact absurd hb (by simp)
    next g2 hloop =>
    obtain ⟨l2, p2⟩ := reveal_loop_fields hloop
    by_cases he : g2.blockers.isEmpty
    · rw [if_pos he] at hb
      split at hb
      next hadv => exact absurd hb (by simp)
      next g3 hadv =>
      obtain hg : g3 = g1 := by simpa using hb
      subst hg
      obtain ⟨f1, f2, f3, f4⟩ := advance_player_fields hadv
      exact inv_build f3 (.inr f4)
    · rw [if_neg he] at hb
      obtain hg : g2 = g1 := by simpa using hb
      subst hg
      refine inv_build ?_ (.inl (by simpa using he))
      rw [p2, l2]
      simpa using (inv_parts hinv).1
  unfold reveal_card at h
  split at h
  next t0 heq =>
    by_cases h1 : t0 ≠ p
    · rw [if_pos h1] at h
      exact absurd h (by simp)
    rw [if_neg h1] at h
    exact hbody h
  next t0 s0 c0 heq =>
    by_cases h1 : t0 ≠ p
    · rw [if_pos h1] at h
      exact absurd h (by simp)
    rw [if_neg h1] at h
    exact hbody h
  next => exact absurd h (by simp)

theorem drop_card_inv {p : Nat} {card : Card} {g g1 : Game}
    (hinv : inv_basic g = true) (h : drop_card p card g = .ok g1) :
    inv_basic g1 = true := by
  unfold drop_card at h
  split at h
  next t0 heq =>
    by_cases h1 : t0 ≠ p
    · rw [if_pos h1] at h
      exact absurd h (by simp)
    rw [if_neg h1] at h
    rcases hpl : g.players[p]? with _ | pl <;> rw [hpl] at h
    · exact absurd h (by simp)
    dsimp only at h
    rcases hfi : find_card_index pl.cards card with _ | idx <;> rw [hfi] at h
    · exact absurd h (by simp)
    dsimp only at h
    rcases hci : pl.cards[idx]? with _ | removed <;> rw [hci] at h
    · exact absurd h (by simp)
    dsimp only at h
    by_cases he : g.blockers.dropLast.isEmpty
    · rw [if_pos he] at h
      split at h
      next hadv => exact absurd h (by simp)
      next g3 hadv =>
      obtain hg : g3 = g1 := by simpa using h
      subst hg
      obtain ⟨f1, f2, f3, f4⟩ := advance_player_fields hadv
      exact inv_build f3 (.inr f4)
    · rw [if_neg he] at h
      obtain hg : _ = g1 := by simpa using h
      subst hg
      exact inv_build (by simpa using (inv_parts hinv).1) (.inl (by simpa using he))
  next => exact absurd h (by simp)

theorem inv_stepped {g2 : Game} {s t r : Nat} (h : inv_basic g2 = true) :
    inv_basic { g2 with step := s, turn := t, round := r } = true := by
  exact inv_build (by simpa using (inv_parts h).1) (by simpa using (inv_parts h).2)

theorem play_inv {shuffle : List Card → List Card} {a : Action} {g g1 : Game}
    (hinv : inv_basic g = true) (h : play shuffle a g = .ok g1) : inv_basic g1 = true := by
  unfold play at h
  dsimp only at h
  split at h
  next g2 heq =>
    obtain hg : _ = g1 := by simpa using h
    subst hg
    refine inv_stepped ?_
    split at heq
    · exact income_inv hinv heq
    · exact action_without_target_inv hinv heq
    · exact action_without_target_inv hinv heq
    · exact action_without_target_inv hinv heq
    · exact coup_inv hinv heq
    · exact assassinate_inv hinv heq
    · exact steal_inv hinv heq
    · exact block_foreign_aid_inv hinv heq
    · exact block_steal_inv hinv heq
    · exact block_assassination_inv hinv heq
    · exact complete_inv hinv heq
    · exact challenge_inv hinv heq
    · exact show_card_inv hinv heq
    · exact reveal_card_inv hinv heq
    · exact drop_card_inv hinv heq
  next heq => exact absurd h (by simp)
  next heq => exact absurd h (by simp)

theorem deal_round_spec {players players1 : List Player} {deck deck1 : List Card}
    (h : deal_round players deck = some (players1, deck1)) :
    players1.length = players.length ∧
    ∀ (i : Nat) (pl1 : Player), players1[i]? = some pl1 →
      ∃ (pl : Player) (c : Card), players[i]? = some pl ∧
        pl1.cards = pl.cards ++ [⟨c, false⟩] := by
  induction players generalizing deck players1 deck1 with
  | nil =>
    obtain ⟨h1, h2⟩ : _ ∧ _ := by simpa [deal_round] using h
    subst h1
    subst h2
    exact ⟨rfl, fun i pl1 hp => absurd hp (by simp)⟩
  | cons pl rest ih =>
    unfold deal_round at h
    rcases hdo : deal_one pl deck with _ | ⟨pl1, deckA⟩ <;> rw [hdo] at h
    · exact absurd h (by simp)
    dsimp only at h
    rcases hrec : deal_round rest deckA with _ | ⟨rest1, deckB⟩ <;> rw [hrec] at h
    · exact absurd h (by simp)
    obtain ⟨h1, h2⟩ : _ ∧ _ := by simpa using h
    subst h1
    subst h2
    obtain ⟨ihl, ihs⟩ := ih hrec
    refine ⟨by simp only [List.length_cons, ihl], ?_⟩
    intro i q hq
    cases i with
    | zero =>
      obtain hq1 : pl1 = q := by simpa using hq
      subst hq1
      unfold deal_one at hdo
      rcases hgl : deck.getLast? with _ | c <;> rw [hgl] at hdo
      · exact absurd hdo (by simp)
      obtain hp1 : _ ∧ _ := by simpa using hdo
      exact ⟨pl, c, by simp, by rw [← hp1.1]⟩
    | succ i =>
      obtain ⟨q0, c, hq0, hc⟩ := ihs i q (by simpa using hq)
      exact ⟨q0, c, by simpa using hq0, hc⟩

theorem game_new_inv {n : Nat} {deck0 : List Card} {g : Game}
    (hn : 1 ≤ n) (hg : game_new n deck0 = some g) : inv_basic g = true := by
  unfold game_new at hg
  dsimp only at hg
  rcases h1 : deal_round (List.replicate n ⟨2, []⟩) deck0 with _ | ⟨players1, deck1⟩
    <;> rw [h1] at hg
  · exact absurd hg (by simp)
  dsimp only at hg
  rcases h2 : deal_round players1 deck1 with _ | ⟨players2, deck2⟩ <;> rw [h2] at hg
  · exact absurd hg (by simp)
  obtain hgeq : _ = g := by simpa using hg
  subst hgeq
  obtain ⟨l1, s1⟩ := deal_round_spec h1
  obtain ⟨l2, s2⟩ := deal_round_spec h2
  have hlen : players2.length = n := by simp [l2, l1]
  have hp0 : ∃ pl2, players2[0]? = some pl2 ∧ pl2.is_active = true := by
    rcases hq : players2[0]? with _ | pl2
    · rw [List.getElem?_eq_none_iff] at hq
      omega
    obtain ⟨pl1, c, _, hc⟩ := s2 0 pl2 hq
    exact ⟨pl2, rfl, by simp [Player.is_active, hc]⟩
  obtain ⟨pl2, hq, ha⟩ := hp0
  refine inv_build (by simpa using (by omega : 0 < players2.length)) (.inr ?_)
  simpa [active_at, hq] using ha

/-- Every reachable game satisfies the basic invariant. -/
theorem reachable_inv {g : Game} (hr : Reachable g) : inv_basic g = true := by
  induction hr with
  | init n cpt deck0 g hn hperm hg => exact game_new_inv (by omega) hg
  | step g g1 a shuffle hsh hr hp ih => exact play_inv ih hp

theorem active_at_set_same_cards {players : List Player} {p q : Nat} {pl pl1 : Player}
    (hpl : players[p]? = some pl) (hcards : pl1.cards = pl.cards) :
    active_at (players.set p pl1) q = active_at players q := by
  unfold active_at
  by_cases hpq : q = p
  · subst hpq
    rw [List.getElem?_set_self (fsm.lt_of_getElem? hpl), hpl]
    simp [Player.is_active, hcards]
  · rw [List.getElem?_set_ne (fun hh => hpq hh.symm)]

theorem income_ok {g : Game} {pl : Player}
    (hb : g.blockers = []) (hpl : g.players[g.player]? = some pl)
    (hc : ¬ MAX_COINS ≤ pl.coins) (hact : active_at g.players g.player = true)
    (hbound : g.player < g.players.length) :
    ∃ g1, income g.player g = .ok g1 := by
  unfold income
  rw [if_neg (by simp), if_neg (by simp [hb]), hpl]
  dsimp only
  rw [if_neg hc]
  have hbound1 : ({ g with players := g.players.set g.player { pl with coins := pl.coins + 1 } } :
      Game).player < ({ g with players := g.players.set g.player { pl with coins := pl.coins + 1 } } :
      Game).players.length := by
    simpa using hbound
  have hset := @active_at_set_same_cards g.players g.player g.player pl
    { pl with coins := pl.coins + 1 } hpl rfl
  have hact1 : active_at ({ g with players := g.players.set g.player { pl with coins := pl.coins + 1 } } :
      Game).players ({ g with players := g.players.set g.player { pl with coins := pl.coins + 1 } } :
      Game).player = true := by
    simpa [hset] using hact
  obtain ⟨g1, hadv, _⟩ := advance_player_some hbound1 hact1
  rw [hadv]
  exact ⟨g1, rfl⟩

theorem action_without_target_ok {at0 : ActionType} {g : Game} {pl : Player}
    (hb : g.blockers = []) (hpl : g.players[g.player]? = some pl)
    (hc : ¬ MAX_COINS ≤ pl.coins) :
    ∃ g1, action_without_target at0 g.player g = .ok g1 := by
  unfold action_without_target
  rw [if_neg (by simp), if_neg (by simp [hb]), hpl]
  dsimp only
  rw [if_neg hc]
  exact ⟨_, rfl⟩

theorem coup_ok {g : Game} {pl pli : Player} {i : Nat}
    (hb : g.blockers = []) (hpl : g.players[g.player]? = some pl)
    (hpli : g.players[i]? = some pli) (hne : i ≠ g.player)
    (hc7 : COUP_COST ≤ pl.coins) (hplact : pli.is_active = true) :
    ∃ g1, coup g.player i g = .ok g1 := by
  unfold coup
  rw [if_neg (by simp), if_neg (by simp [hb]), if_neg (fun hh => hne hh.symm), hpl]
  dsimp only
  rw [if_neg (by omega), hpli]
  dsimp only
  rw [if_neg (by simp [hplact])]
  exact ⟨_, rfl⟩

theorem assassinate_ok {g : Game} {pl pli : Player} {i : Nat}
    (hb : g.blockers = []) (hpl : g.players[g.player]? = some pl)
    (hpli : g.players[i]? = some pli) (hne : i ≠ g.player)
    (hc3 : ASSASSINATION_COST ≤ pl.coins) (hc : ¬ MAX_COINS ≤ pl.coins)
    (hplact : pli.is_active = true) :
    ∃ g1, assassinate g.player i g = .ok g1 := by
  unfold assassinate
  rw [if_neg (by simp), if_neg (by simp [hb]), if_neg (fun hh => hne hh.symm), hpli]
  dsimp only
  rw [if_neg (by simp [hplact]), hpl]
  dsimp only
  rw [if_neg (by omega), if_neg hc]
  exact ⟨_, rfl⟩

theorem steal_ok {g : Game} {pl pli : Player} {i : Nat}
    (hb : g.blockers = []) (hpl : g.players[g.player]? = some pl)
    (hpli : g.players[i]? = some pli) (hne : i ≠ g.player)
    (hc : ¬ MAX_COINS ≤ pl.coins) (hplact : pli.is_active = true) :
    ∃ g1, steal g.player i g = .ok g1 := by
  unfold steal
  rw [if_neg (by simp), if_neg (by simp [hb]), if_neg (fun hh => hne hh.symm), hpli]
  dsimp only
  rw [if_neg (by simp [hplact]), hpl]
  dsimp only
  rw [if_neg hc]
  exact ⟨_, rfl⟩

theorem play_ok_income {shuffle : List Card → List Card} {p : Nat} {g gr : Game}
    (h : income p g = .ok gr) : ∃ g1, play shuffle ⟨p, .Income⟩ g = .ok g1 := by
  unfold play
  dsimp only
  rw [h]
  exact ⟨_, rfl⟩

theorem play_ok_foreign_aid {shuffle : List Card → List Card} {p : Nat} {g gr : Game}
    (h : action_without_target .ForeignAid p g = .ok gr) :
    ∃ g1, play shuffle ⟨p, .ForeignAid⟩ g = .ok g1 := by
  unfold play
  dsimp only
  rw [h]
  exact ⟨_, rfl⟩

theorem play_ok_tax {shuffle : List Card → List Card} {p : Nat} {g gr : Game}
    (h : action_without_target .Tax p g = .ok gr) :
    ∃ g1, play shuffle ⟨p, .Tax⟩ g = .ok g1 := by
  unfold play
  dsimp only
  rw [h]
  exact ⟨_, rfl⟩

theorem play_ok_exchange {shuffle : List Card → List Card} {p : Nat} {g gr : Game}
    (h : action_without_target .Exchange p g = .ok gr) :
    ∃ g1, play shuffle ⟨p, .Exchange⟩ g = .ok g1 := by
  unfold play
  dsimp only
  rw [h]
  exact ⟨_, rfl⟩

theorem play_ok_coup {shuffle : List Card → List Card} {p i : Nat} {g gr : Game}
    (h : coup p i g = .ok gr) : ∃ g1, play shuffle ⟨p, .Coup i⟩ g = .ok g1 := by
  unfold play
  dsimp only
  rw [h]
  exact ⟨_, rfl⟩

theorem play_ok_assassinate {shuffle : List Card → List Card} {p i : Nat} {g gr : Game}
    (h : assassinate p i g = .ok gr) :
    ∃ g1, play shuffle ⟨p, .Assassinate i⟩ g = .ok g1 := by
  unfold play
  dsimp only
  rw [h]
  exact ⟨_, rfl⟩

theorem play_ok_steal {shuffle : List Card → List Card} {p i : Nat} {g gr : Game}
    (h : steal p i g = .ok gr) : ∃ g1, play shuffle ⟨p, .Steal i⟩ g = .ok g1 := by
  unfold play
  dsimp only
  rw [h]
  exact ⟨_, rfl⟩

/-- Counteractions for the five primary (turn-opening claimed) actions; these
are pushed only onto an empty blocker stack, with the acting player as target. -/
def is_primary_at : ActionType → Bool
  | .ForeignAid => true
  | .Tax => true
  | .Exchange => true
  | .Assassinate _ => true
  | .Steal _ => true
  | _ => false

def is_primary_ca : Blocker → Bool
  | .Counteraction at0 _ _ => is_primary_at at0
  | _ => false

def is_drop_blocker : Blocker → Bool
  | .DropCard _ => true
  | _ => false

/-- The inner target an action type carries is a valid player index. -/
def inner_target_ok (at0 : ActionType) (n : Nat) : Bool :=
  match at0 with
  | .Assassinate t => t < n
  | .Steal t => t < n
  | _ => true

def top_is_ca (bs : List Blocker) : Bool :=
  match bs.getLast? with
  | some (.Counteraction _ _ _) => true
  | _ => false

/-- Shape of a counteraction window top: the top counteraction has no source
yet, carries an in-bounds inner target, is targeted at the current player when
it is primary, and the current player is active. -/
def top_ca_ok (g : Game) : Bool :=
  match g.blockers.getLast? with
  | some (.Counteraction at0 tgt src) =>
    src.isNone && inner_target_ok at0 g.players.length &&
    (!is_primary_at at0 || tgt == g.player) && active_at g.players g.player
  | _ => true

/-- Only the bottom blocker can be a primary counteraction. -/
def tail_no_primary (bs : List Blocker) : Bool :=
  match bs with
  | [] => true
  | _ :: rest => rest.all (fun b => !is_primary_ca b)

/-- `DropCard` blockers never mix with other blockers. -/
def drops_ok (bs : List Blocker) : Bool :=
  !bs.any is_drop_blocker || bs.all is_drop_blocker

/-- The stack invariant every reachable game satisfies. -/
def inv_game (g : Game) : Bool :=
  inv_basic g && top_ca_ok g && tail_no_primary g.blockers && drops_ok g.blockers

/-- The blocker tops at which the enumerator emits card-selection actions. -/
def card_selection_top (g : Game) : Bool :=
  match g.blockers.getLast? with
  | some (.Challenge _ _ _) => true
  | some (.RevealCard _) => true
  | some (.DropCard _) => true
  | _ => false

theorem top_ca_ok_of_not_ca {g : Game} (h : top_is_ca g.blockers = false) :
    top_ca_ok g = true := by
  unfold top_is_ca at h
  unfold top_ca_ok
  rcases hl : g.blockers.getLast? with _ | b
  · rfl
  rw [hl] at h
  cases b <;> simp_all

theorem tail_no_primary_dropLast {l : List Blocker}
    (h : tail_no_primary l = true) : tail_no_primary l.dropLast = true := by
  cases l with
  | nil => rfl
  | cons x xs =>
    cases xs with
    | nil => rfl
    | cons y ys =>
      simp only [List.dropLast_cons₂]
      simp only [tail_no_primary, List.all_eq_true] at h ⊢
      intro b hb
      exact h b ((List.dropLast_sublist _).mem hb)

theorem tail_no_primary_append_one {l : List Blocker} {c : Blocker}
    (h : tail_no_primary l = true) (hc : is_primary_ca c = false) :
    tail_no_primary (l ++ [c]) = true := by
  cases l with
  | nil => simp [tail_no_primary, hc]
  | cons x xs =>
    simp only [List.cons_append]
    simp only [tail_no_primary, List.all_eq_true] at h ⊢
    intro b hb
    rw [List.mem_append] at hb
    rcases hb with hb | hb
    · exact h b hb
    · simp only [List.mem_singleton] at hb
      subst hb
      simp [hc]

theorem tail_no_primary_replace_top {l : List Blocker} {old a b : Blocker}
    (h : tail_no_primary l = true) (hlast : l.getLast? = some old)
    (hab : is_primary_ca a = is_primary_ca old) (hb : is_primary_ca b = false) :
    tail_no_primary (l.dropLast ++ [a, b]) = true := by
  cases l with
  | nil => simp at hlast
  | cons x xs =>
    cases xs with
    | nil =>
      obtain hx : x = old := by simpa using hlast
      subst hx
      simp only [List.dropLast_single, List.nil_append]
      simp [tail_no_primary, hb]
    | cons y ys =>
      simp only [List.dropLast_cons₂, List.cons_append]
      simp only [tail_no_primary, List.all_eq_true] at h ⊢
      have hlast2 : (y :: ys).getLast? = some old := by
        rw [List.getLast?_cons_cons] at hlast
        exact hlast
      have hold : old ∈ y :: ys := List.mem_of_mem_getLast? hlast2
      intro c hc
      rw [List.mem_append] at hc
      rcases hc with hc | hc
      · exact h c ((List.dropLast_sublist _).mem hc)
      · simp only [List.mem_cons, List.not_mem_nil, or_false] at hc
        rcases hc with hc | hc
        · subst hc
          simpa [hab] using h old hold
        · subst hc
          simp [hb]

theorem drops_ok_of_no_drop {l : List Blocker}
    (h : l.any is_drop_blocker = false) : drops_ok l = true := by
  simp [drops_ok, h]

theorem no_drop_of_top_not_drop {l : List Blocker} {b : Blocker}
    (hd : drops_ok l = true) (hlast : l.getLast? = some b)
    (hb : is_drop_blocker b = false) : l.any is_drop_blocker = false := by
  unfold drops_ok at hd
  rcases Bool.or_eq_true_iff.mp hd with h1 | h1
  · simpa using h1
  · exfalso
    rw [List.all_eq_true] at h1
    have := h1 b (List.mem_of_mem_getLast? hlast)
    rw [hb] at this
    simp at this

theorem drops_ok_dropLast {l : List Blocker}
    (h : drops_ok l = true) : drops_ok l.dropLast = true := by
  unfold drops_ok at h ⊢
  rcases Bool.or_eq_true_iff.mp h with h1 | h1
  · refine Bool.or_eq_true_iff.mpr (.inl ?_)
    simp only [Bool.not_eq_true', List.any_eq_false] at h1 ⊢
    intro a ha
    have := h1 a ((List.dropLast_sublist _).mem ha)
    simpa using this
  · refine Bool.or_eq_true_iff.mpr (.inr ?_)
    rw [List.all_eq_true] at h1 ⊢
    intro a ha
    exact h1 a ((List.dropLast_sublist _).mem ha)

theorem drops_ok_all {l : List Blocker}
    (h : l.all is_drop_blocker = true) : drops_ok l = true :=
  Bool.or_eq_true_iff.mpr (.inr h)

theorem active_at_set_append_card {players : List Player} {p q : Nat}
    {pl : Player} {c : PlayerCard}
    (hpl : players[p]? = some pl) (h : active_at players q = true) :
    active_at (players.set p { pl with cards := pl.cards ++ [c] }) q = true := by
  unfold active_at at h ⊢
  by_cases hpq : q = p
  · subst hpq
    rw [hpl] at h
    rw [List.getElem?_set_self (fsm.lt_of_getElem? hpl)]
    dsimp only at h ⊢
    simp only [Player.is_active] at h ⊢
    rw [List.any_append]
    simp [h]
  · rw [List.getElem?_set_ne (fun hh => hpq hh.symm)]
    exact h

theorem exchange_take_spec {p k : Nat} {g g1 : Game}
    (h : exchange_take p k g = some g1) :
    (∀ q, active_at g.players q = true → active_at g1.players q = true) ∧
    ∃ j, g1.blockers = g.blockers ++ List.replicate j (.DropCard p) := by
  induction k generalizing g with
  | zero =>
    obtain hg : g = g1 := by simpa [exchange_take] using h
    subst hg
    exact ⟨fun q hq => hq, 0, by simp⟩
  | succ k ih =>
    unfold exchange_take at h
    rcases hd : g.deck.getLast? with _ | card <;> rw [hd] at h
    · exact absurd h (by simp)
    rcases hpl : g.players[p]? with _ | pl <;> rw [hpl] at h
    · exact absurd h (by simp)
    obtain ⟨ha, j, hb⟩ := ih h
    constructor
    · intro q hq
      exact ha q (by simpa using active_at_set_append_card hpl hq)
    · refine ⟨j + 1, ?_⟩
      rw [hb]
      simp [List.replicate_succ]

theorem complete_action_spec {at0 : ActionType} {p : Nat} {g g1 : Game}
    (h : complete_action at0 p g = some g1) :
    (∀ q, active_at g.players q = true → active_at g1.players q = true) ∧
    (g1.blockers = g.blockers ∨
     (∃ t, g1.blockers = g.blockers ++ [.RevealCard t]) ∨
     (at0 = .Exchange ∧
       ∃ j t, g1.blockers = g.blockers ++ List.replicate j (.DropCard t))) := by
  unfold complete_action at h
  split at h
  case h_1 =>
    rcases hpl : g.players[p]? with _ | pl <;> rw [hpl] at h
    · exact absurd h (by simp)
    obtain hg : _ = g1 := by simpa using h
    subst hg
    refine ⟨?_, .inl rfl⟩
    intro q hq
    have hset := @active_at_set_same_cards g.players p q pl
      { pl with coins := pl.coins + 2 } hpl rfl
    simpa [hset] using hq
  case h_2 =>
    rcases hpl : g.players[p]? with _ | pl <;> rw [hpl] at h
    · exact absurd h (by simp)
    obtain hg : _ = g1 := by simpa using h
    subst hg
    refine ⟨?_, .inl rfl⟩
    intro q hq
    have hset := @active_at_set_same_cards g.players p q pl
      { pl with coins := pl.coins + 3 } hpl rfl
    simpa [hset] using hq
  case h_3 target =>
    rcases hpl : g.players[target]? with _ | tg <;> rw [hpl] at h
    · exact absurd h (by simp)
    dsimp only at h
    by_cases ha : tg.is_active
    · rw [if_pos ha] at h
      obtain hg : _ = g1 := by simpa using h
      subst hg
      exact ⟨fun q hq => hq, .inr (.inl ⟨target, rfl⟩)⟩
    · rw [if_neg ha] at h
      obtain hg : g = g1 := by simpa using h
      subst hg
      exact ⟨fun q hq => hq, .inl rfl⟩
  case h_4 =>
    obtain ⟨ha, j, hb⟩ := exchange_take_spec h
    exact ⟨ha, .inr (.inr ⟨rfl, j, p, hb⟩)⟩
  case h_5 target =>
    rcases hpl : g.players[target]? with _ | tg <;> rw [hpl] at h
    · exact absurd h (by simp)
    rcases hpp : g.players[p]? with _ | pl <;> rw [hpp] at h
    · exact absurd h (by simp)
    dsimp only at h
    rcases hpt : (g.players.set p { pl with coins := pl.coins + Nat.min tg.coins 2 })[target]?
      with _ | tg1 <;> rw [hpt] at h
    · exact absurd h (by simp)
    obtain hg : _ = g1 := by simpa using h
    subst hg
    refine ⟨?_, .inl rfl⟩
    intro q hq
    have hset1 := @active_at_set_same_cards g.players p q pl
      { pl with coins := pl.coins + Nat.min tg.coins 2 } hpp rfl
    have hset2 := @active_at_set_same_cards
      (g.players.set p { pl with coins := pl.coins + Nat.min tg.coins 2 }) target q tg1
      { tg1 with coins := tg1.coins - Nat.min tg1.coins 2 } hpt rfl
    simp only []
    rw [hset2, hset1]
    exact hq
  case h_6 =>
    obtain hg : g = g1 := by simpa using h
    subst hg
    exact ⟨fun q hq => hq, .inl rfl⟩

theorem exchange_take_ok {p : Nat} :
    ∀ (k : Nat) (g : Game), p < g.players.length → k ≤ g.deck.length →
      ∃ g1, exchange_take p k g = some g1 := by
  intro k
  induction k with
  | zero => exact fun g _ _ => ⟨g, rfl⟩
  | succ k ih =>
    intro g hp hk
    unfold exchange_take
    rcases hd : g.deck.getLast? with _ | card
    · rw [List.getLast?_eq_none_iff] at hd
      rw [hd] at hk
      simp at hk
    rcases hpl : g.players[p]? with _ | pl
    · rw [List.getElem?_eq_none_iff] at hpl
      omega
    exact ih _ (by simpa using hp) (by simp; omega)

theorem complete_action_ok {at0 : ActionType} {p : Nat} {g : Game}
    (hp : is_primary_at at0 = true → p < g.players.length)
    (hin : inner_target_ok at0 g.players.length = true) :
    ∃ g1, complete_action at0 p g = some g1 := by
  have hsome : ∀ {i : Nat}, i < g.players.length → ∃ pl, g.players[i]? = some pl := by
    intro i hi
    rcases hq : g.players[i]? with _ | pl
    · rw [List.getElem?_eq_none_iff] at hq
      omega
    · exact ⟨pl, rfl⟩
  cases at0
  case ForeignAid =>
    obtain ⟨pl, hpl⟩ := hsome (hp rfl)
    exact ⟨_, by unfold complete_action; rw [hpl]⟩
  case Tax =>
    obtain ⟨pl, hpl⟩ := hsome (hp rfl)
    exact ⟨_, by unfold complete_action; rw [hpl]⟩
  case Assassinate target =>
    obtain ⟨tg, htg⟩ := hsome (by simpa [inner_target_ok] using hin)
    by_cases ha : tg.is_active
    · exact ⟨_, by unfold complete_action; dsimp only; rw [htg]; dsimp only; rw [if_pos ha]⟩
    · exact ⟨_, by unfold complete_action; dsimp only; rw [htg]; dsimp only; rw [if_neg ha]⟩
  case Exchange =>
    obtain ⟨g1, hg1⟩ := exchange_take_ok (Nat.min g.deck.length MAX_CARDS_TO_EXCHANGE) g
      (hp rfl) (Nat.min_le_left _ _)
    exact ⟨g1, by unfold complete_action; exact hg1⟩
  case Steal target =>
    obtain ⟨tg, htg⟩ := hsome (by simpa [inner_target_ok] using hin)
    obtain ⟨pl, hpl⟩ := hsome (hp rfl)
    have htb : target < g.players.length := by simpa [inner_target_ok] using hin
    have hpt : ∃ tg1,
        (g.players.set p { pl with coins := pl.coins + Nat.min tg.coins 2 })[target]?
          = some tg1 := by
      rcases hq : (g.players.set p { pl with coins := pl.coins + Nat.min tg.coins 2 })[target]?
        with _ | tg1
      · rw [List.getElem?_eq_none_iff] at hq
        simp at hq
        omega
      · exact ⟨tg1, rfl⟩
    obtain ⟨tg1, htg1⟩ := hpt
    exact ⟨_, by unfold complete_action; dsimp only; rw [htg, hpl]; dsimp only; rw [htg1]⟩
  all_goals exact ⟨g, rfl⟩

theorem reveal_loop_spec {p fuel : Nat} {g g1 : Game}
    (htl : tail_no_primary g.blockers = true) (hdr : drops_ok g.blockers = true)
    (h : reveal_loop p fuel g = some g1) :
    tail_no_primary g1.blockers = true ∧ drops_ok g1.blockers = true ∧
    top_is_ca g1.blockers = false := by
  induction fuel generalizing g with
  | zero => exact absurd h (by simp [reveal_loop])
  | succ fuel ih =>
    unfold reveal_loop at h
    by_cases he : g.blockers.isEmpty
    · rw [if_pos he] at h
      obtain hg : g = g1 := by simpa using h
      subst hg
      have hnil : g.blockers = [] := by simpa [List.isEmpty_iff] using he
      exact ⟨htl, hdr, by simp [top_is_ca, hnil]⟩
    · rw [if_neg he] at h
      split at h
      next a0 t0 s0 heq =>
        dsimp only at h
        have htl1 : tail_no_primary g.blockers.dropLast = true := tail_no_primary_dropLast htl
        have hdr1 : drops_ok g.blockers.dropLast = true := drops_ok_dropLast hdr
        have hnodrop : g.blockers.any is_drop_blocker = false :=
          no_drop_of_top_not_drop hdr heq rfl
        have hnodrop1 : g.blockers.dropLast.any is_drop_blocker = false := by
          simp only [Bool.not_eq_true, List.any_eq_false] at hnodrop ⊢
          intro b hb
          exact hnodrop b ((List.dropLast_sublist _).mem hb)
        by_cases hpt : p ≠ t0
        · rw [if_pos hpt] at h
          rcases hca : complete_action a0 t0 { g with blockers := g.blockers.dropLast }
            with _ | g2 <;> rw [hca] at h
          · exact absurd h (by simp)
          obtain ⟨_, hshape⟩ := complete_action_spec hca
          rcases hshape with hb | ⟨t, hb⟩ | ⟨hex, j, t, hb⟩
          · refine ih ?_ ?_ h
            · rw [hb]
              exact htl1
            · rw [hb]
              exact hdr1
          · refine ih ?_ ?_ h
            · rw [hb]
              exact tail_no_primary_append_one htl1 rfl
            · rw [hb]
              refine drops_ok_of_no_drop ?_
              simp only [List.any_append]
              rw [hnodrop1]
              simp [is_drop_blocker]
          · subst hex
            have hsingle : g.blockers.dropLast = [] := by
              cases hbl : g.blockers with
              | nil => simp [hbl]
              | cons x xs =>
                cases hxs : xs with
                | nil => simp
                | cons y ys =>
                  exfalso
                  rw [hbl, hxs] at heq htl
                  have hmem : (Blocker.Counteraction .Exchange t0 s0) ∈ y :: ys := by
                    refine List.mem_of_mem_getLast? ?_
                    rw [List.getLast?_cons_cons] at heq
                    exact heq
                  simp only [tail_no_primary, List.all_eq_true] at htl
                  have := htl _ hmem
                  simp [is_primary_ca, is_primary_at] at this
            refine ih ?_ ?_ h
            · rw [hb, hsingle]
              simp only [List.nil_append]
              cases j with
              | zero => simp [tail_no_primary]
              | succ j =>
                simp only [List.replicate_succ]
                simp only [tail_no_primary, List.all_eq_true]
                intro b hb2
                have : b = Blocker.DropCard t := by
                  simpa using List.eq_of_mem_replicate hb2
                subst this
                simp [is_primary_ca]
            · rw [hb, hsingle]
              simp only [List.nil_append]
              refine drops_ok_all ?_
              rw [List.all_eq_true]
              intro b hb2
              have : b = Blocker.DropCard t := List.eq_of_mem_replicate hb2
              subst this
              simp [is_drop_blocker]
        · rw [if_neg hpt] at h
          exact ih htl1 hdr1 h
      next hne =>
        obtain hg : g = g1 := by simpa using h
        subst hg
        refine ⟨htl, hdr, ?_⟩
        unfold top_is_ca
        rcases hl : g.blockers.getLast? with _ | b
        · rfl
        cases b with
        | Counteraction a0 t0 s0 => exact absurd hl (by exact hne a0 t0 s0)
        | Challenge t s c => rfl
        | RevealCard t => rfl
        | DropCard t => rfl

theorem invg_parts {g : Game} (h : inv_game g = true) :
    inv_basic g = true ∧ top_ca_ok g = true ∧
    tail_no_primary g.blockers = true ∧ drops_ok g.blockers = true := by
  simp only [inv_game, Bool.and_eq_true] at h
  exact ⟨h.1.1.1, h.1.1.2, h.1.2, h.2⟩

theorem invg_build {g : Game} (h1 : inv_basic g = true) (h2 : top_ca_ok g = true)
    (h3 : tail_no_primary g.blockers = true) (h4 : drops_ok g.blockers = true) :
    inv_game g = true := by
  simp [inv_game, Bool.and_eq_true, h1, h2, h3, h4]

theorem invg_of_empty {g1 : Game} (hb : inv_basic g1 = true)
    (he : g1.blockers = []) : inv_game g1 = true := by
  refine invg_build hb ?_ ?_ ?_ <;> simp [top_ca_ok, tail_no_primary, drops_ok, he]

theorem active_of_empty {g : Game} (hb : inv_basic g = true)
    (he : g.blockers = []) : active_at g.players g.player = true := by
  rcases (inv_parts hb).2 with h1 | h1
  · rw [he] at h1
    simp at h1
  · exact h1

theorem income_invg {p : Nat} {g g1 : Game}
    (hinv : inv_game g = true) (h : income p g = .ok g1) : inv_game g1 = true := by
  obtain ⟨hb, _, _, _⟩ := invg_parts hinv
  have hbasic := income_inv hb h
  unfold income at h
  by_cases h1 : p ≠ g.player
  · rw [if_pos h1] at h
    exact absurd h (by simp)
  rw [if_neg h1] at h
  by_cases h2 : ¬ g.blockers.isEmpty
  · rw [if_pos h2] at h
    exact absurd h (by simp)
  rw [if_neg h2] at h
  rcases hpl : g.players[p]? with _ | pl <;> rw [hpl] at h
  · exact absurd h (by simp)
  dsimp only at h
  by_cases h3 : MAX_COINS ≤ pl.coins
  · rw [if_pos h3] at h
    exact absurd h (by simp)
  rw [if_neg h3] at h
  rcases hadv : advance_player { g with players := g.players.set p { pl with coins := pl.coins + 1 } }
    with _ | g2 <;> rw [hadv] at h
  · exact absurd h (by simp)
  obtain hg : g2 = g1 := by simpa using h
  subst hg
  obtain ⟨f1, f2, f3, f4⟩ := advance_player_fields hadv
  refine invg_of_empty hbasic ?_
  rw [f2]
  simpa [List.isEmpty_iff] using not_not.mp h2

theorem action_without_target_invg {at0 : ActionType} {p : Nat} {g g1 : Game}
    (hat : inner_target_ok at0 g.players.length = true)
    (hinv : inv_game g = true) (h : action_without_target at0 p g = .ok g1) :
    inv_game g1 = true := by
  obtain ⟨hb, _, _, _⟩ := invg_parts hinv
  have hbasic := action_without_target_inv hb h
  unfold action_without_target at h
  by_cases h1 : p ≠ g.player
  · rw [if_pos h1] at h
    exact absurd h (by simp)
  rw [if_neg h1] at h
  by_cases h2 : ¬ g.blockers.isEmpty
  · rw [if_pos h2] at h
    exact absurd h (by simp)
  rw [if_neg h2] at h
  rcases hpl : g.players[p]? with _ | pl <;> rw [hpl] at h
  · exact absurd h (by simp)
  dsimp only at h
  by_cases h3 : MAX_COINS ≤ pl.coins
  · rw [if_pos h3] at h
    exact absurd h (by simp)
  rw [if_neg h3] at h
  obtain hg : _ = g1 := by simpa using h
  subst hg
  have hempty : g.blockers = [] := by simpa [List.isEmpty_iff] using not_not.mp h2
  have hact : active_at g.players g.player = true := active_of_empty hb hempty
  have hpeq : p = g.player := not_not.mp h1
  subst hpeq
  refine invg_build hbasic ?_ ?_ ?_
  · simp only [top_ca_ok, hempty, List.nil_append, List.getLast?_singleton]
    simp [hat, hact]
  · simp [hempty, tail_no_primary]
  · simp [hempty, drops_ok, is_drop_blocker]

theorem coup_invg {p t : Nat} {g g1 : Game}
    (hinv : inv_game g = true) (h : coup p t g = .ok g1) : inv_game g1 = true := by
  obtain ⟨hb, _, _, _⟩ := invg_parts hinv
  have hbasic := coup_inv hb h
  unfold coup at h
  by_cases h1 : p ≠ g.player
  · rw [if_pos h1] at h
    exact absurd h (by simp)
  rw [if_neg h1] at h
  by_cases h2 : ¬ g.blockers.isEmpty
  · rw [if_pos h2] at h
    exact absurd h (by simp)
  rw [if_neg h2] at h
  by_cases h3 : p = t
  · rw [if_pos h3] at h
    exact absurd h (by simp)
  rw [if_neg h3] at h
  rcases hpl : g.players[p]? with _ | pl <;> rw [hpl] at h
  · exact absurd h (by simp)
  dsimp only at h
  by_cases h4 : pl.coins < COUP_COST
  · rw [if_pos h4] at h
    exact absurd h (by simp)
  rw [if_neg h4] at h
  rcases hpt : g.players[t]? with _ | tg <;> rw [hpt] at h
  · exact absurd h (by simp)
  dsimp only at h
  by_cases h5 : ¬ tg.is_active
  · rw [if_pos h5] at h
    exact absurd h (by simp)
  rw [if_neg h5] at h
  obtain hg : _ = g1 := by simpa using h
  subst hg
  have hempty : g.blockers = [] := by simpa [List.isEmpty_iff] using not_not.mp h2
  refine invg_build hbasic ?_ ?_ ?_
  · simp [top_ca_ok, hempty]
  · simp [hempty, tail_no_primary]
  · simp [hempty, drops_ok, is_drop_blocker]

theorem assassinate_invg {p t : Nat} {g g1 : Game}
    (hinv : inv_game g = true) (h : assassinate p t g = .ok g1) : inv_game g1 = true := by
  obtain ⟨hb, _, _, _⟩ := invg_parts hinv
  have hbasic := assassinate_inv hb h
  unfold assassinate at h
  by_cases h1 : p ≠ g.player
  · rw [if_pos h1] at h
    exact absurd h (by simp)
  rw [if_neg h1] at h
  by_cases h2 : ¬ g.blockers.isEmpty
  · rw [if_pos h2] at h
    exact absurd h (by simp)
  rw [if_neg h2] at h
  by_cases h3 : p = t
  · rw [if_pos h3] at h
    exact absurd h (by simp)
  rw [if_neg h3] at h
  rcases hpt : g.players[t]? with _ | tg <;> rw [hpt] at h
  · exact absurd h (by simp)
  dsimp only at h
  by_cases h4 : ¬ tg.is_active
  · rw [if_pos h4] at h
    exact absurd h (by simp)
  rw [if_neg h4] at h
  rcases hpl : g.players[p]? with _ | pl <;> rw [hpl] at h
  · exact absurd h (by simp)
  dsimp only at h
  by_cases h5 : pl.coins < ASSASSINATION_COST
  · rw [if_pos h5] at h
    exact absurd h (by simp)
  rw [if_neg h5] at h
  by_cases h6 : MAX_COINS ≤ pl.coins
  · rw [if_pos h6] at h
    exact absurd h (by simp)
  rw [if_neg h6] at h
  obtain hg : _ = g1 := by simpa using h
  subst hg
  have hempty : g.blockers = [] := by simpa [List.isEmpty_iff] using not_not.mp h2
  have hact : active_at g.players g.player = true := active_of_empty hb hempty
  have hpeq : p = g.player := not_not.mp h1
  subst hpeq
  have htb : t < g.players.length := fsm.lt_of_getElem? hpt
  have hset := @active_at_set_same_cards g.players g.player g.player pl
    { pl with coins := pl.coins - ASSASSINATION_COST } hpl rfl
  refine invg_build hbasic ?_ ?_ ?_
  · simp only [top_ca_ok, hempty, List.nil_append, List.getLast?_singleton]
    simp [inner_target_ok, htb, hset, hact]
  · simp [hempty, tail_no_primary]
  · simp [hempty, drops_ok, is_drop_blocker]

theorem steal_invg {p t : Nat} {g g1 : Game}
    (hinv : inv_game g = true) (h : steal p t g = .ok g1) : inv_game g1 = true := by
  obtain ⟨hb, _, _, _⟩ := invg_parts hinv
  have hbasic := steal_inv hb h
  unfold steal at h
  by_cases h1 : p ≠ g.player
  · rw [if_pos h1] at h
    exact absurd h (by simp)
  rw [if_neg h1] at h
  by_cases h2 : ¬ g.blockers.isEmpty
  · rw [if_pos h2] at h
    exact absurd h (by simp)
  rw [if_neg h2] at h
  by_cases h3 : p = t
  · rw [if_pos h3] at h
    exact absurd h (by simp)
  rw [if_neg h3] at h
  rcases hpt : g.players[t]? with _ | tg <;> rw [hpt] at h
  · exact absurd h (by simp)
  dsimp only at h
  by_cases h4 : ¬ tg.is_active
  · rw [if_pos h4] at h
    exact absurd h (by simp)
  rw [if_neg h4] at h
  rcases hpl : g.players[p]? with _ | pl <;> rw [hpl] at h
  · exact absurd h (by simp)
  dsimp only at h
  by_cases h5 : MAX_COINS ≤ pl.coins
  · rw [if_pos h5] at h
    exact absurd h (by simp)
  rw [if_neg h5] at h
  obtain hg : _ = g1 := by simpa using h
  subst hg
  have hempty : g.blockers = [] := by simpa [List.isEmpty_iff] using not_not.mp h2
  have hact : active_at g.players g.player = true := active_of_empty hb hempty
  have hpeq : p = g.player := not_not.mp h1
  subst hpeq
  have htb : t < g.players.length := fsm.lt_of_getElem? hpt
  refine invg_build hbasic ?_ ?_ ?_
  · simp only [top_ca_ok, hempty, List.nil_append, List.getLast?_singleton]
    simp [inner_target_ok, htb, hact]
  · simp [hempty, tail_no_primary]
  · simp [hempty, drops_ok, is_drop_blocker]

theorem getLast?_append_pair {l : List Blocker} {a b : Blocker} :
    (l ++ [a, b]).getLast? = some b := by
  have hx : l ++ [a, b] = (l ++ [a]) ++ [b] := by simp
  rw [hx, List.getLast?_concat]

theorem no_drop_dropLast {l : List Blocker}
    (h : l.any is_drop_blocker = false) : l.dropLast.any is_drop_blocker = false := by
  simp only [List.any_eq_false] at h ⊢
  intro b hb
  exact h b ((List.dropLast_sublist _).mem hb)

theorem top_ca_parts {g : Game} {at0 : ActionType} {tgt : Nat} {src : Option Nat}
    (htop : top_ca_ok g = true)
    (heq : g.blockers.getLast? = some (.Counteraction at0 tgt src)) :
    src = none ∧ inner_target_ok at0 g.players.length = true ∧
    (is_primary_at at0 = true → tgt = g.player) ∧
    active_at g.players g.player = true := by
  unfold top_ca_ok at htop
  rw [heq] at htop
  simp only [Bool.and_eq_true, Bool.or_eq_true, Bool.not_eq_true', beq_iff_eq,
    Option.isNone_iff_eq_none] at htop
  refine ⟨htop.1.1.1, htop.1.1.2, ?_, htop.2⟩
  intro hp
  rcases htop.1.2 with h1 | h1
  · rw [hp] at h1
    simp at h1
  · exact h1

theorem block_foreign_aid_invg {p : Nat} {g g1 : Game}
    (hinv : inv_game g = true) (h : block_foreign_aid p g = .ok g1) :
    inv_game g1 = true := by
  obtain ⟨hb, htop, htl, hdr⟩ := invg_parts hinv
  have hbasic := block_foreign_aid_inv hb h
  unfold block_foreign_aid at h
  by_cases h1 : p = g.player
  · rw [if_pos h1] at h
    exact absurd h (by simp)
  rw [if_neg h1] at h
  split at h
  next a0 t0 s0 heq =>
    by_cases hs : s0.isSome
    · rw [if_pos hs] at h
      exact absurd h (by simp)
    rw [if_neg hs] at h
    obtain hg : _ = g1 := by simpa using h
    subst hg
    obtain ⟨hsrc, hinner, hprim, hact⟩ := top_ca_parts htop heq
    have hnodrop := no_drop_of_top_not_drop hdr heq rfl
    refine invg_build hbasic ?_ ?_ ?_
    · simp only [top_ca_ok, getLast?_append_pair]
      simp [inner_target_ok, is_primary_at, hact]
    · exact tail_no_primary_replace_top htl heq rfl rfl
    · refine drops_ok_of_no_drop ?_
      simp only [List.any_append, no_drop_dropLast hnodrop]
      simp [is_drop_blocker]
  next => exact absurd h (by simp)

theorem block_steal_invg {p : Nat} {card : Card} {g g1 : Game}
    (hinv : inv_game g = true) (h : block_steal p card g = .ok g1) :
    inv_game g1 = true := by
  obtain ⟨hb, htop, htl, hdr⟩ := invg_parts hinv
  have hbasic := block_steal_inv hb h
  unfold block_steal at h
  by_cases h1 : p = g.player
  · rw [if_pos h1] at h
    exact absurd h (by simp)
  rw [if_neg h1] at h
  by_cases h2 : ¬ (card = .Ambassador ∨ card = .Captain)
  · rw [if_pos h2] at h
    exact absurd h (by simp)
  rw [if_neg h2] at h
  split at h
  next a0 t0 s0 heq =>
    by_cases hs : s0.isSome
    · rw [if_pos hs] at h
      exact absurd h (by simp)
    rw [if_neg hs] at h
    obtain hg : _ = g1 := by simpa using h
    subst hg
    obtain ⟨hsrc, hinner, hprim, hact⟩ := top_ca_parts htop heq
    have hnodrop := no_drop_of_top_not_drop hdr heq rfl
    refine invg_build hbasic ?_ ?_ ?_
    · simp only [top_ca_ok, getLast?_append_pair]
      simp [inner_target_ok, is_primary_at, hact]
    · exact tail_no_primary_replace_top htl heq rfl rfl
    · refine drops_ok_of_no_drop ?_
      simp only [List.any_append, no_drop_dropLast hnodrop]
      simp [is_drop_blocker]
  next => exact absurd h (by simp)

theorem block_assassination_invg {p : Nat} {g g1 : Game}
    (hinv : inv_game g = true) (h : block_assassination p g = .ok g1) :
    inv_game g1 = true := by
  obtain ⟨hb, htop, htl, hdr⟩ := invg_parts hinv
  have hbasic := block_assassination_inv hb h
  unfold block_assassination at h
  by_cases h1 : p = g.player
  · rw [if_pos h1] at h
    exact absurd h (by simp)
  rw [if_neg h1] at h
  split at h
  next a0 t0 s0 heq =>
    by_cases hs : s0.isSome
    · rw [if_pos hs] at h
      exact absurd h (by simp)
    rw [if_neg hs] at h
    obtain hg : _ = g1 := by simpa using h
    subst hg
    obtain ⟨hsrc, hinner, hprim, hact⟩ := top_ca_parts htop heq
    have hnodrop := no_drop_of_top_not_drop hdr heq rfl
    refine invg_build hbasic ?_ ?_ ?_
    · simp only [top_ca_ok, getLast?_append_pair]
      simp [inner_target_ok, is_primary_at, hact]
    · exact tail_no_primary_replace_top htl heq rfl rfl
    · refine drops_ok_of_no_drop ?_
      simp only [List.any_append, no_drop_dropLast hnodrop]
      simp [is_drop_blocker]
  next => exact absurd h (by simp)

theorem challenge_invg {p : Nat} {g g1 : Game}
    (hinv : inv_game g = true) (h : challenge p g = .ok g1) : inv_game g1 = true := by
  obtain ⟨hb, htop, htl, hdr⟩ := invg_parts hinv
  have hbasic := challenge_inv hb h
  unfold challenge at h
  split at h
  next a0 t0 s0 heq =>
    rcases hcc : challenge_card a0 with _ | card <;> rw [hcc] at h
    · exact absurd h (by simp)
    obtain ⟨hsrc, hinner, hprim, hact⟩ := top_ca_parts htop heq
    have hnodrop := no_drop_of_top_not_drop hdr heq rfl
    rcases s0 with _ | sp
    · obtain hg : _ = g1 := by simpa using h
      subst hg
      refine invg_build hbasic ?_ ?_ ?_
      · refine top_ca_ok_of_not_ca ?_
        simp [top_is_ca, getLast?_append_pair]
      · exact tail_no_primary_replace_top htl heq rfl rfl
      · refine drops_ok_of_no_drop ?_
        simp only [List.any_append, no_drop_dropLast hnodrop]
        simp [is_drop_blocker]
    · exact absurd hsrc (by simp)
  next => exact absurd h (by simp)

theorem show_card_invg {shuffle : List Card → List Card} {p : Nat} {card : Card}
    {g g1 : Game} (hinv : inv_game g = true)
    (h : show_card shuffle p card g = .ok g1) : inv_game g1 = true := by
  obtain ⟨hb, htop, htl, hdr⟩ := invg_parts hinv
  have hbasic := show_card_inv hb h
  unfold show_card at h
  split at h
  next t0 s0 c0 heq =>
    by_cases h1 : card ≠ c0
    · rw [if_pos h1] at h
      exact absurd h (by simp)
    rw [if_neg h1] at h
    by_cases h2 : t0 ≠ p
    · rw [if_pos h2] at h
      exact absurd h (by simp)
    rw [if_neg h2] at h
    rcases hpl : g.players[t0]? with _ | pl <;> rw [hpl] at h
    · exact absurd h (by simp)
    dsimp only at h
    rcases hfi : find_card_index pl.cards c0 with _ | idx <;> rw [hfi] at h
    · exact absurd h (by simp)
    dsimp only at h
    rcases hnl : (shuffle (g.deck ++ [card])).getLast? with _ | newc <;> rw [hnl] at h
    · exact absurd h (by simp)
    obtain hg : _ = g1 := by simpa using h
    subst hg
    have hnodrop := no_drop_of_top_not_drop hdr heq rfl
    refine invg_build hbasic ?_ ?_ ?_
    · refine top_ca_ok_of_not_ca ?_
      simp [top_is_ca, List.getLast?_concat]
    · exact tail_no_primary_append_one (tail_no_primary_dropLast htl) rfl
    · refine drops_ok_of_no_drop ?_
      simp only [List.any_append, no_drop_dropLast hnodrop]
      simp [is_drop_blocker]
  next => exact absurd h (by simp)

theorem top_is_ca_false_of_all_drop {l : List Blocker}
    (h : l.all is_drop_blocker = true) : top_is_ca l = false := by
  unfold top_is_ca
  rcases hl : l.getLast? with _ | b
  · rfl
  cases b with
  | Counteraction a0 t0 s0 =>
    have := (List.all_eq_true.mp h) _ (List.mem_of_mem_getLast? hl)
    simp [is_drop_blocker] at this
  | Challenge t s c => rfl
  | RevealCard t => rfl
  | DropCard t => rfl

theorem tail_no_primary_of_all {l : List Blocker}
    (h : ∀ b ∈ l, is_primary_ca b = false) : tail_no_primary l = true := by
  cases l with
  | nil => rfl
  | cons x xs =>
    simp only [tail_no_primary, List.all_eq_true]
    intro b hb
    simp [h b (List.mem_cons_of_mem x hb)]

theorem invg_of_shape {g1 : Game} (hb : inv_basic g1 = true)
    (hshape : (∃ t, g1.blockers = [Blocker.RevealCard t]) ∨
      (∃ j t, g1.blockers = List.replicate j (Blocker.DropCard t))) :
    inv_game g1 = true := by
  rcases hshape with ⟨t, hbl⟩ | ⟨j, t, hbl⟩
  · refine invg_build hb ?_ ?_ ?_
    · refine top_ca_ok_of_not_ca ?_
      simp [top_is_ca, hbl]
    · rw [hbl]
      exact tail_no_primary_of_all (by intro b hb2; simp at hb2; simp [hb2, is_primary_ca])
    · rw [hbl]
      refine drops_ok_of_no_drop ?_
      simp [is_drop_blocker]
  · have hall : g1.blockers.all is_drop_blocker = true := by
      rw [hbl, List.all_eq_true]
      intro b hb2
      have := List.eq_of_mem_replicate hb2
      simp [this, is_drop_blocker]
    refine invg_build hb (top_ca_ok_of_not_ca (top_is_ca_false_of_all_drop hall)) ?_
      (drops_ok_all hall)
    refine tail_no_primary_of_all ?_
    intro b hb2
    rw [hbl] at hb2
    have := List.eq_of_mem_replicate hb2
    simp [this, is_primary_ca]

theorem complete_invg {p : Nat} {g g1 : Game}
    (hinv : inv_game g = true) (h : complete p g = .ok g1) : inv_game g1 = true := by
  obtain ⟨hb, htop, htl, hdr⟩ := invg_parts hinv
  have hbasic := complete_inv hb h
  unfold complete at h
  by_cases h1 : g.blockers.length < 1
  · rw [if_pos h1] at h
    exact absurd h (by simp)
  rw [if_neg h1] at h
  split at h
  next at0 t0 heq =>
    by_cases h2 : p ≠ t0
    · rw [if_pos h2] at h
      exact absurd h (by simp)
    rw [if_neg h2] at h
    rcases hca : complete_action at0 t0 { g with blockers := [] } with _ | g2 <;> rw [hca] at h
    · exact absurd h (by simp)
    dsimp only at h
    obtain ⟨_, hshape⟩ := complete_action_spec hca
    by_cases he : g2.blockers.isEmpty
    · rw [if_pos he] at h
      rcases hadv : advance_player g2 with _ | g3 <;> rw [hadv] at h
      · exact absurd h (by simp)
      obtain hg : g3 = g1 := by simpa using h
      subst hg
      obtain ⟨f1, f2, f3, f4⟩ := advance_player_fields hadv
      refine invg_of_empty hbasic ?_
      rw [f2]
      simpa [List.isEmpty_iff] using he
    · rw [if_neg he] at h
      obtain hg : g2 = g1 := by simpa using h
      subst hg
      refine invg_of_shape hbasic ?_
      rcases hshape with hb2 | ⟨t, hb2⟩ | ⟨_, j, t, hb2⟩
      · exfalso
        simp only [hb2] at he
        simp at he
      · exact .inl ⟨t, by simpa using hb2⟩
      · exact .inr ⟨j, t, by simpa using hb2⟩
  next => exact absurd h (by simp)

theorem reveal_card_invg {p : Nat} {card : Card} {g g1 : Game}
    (hinv : inv_game g = true) (h : reveal_card p card g = .ok g1) :
    inv_game g1 = true := by
  obtain ⟨hb, htop, htl, hdr⟩ := invg_parts hinv
  have hbasic := reveal_card_inv hb h
  have hbody : reveal_card.reveal_card_body p card g = .ok g1 → inv_game g1 = true := by
    intro hb2
    unfold reveal_card.reveal_card_body at hb2
    rcases hpl : g.players[p]? with _ | pl <;> rw [hpl] at hb2
    · exact absurd hb2 (by simp)
    dsimp only at hb2
    rcases hfi : find_card_index pl.cards card with _ | idx <;> rw [hfi] at hb2
    · exact absurd hb2 (by simp)
    dsimp only at hb2
    split at hb2
    next hloop => exact absurd hb2 (by simp)
    next g2 hloop =>
    obtain ⟨tl2, dr2, nca2⟩ := reveal_loop_spec
      (by simpa using tail_no_primary_dropLast htl)
      (by simpa using drops_ok_dropLast hdr) hloop
    by_cases he : g2.blockers.isEmpty
    · rw [if_pos he] at hb2
      split at hb2
      next hadv => exact absurd hb2 (by simp)
      next g3 hadv =>
      obtain hg : g3 = g1 := by simpa using hb2
      subst hg
      obtain ⟨f1, f2, f3, f4⟩ := advance_player_fields hadv
      refine invg_of_empty hbasic ?_
      rw [f2]
      simpa [List.isEmpty_iff] using he
    · rw [if_neg he] at hb2
      obtain hg : g2 = g1 := by simpa using hb2
      subst hg
      exact invg_build hbasic (top_ca_ok_of_not_ca nca2) tl2 dr2
  unfold reveal_card at h
  split at h
  next t0 heq =>
    by_cases h1 : t0 ≠ p
    · rw [if_pos h1] at h
      exact absurd h (by simp)
    rw [if_neg h1] at h
    exact hbody h
  next t0 s0 c0 heq =>
    by_cases h1 : t0 ≠ p
    · rw [if_pos h1] at h
      exact absurd h (by simp)
    rw [if_neg h1] at h
    exact hbody h
  next => exact absurd h (by simp)

theorem drop_card_invg {p : Nat} {card : Card} {g g1 : Game}
    (hinv : inv_game g = true) (h : drop_card p card g = .ok g1) :
    inv_game g1 = true := by
  obtain ⟨hb, htop, htl, hdr⟩ := invg_parts hinv
  have hbasic := drop_card_inv hb h
  unfold drop_card at h
  split at h
  next t0 heq =>
    by_cases h1 : t0 ≠ p
    · rw [if_pos h1] at h
      exact absurd h (by simp)
    rw [if_neg h1] at h
    rcases hpl : g.players[p]? with _ | pl <;> rw [hpl] at h
    · exact absurd h (by simp)
    dsimp only at h
    rcases hfi : find_card_index pl.cards card with _ | idx <;> rw [hfi] at h
    · exact absurd h (by simp)
    dsimp only at h
    rcases hci : pl.cards[idx]? with _ | removed <;> rw [hci] at h
    · exact absurd h (by simp)
    dsimp only at h
    have halldrop : g.blockers.all is_drop_blocker = true := by
      unfold drops_ok at hdr
      rcases Bool.or_eq_true_iff.mp hdr with h2 | h2
      · exfalso
        simp only [Bool.not_eq_true', List.any_eq_false] at h2
        have := h2 _ (List.mem_of_mem_getLast? heq)
        simp [is_drop_blocker] at this
      · exact h2
    have halldrop1 : g.blockers.dropLast.all is_drop_blocker = true := by
      rw [List.all_eq_true] at halldrop ⊢
      intro b hb2
      exact halldrop b ((List.dropLast_sublist _).mem hb2)
    by_cases he : g.blockers.dropLast.isEmpty
    · rw [if_pos he] at h
      split at h
      next hadv => exact absurd h (by simp)
      next g3 hadv =>
      obtain hg : g3 = g1 := by simpa using h
      subst hg
      obtain ⟨f1, f2, f3, f4⟩ := advance_player_fields hadv
      refine invg_of_empty hbasic ?_
      rw [f2]
      simpa [List.isEmpty_iff] using he
    · rw [if_neg he] at h
      obtain hg : _ = g1 := by simpa using h
      subst hg
      refine invg_build hbasic ?_ ?_ ?_
      · exact top_ca_ok_of_not_ca (top_is_ca_false_of_all_drop (by simpa using halldrop1))
      · refine tail_no_primary_of_all ?_
        intro b hb2
        simp only [] at hb2
        have := (List.all_eq_true.mp halldrop1) b hb2
        cases b <;> simp_all [is_drop_blocker, is_primary_ca]
      · exact drops_ok_all (by simpa using halldrop1)
  next => exact absurd h (by simp)

theorem invg_stepped {g2 : Game} {s t r : Nat} (h : inv_game g2 = true) :
    inv_game { g2 with step := s, turn := t, round := r } = true := by
  obtain ⟨h1, h2, h3, h4⟩ := invg_parts h
  refine invg_build (inv_stepped h1) ?_ ?_ ?_
  · exact h2
  · exact h3
  · exact h4

theorem play_invg {shuffle : List Card → List Card} {a : Action} {g g1 : Game}
    (hinv : inv_game g = true) (h : play shuffle a g = .ok g1) : inv_game g1 = true := by
  unfold play at h
  dsimp only at h
  split at h
  next g2 heq =>
    obtain hg : _ = g1 := by simpa using h
    subst hg
    refine invg_stepped ?_
    split at heq
    · exact income_invg hinv heq
    · refine action_without_target_invg ?_ hinv heq
      rfl
    · refine action_without_target_invg ?_ hinv heq
      rfl
    · refine action_without_target_invg ?_ hinv heq
      rfl
    · exact coup_invg hinv heq
    · exact assassinate_invg hinv heq
    · exact steal_invg hinv heq
    · exact block_foreign_aid_invg hinv heq
    · exact block_steal_invg hinv heq
    · exact block_assassination_invg hinv heq
    · exact complete_invg hinv heq
    · exact challenge_invg hinv heq
    · exact show_card_invg hinv heq
    · exact reveal_card_invg hinv heq
    · exact drop_card_invg hinv heq
  next heq => exact absurd h (by simp)
  next heq => exact absurd h (by simp)

theorem game_new_blockers {n : Nat} {deck0 : List Card} {g : Game}
    (hg : game_new n deck0 = some g) : g.blockers = [] := by
  unfold game_new at hg
  dsimp only at hg
  rcases h1 : deal_round (List.replicate n ⟨2, []⟩) deck0 with _ | ⟨players1, deck1⟩
    <;> rw [h1] at hg
  · exact absurd hg (by simp)
  dsimp only at hg
  rcases h2 : deal_round players1 deck1 with _ | ⟨players2, deck2⟩ <;> rw [h2] at hg
  · exact absurd hg (by simp)
  obtain hgeq : _ = g := by simpa using hg
  subst hgeq
  rfl

/-- Every reachable game satisfies the stack invariant. -/
theorem reachable_invg {g : Game} (hr : Reachable g) : inv_game g = true := by
  induction hr with
  | init n cpt deck0 g hn hperm hg =>
    exact invg_of_empty (game_new_inv (by omega) hg) (game_new_blockers hg)
  | step g g1 a shuffle hsh hr hp ih => exact play_invg ih hp

theorem block_foreign_aid_ok {g : Game} {at0 : ActionType} {tgt i : Nat}
    (heq : g.blockers.getLast? = some (.Counteraction at0 tgt none))
    (hi : i ≠ g.player) :
    ∃ g1, block_foreign_aid i g = .ok g1 := by
  unfold block_foreign_aid
  rw [if_neg hi, heq]
  dsimp only
  rw [if_neg (by simp)]
  exact ⟨_, rfl⟩

theorem block_steal_ok {g : Game} {at0 : ActionType} {tgt i : Nat} {card : Card}
    (heq : g.blockers.getLast? = some (.Counteraction at0 tgt none))
    (hi : i ≠ g.player) (hcard : card = .Ambassador ∨ card = .Captain) :
    ∃ g1, block_steal i card g = .ok g1 := by
  unfold block_steal
  rw [if_neg hi, if_neg (not_not_intro hcard), heq]
  dsimp only
  rw [if_neg (by simp)]
  exact ⟨_, rfl⟩

theorem block_assassination_ok {g : Game} {at0 : ActionType} {tgt i : Nat}
    (heq : g.blockers.getLast? = some (.Counteraction at0 tgt none))
    (hi : i ≠ g.player) :
    ∃ g1, block_assassination i g = .ok g1 := by
  unfold block_assassination
  rw [if_neg hi, heq]
  dsimp only
  rw [if_neg (by simp)]
  exact ⟨_, rfl⟩

theorem challenge_ok {g : Game} {at0 : ActionType} {tgt i : Nat} {c : Card}
    (heq : g.blockers.getLast? = some (.Counteraction at0 tgt none))
    (hc : challenge_card at0 = some c) :
    ∃ g1, challenge i g = .ok g1 := by
  unfold challenge
  rw [heq]
  dsimp only
  rw [hc]
  exact ⟨_, rfl⟩

theorem complete_ok {g : Game} {at0 : ActionType} {tgt : Nat}
    (heq : g.blockers.getLast? = some (.Counteraction at0 tgt none))
    (hin : inner_target_ok at0 g.players.length = true)
    (hp : is_primary_at at0 = true → tgt = g.player)
    (hbound : g.player < g.players.length)
    (hact : active_at g.players g.player = true) :
    ∃ g1, complete tgt g = .ok g1 := by
  have hne : g.blockers ≠ [] := by
    intro h0
    rw [h0] at heq
    simp at heq
  have hlen : ¬ g.blockers.length < 1 := by
    have := List.length_pos.mpr hne
    omega
  unfold complete
  rw [if_neg hlen, heq]
  dsimp only
  rw [if_neg (by simp)]
  have hp1 : is_primary_at at0 = true →
      tgt < ({ g with blockers := [] } : Game).players.length := by
    intro h0
    rw [hp h0]
    exact hbound
  obtain ⟨g2, hca⟩ := complete_action_ok (g := { g with blockers := [] }) hp1 hin
  rw [hca]
  dsimp only
  obtain ⟨hl2, hp2⟩ := complete_action_fields hca
  have hact2 : active_at g2.players g2.player = true := by
    rw [hp2]
    exact (complete_action_spec hca).1 g.player hact
  by_cases he : g2.blockers.isEmpty
  · rw [if_pos he]
    obtain ⟨g3, hadv, _⟩ := advance_player_some (by rw [hp2, hl2]; exact hbound) hact2
    rw [hadv]
    exact ⟨_, rfl⟩
  · rw [if_neg he]
    exact ⟨_, rfl⟩

theorem play_ok_block_foreign_aid {shuffle : List Card → List Card} {p : Nat} {g gr : Game}
    (h : block_foreign_aid p g = .ok gr) :
    ∃ g1, play shuffle ⟨p, .BlockForeignAid⟩ g = .ok g1 := by
  unfold play
  dsimp only
  rw [h]
  exact ⟨_, rfl⟩

theorem play_ok_block_steal {shuffle : List Card → List Card} {p : Nat} {card : Card}
    {g gr : Game} (h : block_steal p card g = .ok gr) :
    ∃ g1, play shuffle ⟨p, .BlockSteal card⟩ g = .ok g1 := by
  unfold play
  dsimp only
  rw [h]
  exact ⟨_, rfl⟩

theorem play_ok_block_assassination {shuffle : List Card → List Card} {p : Nat} {g gr : Game}
    (h : block_assassination p g = .ok gr) :
    ∃ g1, play shuffle ⟨p, .BlockAssassination⟩ g = .ok g1 := by
  unfold play
  dsimp only
  rw [h]
  exact ⟨_, rfl⟩

theorem play_ok_challenge {shuffle : List Card → List Card} {p : Nat} {g gr : Game}
    (h : challenge p g = .ok gr) :
    ∃ g1, play shuffle ⟨p, .Challenge⟩ g = .ok g1 := by
  unfold play
  dsimp only
  rw [h]
  exact ⟨_, rfl⟩

theorem play_ok_complete {shuffle : List Card → List Card} {p : Nat} {g gr : Game}
    (h : complete p g = .ok gr) :
    ∃ g1, play shuffle ⟨p, .Complete⟩ g = .ok g1 := by
  unfold play
  dsimp only
  rw [h]
  exact ⟨_, rfl⟩

/-- Soundness of the enumerator at empty-stack states: every main-turn action
it emits there is accepted by `Game::play`. -/
theorem get_available_actions_sound_empty_blockers
    {g : Game} (hr : Reachable g) (hb : g.blockers = [])
    (shuffle : List Card → List Card) {a : Action}
    (ha : a ∈ get_available_actions g.player g.views g.blockers) :
    ∃ g1, play shuffle a g = .ok g1 := by
  have hinv := reachable_inv hr
  obtain ⟨hbound, hdisj⟩ := inv_parts hinv
  have hact : active_at g.players g.player = true := by
    rcases hdisj with h1 | h1
    · rw [hb] at h1
      simp at h1
    · exact h1
  obtain ⟨pl, hpl⟩ : ∃ pl, g.players[g.player]? = some pl := by
    rcases hq : g.players[g.player]? with _ | pl
    · rw [List.getElem?_eq_none_iff] at hq
      omega
    · exact ⟨pl, rfl⟩
  have hv : g.views[g.player]? = some (opponent_view pl) := by
    simp [Game.views, hpl]
  have hvlen : g.views.length = g.players.length := by simp [Game.views]
  rw [hb] at ha
  unfold get_available_actions at ha
  have htriv : (([] : List Blocker).isEmpty = true) := rfl
  rw [if_pos htriv, hv] at ha
  dsimp only at ha
  by_cases hcoins : MAX_COINS ≤ (opponent_view pl).coins
  · rw [if_pos hcoins] at ha
    simp only [List.mem_flatMap, List.mem_range] at ha
    obtain ⟨i, hi, hmem⟩ := ha
    obtain ⟨pli, hpli⟩ : ∃ pli, g.players[i]? = some pli := by
      rcases hq : g.players[i]? with _ | pli
      · rw [List.getElem?_eq_none_iff] at hq
        omega
      · exact ⟨pli, rfl⟩
    have hvi : g.views[i]? = some (opponent_view pli) := by
      simp [Game.views, hpli]
    rw [hvi] at hmem
    dsimp only at hmem
    by_cases hcond : i ≠ g.player ∧ 0 < (opponent_view pli).hand
    · rw [if_pos hcond] at hmem
      obtain haeq : a = ⟨g.player, .Coup i⟩ := by simpa using hmem
      subst haeq
      have hplact : pli.is_active = true :=
        hand_pos_iff_active.mp (by simpa [opponent_view] using hcond.2)
      have hc10 : MAX_COINS ≤ pl.coins := by simpa [opponent_view] using hcoins
      have hc7 : COUP_COST ≤ pl.coins := by
        simp only [MAX_COINS] at hc10
        simp only [COUP_COST]
        omega
      obtain ⟨gr, hgr⟩ := coup_ok hb hpl hpli hcond.1 hc7 hplact
      exact play_ok_coup hgr
    · rw [if_neg hcond] at hmem
      exact absurd hmem (by simp)
  · rw [if_neg hcoins] at ha
    have hcl : ¬ MAX_COINS ≤ pl.coins := by simpa [opponent_view] using hcoins
    rw [List.mem_append] at ha
    rcases ha with ha | ha
    · simp only [List.mem_cons, List.not_mem_nil, or_false] at ha
      rcases ha with haeq | haeq | haeq | haeq
      all_goals subst haeq
      · obtain ⟨gr, hgr⟩ := income_ok hb hpl hcl hact hbound
        exact play_ok_income hgr
      · obtain ⟨gr, hgr⟩ := action_without_target_ok hb hpl hcl
        exact play_ok_foreign_aid hgr
      · obtain ⟨gr, hgr⟩ := action_without_target_ok hb hpl hcl
        exact play_ok_tax hgr
      · obtain ⟨gr, hgr⟩ := action_without_target_ok hb hpl hcl
        exact play_ok_exchange hgr
    · simp only [List.mem_flatMap, List.mem_range] at ha
      obtain ⟨i, hi, hmem⟩ := ha
      obtain ⟨pli, hpli⟩ : ∃ pli, g.players[i]? = some pli := by
        rcases hq : g.players[i]? with _ | pli
        · rw [List.getElem?_eq_none_iff] at hq
          omega
        · exact ⟨pli, rfl⟩
      have hvi : g.views[i]? = some (opponent_view pli) := by
        simp [Game.views, hpli]
      rw [hvi] at hmem
      dsimp only at hmem
      by_cases hcond : i ≠ g.player ∧ 0 < (opponent_view pli).hand
      · rw [if_pos hcond] at hmem
        have hplact : pli.is_active = true :=
          hand_pos_iff_active.mp (by simpa [opponent_view] using hcond.2)
        rw [List.mem_append, List.mem_append] at hmem
        rcases hmem with (hmem | hmem) | hmem
        · obtain haeq : a = ⟨g.player, .Steal i⟩ := by simpa using hmem
          subst haeq
          obtain ⟨gr, hgr⟩ := steal_ok hb hpl hpli hcond.1 hcl hplact
          exact play_ok_steal hgr
        · by_cases hc3 : ASSASSINATION_COST ≤ (opponent_view pl).coins
          · rw [if_pos hc3] at hmem
            obtain haeq : a = ⟨g.player, .Assassinate i⟩ := by simpa using hmem
            subst haeq
            obtain ⟨gr, hgr⟩ := assassinate_ok hb hpl hpli hcond.1
              (by simpa [opponent_view] using hc3) hcl hplact
            exact play_ok_assassinate hgr
          · rw [if_neg hc3] at hmem
            exact absurd hmem (by simp)
        · by_cases hc7 : COUP_COST ≤ (opponent_view pl).coins
          · rw [if_pos hc7] at hmem
            obtain haeq : a = ⟨g.player, .Coup i⟩ := by simpa using hmem
            subst haeq
            obtain ⟨gr, hgr⟩ := coup_ok hb hpl hpli hcond.1
              (by simpa [opponent_view] using hc7) hplact
            exact play_ok_coup hgr
          · rw [if_neg hc7] at hmem
            exact absurd hmem (by simp)
      · rw [if_neg hcond] at hmem
        exact absurd hmem (by simp)

/-- Claim C5, amended. The enumerator is not sound as stated: at the
card-selection tops (`Challenge`, `RevealCard`, `DropCard` on top of the
stack) it emits `ShowCard`/`RevealCard`/`DropCard` actions over card kinds
the player need not hold, and those are rejected. At every other reachable
state — blocker stack empty or a `Counteraction` on top — every action the
enumerator emits is accepted by `Game::play`. -/
theorem get_available_actions_sound
    {g : Game} (hr : Reachable g) (htop : card_selection_top g = false)
    (shuffle : List Card → List Card) {a : Action}
    (ha : a ∈ get_available_actions g.player g.views g.blockers) :
    ∃ g1, play shuffle a g = .ok g1 := by
  by_cases hbe : g.blockers.isEmpty
  · exact get_available_actions_sound_empty_blockers hr (List.isEmpty_iff.mp hbe)
      shuffle ha
  · obtain ⟨hbasic, htopca, htl, hdr⟩ := invg_parts (reachable_invg hr)
    obtain ⟨hbound, _⟩ := inv_parts hbasic
    have hvlen : g.views.length = g.players.length := by simp [Game.views]
    have hsome : ∀ {i : Nat}, i < g.players.length →
        ∃ pli, g.players[i]? = some pli := by
      intro i hi
      rcases hq : g.players[i]? with _ | pli
      · rw [List.getElem?_eq_none_iff] at hq
        omega
      · exact ⟨pli, rfl⟩
    unfold get_available_actions at ha
    rw [if_neg hbe] at ha
    rcases hlast : g.blockers.getLast? with _ | b <;> rw [hlast] at ha
    · exact absurd ha (by simp)
    cases b with
    | Challenge t s c =>
      exfalso
      unfold card_selection_top at htop
      rw [hlast] at htop
      simp at htop
    | RevealCard t =>
      exfalso
      unfold card_selection_top at htop
      rw [hlast] at htop
      simp at htop
    | DropCard t =>
      exfalso
      unfold card_selection_top at htop
      rw [hlast] at htop
      simp at htop
    | Counteraction at0 tgt src =>
      obtain ⟨hsrc, hin, hprim, hact⟩ := top_ca_parts htopca hlast
      subst hsrc
      cases at0 with
      | ForeignAid =>
        dsimp only at ha
        rw [List.mem_append] at ha
        rcases ha with ha | ha
        · simp only [List.mem_flatMap, List.mem_range] at ha
          obtain ⟨i, hi, hmem⟩ := ha
          obtain ⟨pli, hpli⟩ := hsome (hvlen ▸ hi)
          have hvi : g.views[i]? = some (opponent_view pli) := by
            simp [Game.views, hpli]
          rw [hvi] at hmem
          dsimp only at hmem
          by_cases hcond : i ≠ tgt ∧ 0 < (opponent_view pli).hand
          · rw [if_pos hcond] at hmem
            obtain haeq : a = ⟨i, .BlockForeignAid⟩ := by simpa using hmem
            subst haeq
            have hip : i ≠ g.player := by
              rw [← hprim rfl]
              exact hcond.1
            obtain ⟨gr, hgr⟩ := block_foreign_aid_ok hlast hip
            exact play_ok_block_foreign_aid hgr
          · rw [if_neg hcond] at hmem
            exact absurd hmem (by simp)
        · obtain haeq : a = ⟨tgt, .Complete⟩ := by simpa using ha
          subst haeq
          obtain ⟨gr, hgr⟩ := complete_ok hlast hin hprim hbound hact
          exact play_ok_complete hgr
      | Assassinate t1 =>
        dsimp only at ha
        rw [List.mem_append] at ha
        rcases ha with ha | ha
        · simp only [List.mem_flatMap, List.mem_range] at ha
          obtain ⟨i, hi, hmem⟩ := ha
          obtain ⟨pli, hpli⟩ := hsome (hvlen ▸ hi)
          have hvi : g.views[i]? = some (opponent_view pli) := by
            simp [Game.views, hpli]
          rw [hvi] at hmem
          dsimp only at hmem
          by_cases hcond : i ≠ tgt ∧ 0 < (opponent_view pli).hand
          · rw [if_pos hcond] at hmem
            simp only [List.mem_cons, List.not_mem_nil, or_false] at hmem
            rcases hmem with haeq | haeq
            all_goals subst haeq
            · have hip : i ≠ g.player := by
                rw [← hprim rfl]
                exact hcond.1
              obtain ⟨gr, hgr⟩ := block_assassination_ok hlast hip
              exact play_ok_block_assassination hgr
            · obtain ⟨gr, hgr⟩ := challenge_ok (i := i) hlast rfl
              exact play_ok_challenge hgr
          · rw [if_neg hcond] at hmem
            exact absurd hmem (by simp)
        · obtain haeq : a = ⟨tgt, .Complete⟩ := by simpa using ha
          subst haeq
          obtain ⟨gr, hgr⟩ := complete_ok hlast hin hprim hbound hact
          exact play_ok_complete hgr
      | Steal t1 =>
        dsimp only at ha
        rw [List.mem_append] at ha
        rcases ha with ha | ha
        · simp only [List.mem_flatMap, List.mem_range] at ha
          obtain ⟨i, hi, hmem⟩ := ha
          obtain ⟨pli, hpli⟩ := hsome (hvlen ▸ hi)
          have hvi : g.views[i]? = some (opponent_view pli) := by
            simp [Game.views, hpli]
          rw [hvi] at hmem
          dsimp only at hmem
          by_cases hcond : i ≠ tgt ∧ 0 < (opponent_view pli).hand
          · rw [if_pos hcond] at hmem
            rw [List.mem_append] at hmem
            rcases hmem with hmem | hmem
            · simp only [STEAL_BLOCKERS, List.map_cons, List.map_nil,
                List.mem_cons, List.not_mem_nil, or_false] at hmem
              have hip : i ≠ g.player := by
                rw [← hprim rfl]
                exact hcond.1
              rcases hmem with haeq | haeq
              all_goals subst haeq
              · obtain ⟨gr, hgr⟩ := block_steal_ok hlast hip (Or.inl rfl)
                exact play_ok_block_steal hgr
              · obtain ⟨gr, hgr⟩ := block_steal_ok hlast hip (Or.inr rfl)
                exact play_ok_block_steal hgr
            · obtain haeq : a = ⟨i, .Challenge⟩ := by simpa using hmem
              subst haeq
              obtain ⟨gr, hgr⟩ := challenge_ok (i := i) hlast rfl
              exact play_ok_challenge hgr
          · rw [if_neg hcond] at hmem
            exact absurd hmem (by simp)
        · obtain haeq : a = ⟨tgt, .Complete⟩ := by simpa using ha
          subst haeq
          obtain ⟨gr, hgr⟩ := complete_ok hlast hin hprim hbound hact
          exact play_ok_complete hgr
      | Tax =>
        dsimp only at ha
        rw [List.mem_append] at ha
        rcases ha with ha | ha
        · simp only [List.mem_flatMap, List.mem_range] at ha
          obtain ⟨i, hi, hmem⟩ := ha
          obtain ⟨pli, hpli⟩ := hsome (hvlen ▸ hi)
          have hvi : g.views[i]? = some (opponent_view pli) := by
            simp [Game.views, hpli]
          rw [hvi] at hmem
          dsimp only at hmem
          by_cases hcond : i ≠ tgt ∧ 0 < (opponent_view pli).hand
          · rw [if_pos hcond] at hmem
            obtain haeq : a = ⟨i, .Challenge⟩ := by simpa using hmem
            subst haeq
            obtain ⟨gr, hgr⟩ := challenge_ok (i := i) hlast rfl
            exact play_ok_challenge hgr
          · rw [if_neg hcond] at hmem
            exact absurd hmem (by simp)
        · obtain haeq : a = ⟨tgt, .Complete⟩ := by simpa using ha
          subst haeq
          obtain ⟨gr, hgr⟩ := complete_ok hlast hin hprim hbound hact
          exact play_ok_complete hgr
      | Exchange =>
        dsimp only at ha
        rw [List.mem_append] at ha
        rcases ha with ha | ha
        · simp only [List.mem_flatMap, List.mem_range] at ha
          obtain ⟨i, hi, hmem⟩ := ha
          obtain ⟨pli, hpli⟩ := hsome (hvlen ▸ hi)
          have hvi : g.views[i]? = some (opponent_view pli) := by
            simp [Game.views, hpli]
          rw [hvi] at hmem
          dsimp only at hmem
          by_cases hcond : i ≠ tgt ∧ 0 < (opponent_view pli).hand
          · rw [if_pos hcond] at hmem
            obtain haeq : a = ⟨i, .Challenge⟩ := by simpa using hmem
            subst haeq
            obtain ⟨gr, hgr⟩ := challenge_ok (i := i) hlast rfl
            exact play_ok_challenge hgr
          · rw [if_neg hcond] at hmem
            exact absurd hmem (by simp)
        · obtain haeq : a = ⟨tgt, .Complete⟩ := by simpa using ha
          subst haeq
          obtain ⟨gr, hgr⟩ := complete_ok hlast hin hprim hbound hact
          exact play_ok_complete hgr
      | BlockForeignAid =>
        dsimp only at ha
        rw [List.mem_append] at ha
        rcases ha with ha | ha
        · simp only [List.mem_flatMap, List.mem_range] at ha
          obtain ⟨i, hi, hmem⟩ := ha
          obtain ⟨pli, hpli⟩ := hsome (hvlen ▸ hi)
          have hvi : g.views[i]? = some (opponent_view pli) := by
            simp [Game.views, hpli]
          rw [hvi] at hmem
          dsimp only at hmem
          by_cases hcond : i ≠ tgt ∧ 0 < (opponent_view pli).hand
          · rw [if_pos hcond] at hmem
            obtain haeq : a = ⟨i, .Challenge⟩ := by simpa using hmem
            subst haeq
            obtain ⟨gr, hgr⟩ := challenge_ok (i := i) hlast rfl
            exact play_ok_challenge hgr
          · rw [if_neg hcond] at hmem
            exact absurd hmem (by simp)
        · obtain haeq : a = ⟨tgt, .Complete⟩ := by simpa using ha
          subst haeq
          obtain ⟨gr, hgr⟩ := complete_ok hlast hin hprim hbound hact
          exact play_ok_complete hgr
      | BlockAssassination =>
        dsimp only at ha
        rw [List.mem_append] at ha
        rcases ha with ha | ha
        · simp only [List.mem_flatMap, List.mem_range] at ha
          obtain ⟨i, hi, hmem⟩ := ha
          obtain ⟨pli, hpli⟩ := hsome (hvlen ▸ hi)
          have hvi : g.views[i]? = some (opponent_view pli) := by
            simp [Game.views, hpli]
          rw [hvi] at hmem
          dsimp only at hmem
          by_cases hcond : i ≠ tgt ∧ 0 < (opponent_view pli).hand
          · rw [if_pos hcond] at hmem
            obtain haeq : a = ⟨i, .Challenge⟩ := by simpa using hmem
            subst haeq
            obtain ⟨gr, hgr⟩ := challenge_ok (i := i) hlast rfl
            exact play_ok_challenge hgr
          · rw [if_neg hcond] at hmem
            exact absurd hmem (by simp)
        · obtain haeq : a = ⟨tgt, .Complete⟩ := by simpa using ha
          subst haeq
          obtain ⟨gr, hgr⟩ := complete_ok hlast hin hprim hbound hact
          exact play_ok_complete hgr
      | BlockSteal c1 =>
        dsimp only at ha
        rw [List.mem_append] at ha
        rcases ha with ha | ha
        · simp only [List.mem_flatMap, List.mem_range] at ha
          obtain ⟨i, hi, hmem⟩ := ha
          obtain ⟨pli, hpli⟩ := hsome (hvlen ▸ hi)
          have hvi : g.views[i]? = some (opponent_view pli) := by
            simp [Game.views, hpli]
          rw [hvi] at hmem
          dsimp only at hmem
          by_cases hcond : i ≠ tgt ∧ 0 < (opponent_view pli).hand
          · rw [if_pos hcond] at hmem
            obtain haeq : a = ⟨i, .Challenge⟩ := by simpa using hmem
            subst haeq
            obtain ⟨gr, hgr⟩ := challenge_ok (i := i) hlast rfl
            exact play_ok_challenge hgr
          · rw [if_neg hcond] at hmem
            exact absurd hmem (by simp)
        · obtain haeq : a = ⟨tgt, .Complete⟩ := by simpa using ha
          subst haeq
          obtain ⟨gr, hgr⟩ := complete_ok hlast hin hprim hbound hact
          exact play_ok_complete hgr
      | Income => exact absurd ha (by simp)
      | Coup t1 => exact absurd ha (by simp)
      | Complete => exact absurd ha (by simp)
      | Challenge => exact absurd ha (by simp)
      | ShowCard c1 => exact absurd ha (by simp)
      | RevealCard c1 => exact absurd ha (by simp)
      | DropCard c1 => exact absurd ha (by simp)

/-- Witness for the amended C5: in the reachable two-player state where
player 0 has just claimed `Tax` (a `Counteraction` sits on top of the stack),
the enumerator emits `Challenge` for player 1, and playing it succeeds. -/
theorem get_available_actions_sound_witness :
    card_selection_top cx_g1 = false ∧
    (⟨1, .Challenge⟩ : Action) ∈
      get_available_actions cx_g1.player cx_g1.views cx_g1.blockers ∧
    ∃ g1, play (fun d => d) ⟨1, .Challenge⟩ cx_g1 = .ok g1 :=
  ⟨by decide, by decide,
    get_available_actions_sound
      (.step cx_g0 cx_g1 ⟨0, .Tax⟩ (fun d => d) (fun d => List.Perm.refl d)
        (.init 2 1 cx_deck cx_g0 (by decide) (by decide) (by decide))
        (by decide))
      (by decide) (fun d => d) (by decide)⟩

end game

/-!
## The belief tracker of `bots.rs`

`bots.rs` reuses the fsm types (`Card` with its `Unknown` member, `ActionType`,
`StateType`). A tracker holds a set of belief `GameState`s; `Vec` order is
kept (`enumerate` = `List.enum`). A Rust panic (the `unwrap` of a missing
`last_action`, an out-of-bounds index) is the `none` result.
-/

namespace bots

structure CardCollection where
  known : List fsm.Card
  unknown : Nat
deriving DecidableEq, Repr

def CardCollection.contains_known (c : CardCollection) (card : fsm.Card) : Bool :=
  c.known.contains card

def CardCollection.count_known (c : CardCollection) (card : fsm.Card) : Nat :=
  (c.known.filter (fun v => v == card)).length

inductive GamePlayerCards where
  | Player (cards : List fsm.Card)
  | Opponent (cards : CardCollection)
deriving DecidableEq, Repr

def GamePlayerCards.contains_known : GamePlayerCards → fsm.Card → Bool
  | .Player cards, card => cards.contains card
  | .Opponent cards, card => cards.contains_known card

def GamePlayerCards.count_known : GamePlayerCards → fsm.Card → Nat
  | .Player cards, card => (cards.filter (fun v => v == card)).length
  | .Opponent cards, card => cards.count_known card

structure GameState where
  valid : Bool
  state_type : fsm.StateType
  player_coins : List Nat
  player_hands : List Nat
  player_cards_counter : List Nat
  player_cards : List GamePlayerCards
  revealed_cards : List fsm.Card
  deck : CardCollection
deriving DecidableEq, Repr

def GameState.count_known (s : GameState) (card : fsm.Card) : Nat :=
  (s.player_cards.map (fun player => player.count_known card)).sum

def GameState.is_card_hold_by_opponent (s : GameState) (player : Nat)
    (card : fsm.Card) : Bool :=
  ((s.player_cards.enum.filter (fun v => v.1 ≠ player)).map (fun v => v.2)).any
    (fun opponent => opponent.contains_known card)

inductive ActionTypeView where
  | Income
  | ForeignAid
  | Coup (target : Nat)
  | Tax
  | Assassinate (target : Nat)
  | Exchange
  | Steal (target : Nat)
  | BlockForeignAid
  | BlockAssassination
  | BlockSteal (card : fsm.Card)
  | PassChallenge
  | PassBlock
  | Challenge
  | ShowCard (card : fsm.Card)
  | RevealCard (card : fsm.Card)
  | DropCard
  | TakeCard
  | ShuffleDeck
deriving DecidableEq, Repr

structure ActionView where
  player : Nat
  action_type : ActionTypeView
deriving DecidableEq, Repr

/-- The card claimed by the observed action, in the `Challenge` arm of
`is_safe_action_type`; `none` is the `_ => return true` fallthrough. -/
def claimed_card : ActionTypeView → Option fsm.Card
  | .Tax => some .Duke
  | .Assassinate _ => some .Assassin
  | .Exchange => some .Ambassador
  | .Steal _ => some .Captain
  | .BlockForeignAid => some .Duke
  | .BlockAssassination => some .Contessa
  | .BlockSteal card => some card
  | _ => none

/-- `GameState::is_safe_action_type` of bots.rs; `none` is a panic (the
`unwrap` of a `None` last action, or an out-of-bounds player index). -/
def GameState.is_safe_action_type (s : GameState) (player : Nat)
    (action_type : fsm.ActionType) (last_action : Option ActionView)
    (cards_per_type : Nat) : Option Bool :=
  match action_type with
  | .ForeignAid =>
    some (decide (s.count_known .Duke = cards_per_type) &&
      !s.is_card_hold_by_opponent player .Duke)
  | .Assassinate _ =>
    some (decide (s.count_known .Duke = cards_per_type) &&
      !s.is_card_hold_by_opponent player .Contessa)
  | .Steal _ =>
    some (decide (s.count_known .Ambassador = cards_per_type) &&
      s.is_card_hold_by_opponent player .Ambassador &&
      decide (s.count_known .Captain = cards_per_type) &&
      s.is_card_hold_by_opponent player .Captain)
  | .Challenge =>
    match last_action with
    | none => none
    | some la =>
      match claimed_card la.action_type with
      | none => some true
      | some cc =>
        match s.player_cards[la.player]? with
        | none => none
        | some pc =>
          some (!pc.contains_known cc &&
            decide (s.count_known cc = cards_per_type))
  | _ => some true

structure CardsTracker where
  player : Nat
  cards_per_type : Nat
  game_states : List GameState
  last_action : Option ActionView
deriving DecidableEq, Repr

/-- The short-circuiting `all` of `CardsTracker::is_safe_action_type`: a
belief whose check panics only panics if no earlier belief already answered
`false`. -/
def is_safe_all (player : Nat) (action_type : fsm.ActionType)
    (last_action : Option ActionView) (cards_per_type : Nat) :
    List GameState → Option Bool
  | [] => some true
  | s :: rest =>
    match s.is_safe_action_type player action_type last_action cards_per_type with
    | none => none
    | some false => some false
    | some true => is_safe_all player action_type last_action cards_per_type rest

def CardsTracker.is_safe_action_type (t : CardsTracker) (player : Nat)
    (action_type : fsm.ActionType) : Option Bool :=
  is_safe_all player action_type t.last_action t.cards_per_type t.game_states

/-- The predicate C6 states, modelled from the spec sentence: in every belief
every copy of Duke is accounted for as known in the belief's hands or deck,
and no opponent is known to hold one. -/
def spec_foreign_aid_safe (t : CardsTracker) (player : Nat) : Prop :=
  ∀ s ∈ t.game_states,
    s.count_known .Duke + s.deck.count_known .Duke = t.cards_per_type ∧
    s.is_card_hold_by_opponent player .Duke = false

/-- A tracker with a single belief in which the lone Duke is known to sit in
the deck. -/
def c6_tracker : CardsTracker :=
  ⟨0, 1,
    [⟨true, .Turn 0, [2, 2], [2, 2], [2, 2],
      [.Player [.Assassin, .Captain], .Opponent ⟨[], 2⟩], [],
      ⟨[.Duke], 0⟩⟩],
    none⟩

/-- Counterexample to C6 as stated: with the lone Duke known to be in the
deck (and no opponent known to hold one) the spec-side predicate holds, yet
`is_safe_action_type(0, ForeignAid)` answers `false`, because `count_known`
sums the known cards of the player hands only and never consults
`deck.known`. -/
theorem foreign_aid_safe_counterexample :
    spec_foreign_aid_safe c6_tracker 0 ∧
    c6_tracker.is_safe_action_type 0 .ForeignAid = some false :=
  ⟨by unfold spec_foreign_aid_safe; decide, by decide⟩

theorem is_safe_all_foreign_aid {player cards_per_type : Nat}
    {last_action : Option ActionView} (l : List GameState) :
    is_safe_all player .ForeignAid last_action cards_per_type l = some true ↔
    ∀ s ∈ l, s.count_known .Duke = cards_per_type ∧
      s.is_card_hold_by_opponent player .Duke = false := by
  induction l with
  | nil => simp [is_safe_all]
  | cons s rest ih =>
    unfold is_safe_all
    simp only [GameState.is_safe_action_type]
    cases hb : decide (s.count_known fsm.Card.Duke = cards_per_type) &&
        !s.is_card_hold_by_opponent player fsm.Card.Duke
    · simp only [Bool.and_eq_false_iff, decide_eq_false_iff_not,
        Bool.not_eq_false', Bool.not_eq_false] at hb
      simp only [List.mem_cons]
      constructor
      · intro hfalse
        exact absurd hfalse (by simp)
      · intro hall
        obtain ⟨h1, h2⟩ := hall s (Or.inl rfl)
        rcases hb with hb | hb
        · exact absurd h1 hb
        · rw [h2] at hb
          simp at hb
    · simp only [Bool.and_eq_true, decide_eq_true_eq, Bool.not_eq_true'] at hb
      simp only [List.mem_cons]
      rw [ih]
      constructor
      · intro hall t ht
        rcases ht with ht | ht
        · subst ht
          exact hb
        · exact hall t ht
      · intro hall t ht
        exact hall t (Or.inr ht)

/-- Claim C6, amended. `is_safe_action_type(player, ForeignAid)` answers
`true` exactly when in every belief state the number of Dukes known in the
players' hands alone equals cards_per_type and no opponent is known to hold
one: a Duke known to be in the deck is not counted, so the check is stricter
than the spec sentence on the deck side. -/
theorem foreign_aid_safe_amended (t : CardsTracker) (player : Nat) :
    t.is_safe_action_type player .ForeignAid = some true ↔
    ∀ s ∈ t.game_states,
      s.count_known .Duke = t.cards_per_type ∧
      s.is_card_hold_by_opponent player .Duke = false := by
  unfold CardsTracker.is_safe_action_type
  exact is_safe_all_foreign_aid t.game_states

end bots
